import Mathlib

/-!
Pintos thread scheduler (`threads/thread.c`)

A shallow embedding of the scheduler of `src/src/threads/thread.c`.

* A `struct thread *` / `struct lock *` is an address, a natural number; `0` is `NULL`.
* The kernel memory holding the TCBs and the locks is a map from addresses to records.
* The intrusive lists (`ready_list`, `sleep_list`, `all_list`, a thread's
  `donation_list` and `child_list`) are sequences of TCB addresses, front first.
* A failed `ASSERT` (kernel panic) and a `NULL` dereference are the result `none`.
* A function that ends in `schedule ()` is followed up to the end of
  `thread_schedule_tail`; the statements after `schedule ()` are executed only when the
  calling thread is the one that was dispatched.
-/

namespace Pintos

/-! ## Data model -/

/-- The `enum thread_status` of a TCB. -/
inductive thread_status where
  | THREAD_RUNNING
  | THREAD_READY
  | THREAD_BLOCKED
  | THREAD_DYING
  deriving DecidableEq, Repr

/-- The `enum intr_level` of `threads/interrupt.h`. -/
inductive intr_level where
  | INTR_OFF
  | INTR_ON
  deriving DecidableEq, Repr

open thread_status intr_level

/-- The fields of `struct thread` that the scheduler reads or writes. -/
structure thread where
  tid : Int
  status : thread_status
  priority : Int
  magic : Nat
  wakeup_ticks : Int
  priority_original : Int
  _lock : Nat
  donation_list : List Nat
  nice : Int
  recent_cpu : Int
  parent : Nat
  pcb : Nat
  child_list : List Nat
  pagedir : Nat := 0
  deriving DecidableEq, Repr

/-- The field of `struct lock` that the donation code reads. -/
structure lock where
  holder : Nat
  deriving DecidableEq, Repr

/-- Constants that `thread.c` takes from `threads/thread.h`, a header that is not among
the sources: they are parameters of the embedding (`PRI_DEFAULT` is 31 unless given). -/
structure thread_h where
  PRI_MIN : Int
  PRI_MAX : Int
  NICE_DEFAULT : Int
  RECENT_CPU_DEFAULT : Int
  DONATION_MAX_DEPTH : Nat
  TID_ERROR : Int
  PRI_DEFAULT : Int := 31

/-- The scheduler state: kernel memory and the file-scope variables of `thread.c`, with
`intr_context` for being inside an external interrupt handler and `yield_on_return` for the
request made through `intr_yield_on_return`. The tick statistics and the request start
at zero and unset. -/
structure Kernel where
  threads : Nat → thread
  locks : Nat → lock
  ready_list : List Nat
  sleep_list : List Nat
  all_list : List Nat
  idle_thread : Nat
  initial_thread : Nat
  running_thread : Nat
  thread_ticks : Nat
  thread_mlfqs : Bool
  load_avg : Int
  next_tid : Int
  level : intr_level
  intr_context : Bool
  idle_ticks : Int := 0
  kernel_ticks : Int := 0
  user_ticks : Int := 0
  yield_on_return : Bool := false

/-- The value `0xcd6abf4b` of the `magic` member of a live TCB. -/
def THREAD_MAGIC : Nat := 0xcd6abf4b

/-- Memory write: the TCB at address `a` becomes `v`. -/
def store (m : Nat → thread) (a : Nat) (v : thread) : Nat → thread :=
  fun x => if x = a then v else m x

/-! ## List primitives of `lib/kernel/list.c` -/

/-- Modelled from the spec: `list_insert_ordered` of `lib/kernel/list.c`, which is not
among the sources. The element goes to its ordered position, behind the entries that are
already there with an equal key (insertion order breaks ties): it is put in front of the first
entry `e` with `less elem e`, at the back when there is none. -/
def list_insert_ordered (list : List Nat) (elem : Nat) (less : Nat → Nat → Bool) : List Nat :=
  match list with
  | [] => [elem]
  | e :: es => if less elem e then elem :: e :: es else e :: list_insert_ordered es elem less

/-- Modelled from the spec: `list_sort` of `lib/kernel/list.c`, which is not among the
sources. The list is put in the order of `less`, ties keeping their previous relative order
(a stable sort): the entries are inserted one after the other, front first. -/
def list_sort (list : List Nat) (less : Nat → Nat → Bool) : List Nat :=
  list.foldl (fun acc e => list_insert_ordered acc e less) []

/-! ## Comparison functions -/

/-- Ready-list order: `p1` goes before `p2` when its priority is strictly higher. -/
def thread_compare_priority (k : Kernel) (p1 p2 : Nat) : Bool :=
  decide ((k.threads p1).priority > (k.threads p2).priority)

/-- Sleep-list order: `p1` goes before `p2` when it wakes up strictly earlier. -/
def thread_compare_wakeup_ticks (k : Kernel) (p1 p2 : Nat) : Bool :=
  decide ((k.threads p1).wakeup_ticks < (k.threads p2).wakeup_ticks)

/-- Donation-list order: `p1` goes before `p2` when its priority is strictly higher. -/
def thread_compare_donation_priority (k : Kernel) (p1 p2 : Nat) : Bool :=
  decide ((k.threads p1).priority > (k.threads p2).priority)

/-! ## Dispatcher -/

/-- Returns true if `t` appears to point to a valid thread. -/
def is_thread (k : Kernel) (t : Nat) : Bool :=
  decide (t ≠ 0) && decide ((k.threads t).magic = THREAD_MAGIC)

/-- The running thread, after the two sanity checks. -/
def thread_current (k : Kernel) : Option Nat :=
  let t := k.running_thread
  if ¬ is_thread k t then none
  else if (k.threads t).status ≠ THREAD_RUNNING then none
  else some t

/-- Chooses the next thread to be scheduled: the front of the ready list, which is popped,
or the idle thread when the ready list is empty. -/
def next_thread_to_run (k : Kernel) : Nat × Kernel :=
  match k.ready_list with
  | [] => (k.idle_thread, k)
  | e :: es => (e, { k with ready_list := es })

/-- Completes a thread switch: the thread now running is marked running and a new time
slice starts. The page of a dying `prev` is not freed (the call is commented out). -/
def thread_schedule_tail (k : Kernel) (prev : Nat) : Option Kernel :=
  let cur := k.running_thread
  if k.level ≠ INTR_OFF then none
  else
    let k1 := { k with threads := store k.threads cur { k.threads cur with status := THREAD_RUNNING } }
    let k2 := { k1 with thread_ticks := 0 }
    if prev ≠ 0 ∧ (k2.threads prev).status = THREAD_DYING ∧ prev ≠ k2.initial_thread then
      if prev = cur then none else some k2
    else some k2

/-- Finds another thread to run and switches to it. `switch_threads` (`switch.S`) makes
`next` the running thread and hands back the thread switched from. -/
def schedule (k : Kernel) : Option Kernel :=
  let cur := k.running_thread
  let next := (next_thread_to_run k).1
  let k1 := (next_thread_to_run k).2
  if k1.level ≠ INTR_OFF then none
  else if (k1.threads cur).status = THREAD_RUNNING then none
  else if ¬ is_thread k1 next then none
  else if cur ≠ next then thread_schedule_tail { k1 with running_thread := next } cur
  else thread_schedule_tail k1 0

/-- Puts the current thread to sleep until it is unblocked. -/
def thread_block (k : Kernel) : Option Kernel :=
  if k.intr_context then none
  else if k.level ≠ INTR_OFF then none
  else
    match thread_current k with
    | none => none
    | some cur =>
      schedule { k with threads := store k.threads cur { k.threads cur with status := THREAD_BLOCKED } }

/-- Transitions a blocked thread `t` to the ready-to-run state, at its priority-ordered
place of the ready list. Does not preempt the running thread. -/
def thread_unblock (k : Kernel) (t : Nat) : Option Kernel :=
  if ¬ is_thread k t then none
  else
    let old_level := k.level
    let k1 := { k with level := INTR_OFF }
    if (k1.threads t).status ≠ THREAD_BLOCKED then none
    else
      let k2 := { k1 with ready_list := list_insert_ordered k1.ready_list t (thread_compare_priority k1) }
      let k3 := { k2 with threads := store k2.threads t { k2.threads t with status := THREAD_READY } }
      some { k3 with level := old_level }

/-- Yields the CPU: the current thread goes back to the ready list, unless it is the idle
thread, and the dispatcher runs. -/
def thread_yield (k : Kernel) : Option Kernel :=
  match thread_current k with
  | none => none
  | some cur =>
    if k.intr_context then none
    else
      let old_level := k.level
      let k1 := { k with level := INTR_OFF }
      let k2 :=
        if cur ≠ k1.idle_thread then
          { k1 with ready_list := list_insert_ordered k1.ready_list cur (thread_compare_priority k1) }
        else k1
      let k3 := { k2 with threads := store k2.threads cur { k2.threads cur with status := THREAD_READY } }
      match schedule k3 with
      | none => none
      | some k4 => if k4.running_thread = cur then some { k4 with level := old_level } else some k4

/-! ## Priority scheduling -/

/-- The running thread yields when the front of the ready list has a strictly higher
priority. The running thread is looked at only when the ready list is not empty. -/
def thread_validate_priority (k : Kernel) : Option Kernel :=
  match k.ready_list with
  | [] => some k
  | front :: _ =>
    match thread_current k with
    | none => none
    | some cur =>
      if (k.threads cur).priority < (k.threads front).priority then thread_yield k else some k

/-! ## Alarm clock -/

/-- The running thread records its wake-up tick, enters the sleep list at its ordered place
and blocks. -/
def thread_sleep (k : Kernel) (wakeup_ticks : Int) : Option Kernel :=
  let old_level := k.level
  let k1 := { k with level := INTR_OFF }
  match thread_current k1 with
  | none => none
  | some current =>
    if current = k1.idle_thread then none
    else if (k1.threads current).status ≠ THREAD_RUNNING then none
    else
      let k2 := { k1 with
        threads := store k1.threads current { k1.threads current with wakeup_ticks := wakeup_ticks } }
      let k3 := { k2 with
        sleep_list := list_insert_ordered k2.sleep_list current (thread_compare_wakeup_ticks k2) }
      match thread_block k3 with
      | none => none
      | some k4 => if k4.running_thread = current then some { k4 with level := old_level } else some k4

/-- The loop of `thread_wakeup`: `elements` is the part of the sleep list from `element`
on. An entry that is due is removed from the sleep list and unblocked; the loop stops at the
first entry that is not due, or at the end of the list. -/
def thread_wakeup_loop (current_ticks : Int) : List Nat → Kernel → Option Kernel
  | [], k => some k
  | thread_ :: rest, k =>
    if (k.threads thread_).wakeup_ticks > current_ticks then some k
    else
      match thread_unblock { k with sleep_list := rest } thread_ with
      | none => none
      | some k1 => thread_wakeup_loop current_ticks rest k1

/-- Wakes the threads of the sleep list that are due at `current_ticks`. -/
def thread_wakeup (k : Kernel) (current_ticks : Int) : Option Kernel :=
  thread_wakeup_loop current_ticks k.sleep_list k

/-! ## Priority donation -/

/-- The loop of `donate_priority`, with `n` iterations left: the holder of the lock that
`current` waits for takes the priority of `current`, and becomes `current`. -/
def donate_priority_loop : Nat → Nat → Kernel → Option Kernel
  | 0, _, k => some k
  | n + 1, current, k =>
    if (k.threads current)._lock = 0 then some k
    else
      let holder := (k.locks (k.threads current)._lock).holder
      if holder = 0 then none
      else
        donate_priority_loop n holder
          { k with threads := (store k.threads holder
              { k.threads holder with priority := (k.threads current).priority }) }

/-- Passes the running thread's priority along its wait chain, `DONATION_MAX_DEPTH` steps
at most. -/
def donate_priority (c : thread_h) (k : Kernel) : Option Kernel :=
  match thread_current k with
  | none => none
  | some current => donate_priority_loop c.DONATION_MAX_DEPTH current k

/-- Recomputes the running thread's priority from `priority_original` and its donors; the
donation list is sorted on the way. -/
def update_donation (k : Kernel) : Option Kernel :=
  match thread_current k with
  | none => none
  | some current =>
    let k1 := { k with threads := (store k.threads current
      { k.threads current with priority := (k.threads current).priority_original }) }
    if (k1.threads current).donation_list ≠ [] then
      let k2 := { k1 with threads := (store k1.threads current
        { k1.threads current with
          donation_list :=
            list_sort (k1.threads current).donation_list (thread_compare_donation_priority k1) }) }
      match (k2.threads current).donation_list with
      | [] => none
      | p1 :: _ =>
        if (k2.threads p1).priority > (k2.threads current).priority then
          some { k2 with threads := (store k2.threads current
            { k2.threads current with priority := (k2.threads p1).priority }) }
        else some k2
    else some k1

/-- The loop of `remove_donation` over the donation list: a donor that waits for `lock` is
unlinked, the others stay. -/
def remove_donation_loop (k : Kernel) (lock : Nat) : List Nat → List Nat
  | [] => []
  | donor :: rest =>
    if (k.threads donor)._lock = lock then remove_donation_loop k lock rest
    else donor :: remove_donation_loop k lock rest

/-- Removes from the running thread's donation list the donors that wait for `lock`. -/
def remove_donation (k : Kernel) (lock : Nat) : Option Kernel :=
  match thread_current k with
  | none => none
  | some thread =>
    some { k with threads := (store k.threads thread
      { k.threads thread with
        donation_list := remove_donation_loop k lock (k.threads thread).donation_list }) }

/-- Sets the current thread's priority to `new_priority`; nothing happens under MLFQS. -/
def thread_set_priority (k : Kernel) (new_priority : Int) : Option Kernel :=
  if k.thread_mlfqs then some k
  else
    match thread_current k with
    | none => none
    | some cur =>
      let k1 := { k with threads := (store k.threads cur
        { k.threads cur with priority_original := new_priority }) }
      match update_donation k1 with
      | none => none
      | some k2 => thread_validate_priority k2

/-! ## Thread creation -/

/-- Basic initialization of the TCB at `t` as a blocked thread: the page is zeroed, the
fields are set and the thread enters the all-threads list. -/
def init_thread (c : thread_h) (k : Kernel) (t : Nat) (priority : Int) : Option Kernel :=
  if t = 0 then none
  else if ¬ (c.PRI_MIN ≤ priority ∧ priority ≤ c.PRI_MAX) then none
  else
    let tcb : thread :=
      { tid := 0, status := THREAD_BLOCKED, priority := priority, magic := THREAD_MAGIC,
        wakeup_ticks := -1, priority_original := priority, _lock := 0, donation_list := [],
        nice := c.NICE_DEFAULT, recent_cpu := c.RECENT_CPU_DEFAULT, parent := 0, pcb := 0,
        child_list := [], pagedir := 0 }
    let old_level := k.level
    let k1 := { k with level := INTR_OFF, threads := store k.threads t tcb }
    let k2 := { k1 with all_list := k1.all_list ++ [t] }
    some { k2 with level := old_level }

/-- Returns a tid to use for a new thread: the counter, which is then incremented (as a
32-bit `int`). The acquire and release of `tid_lock` (`threads/synch.c`, not among the
sources) are taken to be uncontended and to leave the scheduler state as it is. -/
def allocate_tid (k : Kernel) : Int × Kernel :=
  (k.next_tid, { k with next_tid := (k.next_tid + 1 + 2 ^ 31) % 2 ^ 32 - 2 ^ 31 })

/-- Creates a new kernel thread with the given initial priority and adds it to the ready
queue; the result is its tid, or `TID_ERROR`. The three pages that `palloc_get_page` hands
out (`0` when the allocation fails) are the arguments `t`, `pcb` and `fdtable`. The initial
stack frames and the contents of the PCB are outside the scheduler state. -/
def thread_create (c : thread_h) (k : Kernel) (priority : Int) (function : Nat)
    (t pcb fdtable : Nat) : Option (Int × Kernel) :=
  if function = 0 then none
  else if t = 0 then some (c.TID_ERROR, k)
  else
    match init_thread c k t priority with
    | none => none
    | some k1 =>
      let tid := (allocate_tid k1).1
      let k2 := (allocate_tid k1).2
      let k3 := { k2 with threads := store k2.threads t { k2.threads t with tid := tid } }
      match thread_current k3 with
      | none => none
      | some parent =>
        let k4 := { k3 with threads := store k3.threads t { k3.threads t with pcb := pcb } }
        if pcb = 0 then some (c.TID_ERROR, k4)
        else if fdtable = 0 then some (c.TID_ERROR, k4)
        else
          let k5 := { k4 with threads := store k4.threads t { k4.threads t with parent := parent } }
          let k6 := { k5 with threads := (store k5.threads parent
            { k5.threads parent with child_list := (k5.threads parent).child_list ++ [t] }) }
          match thread_unblock k6 t with
          | none => none
          | some k7 =>
            match thread_validate_priority k7 with
            | none => none
            | some k8 => some (tid, k8)

/-! ## Predicates used in the statements -/

/-- The list of TCB addresses `l` is in descending order of effective priority. -/
def sorted_by_priority (k : Kernel) (l : List Nat) : Prop :=
  l.Pairwise (fun a b => (k.threads a).priority ≥ (k.threads b).priority)

/-- The list of TCB addresses `l` is in ascending order of wake-up tick. -/
def sorted_by_wakeup (k : Kernel) (l : List Nat) : Prop :=
  l.Pairwise (fun a b => (k.threads a).wakeup_ticks ≤ (k.threads b).wakeup_ticks)

/-- The entry `t` was put into `before`, giving `after`: the other entries keep their
places, the ones in front of `t` have a priority at least that of `t` and the ones
behind it a strictly lower one. -/
def placed_by_priority (k : Kernel) (before after : List Nat) (t : Nat) : Prop :=
  ∃ pre post, before = pre ++ post ∧ after = pre ++ t :: post ∧
    (∀ a ∈ pre, (k.threads a).priority ≥ (k.threads t).priority) ∧
    (∀ b ∈ post, (k.threads b).priority < (k.threads t).priority)

/-! ## Example states -/

/-- A live TCB with the given status and priority, every other field at its initial value. -/
def tcb (status : thread_status) (priority : Int) : thread :=
  { tid := 0, status := status, priority := priority, magic := THREAD_MAGIC,
    wakeup_ticks := -1, priority_original := priority, _lock := 0, donation_list := [],
    nice := 0, recent_cpu := 0, parent := 0, pcb := 0, child_list := [] }

/-- Example memory: thread 1 runs at priority 31, thread 2 is the idle thread, threads 3, 4
and 5 are ready at priorities 40, 31 and 20, thread 6 is blocked at priority 31. -/
def ready_demo_threads (a : Nat) : thread :=
  if a = 1 then tcb THREAD_RUNNING 31
  else if a = 2 then tcb THREAD_BLOCKED 0
  else if a = 3 then tcb THREAD_READY 40
  else if a = 4 then tcb THREAD_READY 31
  else if a = 5 then tcb THREAD_READY 20
  else tcb THREAD_BLOCKED 31

/-- Example state over `ready_demo_threads` with the ready list 3, 4, 5. -/
def ready_demo : Kernel :=
  { threads := ready_demo_threads, locks := fun _ => { holder := 0 },
    ready_list := [3, 4, 5], sleep_list := [], all_list := [1, 2, 3, 4, 5, 6],
    idle_thread := 2, initial_thread := 1, running_thread := 1, thread_ticks := 0,
    thread_mlfqs := false, load_avg := 0, next_tid := 7, level := INTR_ON,
    intr_context := false }

/-- A sequence of `thread_unblock` calls, on the threads of `ts` from the front on. -/
def unblock_all (k : Kernel) : List Nat → Option Kernel
  | [] => some k
  | t :: ts =>
    match thread_unblock k t with
    | none => none
    | some k1 => unblock_all k1 ts

/-- In the sequence `inserted` of threads, listed in the order in which they entered the
ready registry, `s` is the earliest one of maximum priority: the ones before it have a
strictly lower priority and the ones after it have at most its priority. -/
def earliest_of_highest_priority (k : Kernel) (inserted : List Nat) (s : Nat) : Prop :=
  ∃ pre post, inserted = pre ++ s :: post ∧
    (∀ a ∈ pre, (k.threads a).priority < (k.threads s).priority) ∧
    (∀ b ∈ post, (k.threads b).priority ≤ (k.threads s).priority)

/-- Example state for the scenario of threads A (address 3, priority 30) and B (address 4,
priority 20): both are blocked, thread 1 runs and the ready list is empty. -/
def ab_demo : Kernel :=
  { threads := fun a =>
      if a = 1 then tcb THREAD_RUNNING 31
      else if a = 3 then tcb THREAD_BLOCKED 30
      else tcb THREAD_BLOCKED 20,
    locks := fun _ => { holder := 0 },
    ready_list := [], sleep_list := [], all_list := [1, 2, 3, 4],
    idle_thread := 2, initial_thread := 1, running_thread := 1, thread_ticks := 0,
    thread_mlfqs := false, load_avg := 0, next_tid := 5, level := INTR_ON,
    intr_context := false }

/-- A live blocked TCB of priority 31 that sleeps until `wakeup_ticks`. -/
def sleeper (wakeup_ticks : Int) : thread :=
  { tcb THREAD_BLOCKED 31 with wakeup_ticks := wakeup_ticks }

/-- Example state of the alarm clock: threads 3, 4 and 5 sleep until ticks 5, 10 and 15,
thread 1 runs and the ready list is empty. -/
def alarm_demo : Kernel :=
  { threads := fun a =>
      if a = 1 then tcb THREAD_RUNNING 31
      else if a = 3 then sleeper 5
      else if a = 4 then sleeper 10
      else if a = 5 then sleeper 15
      else tcb THREAD_BLOCKED 0,
    locks := fun _ => { holder := 0 },
    ready_list := [], sleep_list := [3, 4, 5], all_list := [1, 2, 3, 4, 5],
    idle_thread := 2, initial_thread := 1, running_thread := 1, thread_ticks := 0,
    thread_mlfqs := false, load_avg := 0, next_tid := 6, level := INTR_OFF,
    intr_context := true }

/-- The threads of the sleep registry whose wake-up tick is at most `current_ticks`, in the
order of the registry. -/
def due_threads (k : Kernel) (current_ticks : Int) : List Nat :=
  k.sleep_list.filter (fun a => decide ((k.threads a).wakeup_ticks ≤ current_ticks))

/-- The threads of the sleep registry whose wake-up tick is after `current_ticks`, in the
order of the registry. -/
def sleeping_on (k : Kernel) (current_ticks : Int) : List Nat :=
  k.sleep_list.filter (fun a => decide ((k.threads a).wakeup_ticks > current_ticks))

/-- The wait chain that starts at `cur`: `cur` waits for a lock held by the first thread of
`holders`, which waits for a lock held by the second one, and so on; the last one waits for
no lock. -/
def wait_chain (k : Kernel) : Nat → List Nat → Prop
  | cur, [] => (k.threads cur)._lock = 0
  | cur, h :: rest =>
    (k.threads cur)._lock ≠ 0 ∧ (k.locks (k.threads cur)._lock).holder = h ∧ h ≠ 0 ∧
      wait_chain k h rest

/-- The holders met on the first `n` steps of the wait chain that starts at `cur`, the
nearest one first. The chain may be longer than `n`, or run in a circle; it ends at a thread
that waits for no lock. -/
def chain_holders (k : Kernel) : Nat → Nat → List Nat
  | 0, _ => []
  | n + 1, cur =>
    if (k.threads cur)._lock = 0 then []
    else if (k.locks (k.threads cur)._lock).holder = 0 then []
    else (k.locks (k.threads cur)._lock).holder ::
      chain_holders k n (k.locks (k.threads cur)._lock).holder

/-- The constants of the stock `threads/thread.h`, with a donation depth of 8. -/
def demo_h : thread_h :=
  { PRI_MIN := 0, PRI_MAX := 63, NICE_DEFAULT := 0, RECENT_CPU_DEFAULT := 0,
    DONATION_MAX_DEPTH := 8, TID_ERROR := -1 }

/-- A live TCB with the given status and priority that waits for the lock at `l`. -/
def waiter (status : thread_status) (priority : Int) (l : Nat) : thread :=
  { tcb status priority with _lock := l }

/-- Example state of a nested donation: the running thread 1 (priority 40) waits for lock 1,
held by thread 3 (priority 20), which waits for lock 2, held by thread 4 (priority 10),
which waits for no lock. Thread 5 (priority 15) is not on the chain. -/
def chain_demo : Kernel :=
  { threads := fun a =>
      if a = 1 then waiter THREAD_RUNNING 40 1
      else if a = 3 then waiter THREAD_BLOCKED 20 2
      else if a = 4 then tcb THREAD_READY 10
      else tcb THREAD_BLOCKED 15,
    locks := fun l => if l = 1 then { holder := 3 } else if l = 2 then { holder := 4 }
      else { holder := 0 },
    ready_list := [4], sleep_list := [], all_list := [1, 2, 3, 4, 5],
    idle_thread := 2, initial_thread := 1, running_thread := 1, thread_ticks := 0,
    thread_mlfqs := false, load_avg := 0, next_tid := 6, level := INTR_OFF,
    intr_context := false }

/-- Example state of a circular wait: the running thread 1 (priority 40) waits for lock 1,
held by thread 3 (priority 20), which waits for lock 2, held by thread 4 (priority 10),
which waits for lock 3, held by thread 3 again. Thread 5 (priority 15) is not on the
chain. -/
def cycle_demo : Kernel :=
  { threads := fun a =>
      if a = 1 then waiter THREAD_RUNNING 40 1
      else if a = 3 then waiter THREAD_BLOCKED 20 2
      else if a = 4 then waiter THREAD_BLOCKED 10 3
      else tcb THREAD_BLOCKED 15,
    locks := fun l => if l = 1 then { holder := 3 } else if l = 2 then { holder := 4 }
      else if l = 3 then { holder := 3 } else { holder := 0 },
    ready_list := [], sleep_list := [], all_list := [1, 2, 3, 4, 5],
    idle_thread := 2, initial_thread := 1, running_thread := 1, thread_ticks := 0,
    thread_mlfqs := false, load_avg := 0, next_tid := 6, level := INTR_OFF,
    intr_context := false }

/-- Example state of a donation to a holder of higher priority: the running thread 1
(priority 40) waits for lock 1, held by thread 3, which is blocked with priority 50, its
own base priority, and waits for no lock. -/
def lowering_demo : Kernel :=
  { threads := fun a =>
      if a = 1 then waiter THREAD_RUNNING 40 1
      else if a = 3 then tcb THREAD_BLOCKED 50
      else tcb THREAD_BLOCKED 0,
    locks := fun l => if l = 1 then { holder := 3 } else { holder := 0 },
    ready_list := [], sleep_list := [], all_list := [1, 2, 3],
    idle_thread := 2, initial_thread := 1, running_thread := 1, thread_ticks := 0,
    thread_mlfqs := false, load_avg := 0, next_tid := 4, level := INTR_OFF,
    intr_context := false }

/-- The maximum of `base` and of the priorities of the threads of `donors`. -/
def max_with_donors (k : Kernel) (base : Int) (donors : List Nat) : Int :=
  donors.foldl (fun m d => max m (k.threads d).priority) base

/-- The donors of the running thread that do not wait for `lock`, in the order of its
donation list. -/
def donors_not_waiting (k : Kernel) (lock : Nat) : List Nat :=
  (k.threads k.running_thread).donation_list.filter
    (fun d => decide ((k.threads d)._lock ≠ lock))

/-- A live running TCB with the given effective and base priority and donation list. -/
def donee (priority priority_original : Int) (donation_list : List Nat) : thread :=
  { tcb THREAD_RUNNING priority with
    priority_original := priority_original, donation_list := donation_list }

/-- Example state of the scenario of H and D: the running thread 1 (H, base priority 10)
holds lock 1 and has the effective priority 40 of its single donor, thread 3 (D), which is
blocked on lock 1. -/
def release_demo : Kernel :=
  { threads := fun a =>
      if a = 1 then donee 40 10 [3]
      else if a = 3 then waiter THREAD_BLOCKED 40 1
      else tcb THREAD_BLOCKED 0,
    locks := fun l => if l = 1 then { holder := 1 } else { holder := 0 },
    ready_list := [], sleep_list := [], all_list := [1, 2, 3],
    idle_thread := 2, initial_thread := 1, running_thread := 1, thread_ticks := 0,
    thread_mlfqs := false, load_avg := 0, next_tid := 4, level := INTR_ON,
    intr_context := false }

/-- Example state with donors out of priority order: the running thread 1 (base priority
10, effective priority 40) holds locks 1 and 2; its donation list is thread 3 (priority 20,
blocked on lock 2), thread 4 (priority 30, blocked on lock 2) and thread 5 (priority 40,
blocked on lock 1), in this order. -/
def donors_demo : Kernel :=
  { threads := fun a =>
      if a = 1 then donee 40 10 [3, 4, 5]
      else if a = 3 then waiter THREAD_BLOCKED 20 2
      else if a = 4 then waiter THREAD_BLOCKED 30 2
      else if a = 5 then waiter THREAD_BLOCKED 40 1
      else tcb THREAD_BLOCKED 0,
    locks := fun l => if l = 1 then { holder := 1 } else if l = 2 then { holder := 1 }
      else { holder := 0 },
    ready_list := [], sleep_list := [], all_list := [1, 2, 3, 4, 5],
    idle_thread := 2, initial_thread := 1, running_thread := 1, thread_ticks := 0,
    thread_mlfqs := false, load_avg := 0, next_tid := 6, level := INTR_ON,
    intr_context := false }

/-! ## Booting and the timer tick -/

/-- The number of timer ticks to give each thread. -/
def TIME_SLICE : Nat := 4

/-- The file-scope variables as the loader leaves them: the lists are not set up, the
counters are zero and `next_tid` has its initial value 1. The memory, the page of the code
that is running and the `-o mlfqs` option are given; interrupts are off. -/
def boot (memory : Nat → thread) (running : Nat) (mlfqs : Bool) : Kernel :=
  { threads := memory, locks := fun _ => { holder := 0 },
    ready_list := [], sleep_list := [], all_list := [],
    idle_thread := 0, initial_thread := 0, running_thread := running, thread_ticks := 0,
    thread_mlfqs := mlfqs, load_avg := 0, next_tid := 1, level := INTR_OFF,
    intr_context := false }

/-- Initializes the threading system: the lists are emptied and the code that is running
becomes the thread `main`, which is running and gets the first tid. -/
def thread_init (c : thread_h) (k : Kernel) : Option Kernel :=
  if k.level ≠ INTR_OFF then none
  else
    let k1 := { k with ready_list := [], sleep_list := [], all_list := [] }
    let k2 := { k1 with initial_thread := k1.running_thread }
    match init_thread c k2 k2.initial_thread c.PRI_DEFAULT with
    | none => none
    | some k3 =>
      let k4 := { k3 with threads := (store k3.threads k3.initial_thread
        { k3.threads k3.initial_thread with status := THREAD_RUNNING }) }
      let tid := (allocate_tid k4).1
      let k5 := (allocate_tid k4).2
      some { k5 with threads := (store k5.threads k5.initial_thread
        { k5.threads k5.initial_thread with tid := tid }) }

/-- Called by the timer interrupt handler at each timer tick: the statistics are updated,
the time-slice counter (an `unsigned`) is incremented, and a yield on return from the
interrupt is requested when it has reached `TIME_SLICE`. -/
def thread_tick (k : Kernel) : Option Kernel :=
  match thread_current k with
  | none => none
  | some t =>
    let k1 :=
      if t = k.idle_thread then { k with idle_ticks := k.idle_ticks + 1 }
      else if (k.threads t).pagedir ≠ 0 then { k with user_ticks := k.user_ticks + 1 }
      else { k with kernel_ticks := k.kernel_ticks + 1 }
    let k2 := { k1 with thread_ticks := (k1.thread_ticks + 1) % 2 ^ 32 }
    if k2.thread_ticks ≥ TIME_SLICE then some { k2 with yield_on_return := true }
    else some k2

/-! ## Fixed-point arithmetic of `threads/fixed-op.h` -/

/-- The value that a 32-bit `int` takes when the mathematical result is `x`: `x` itself when
it is representable, and `x` reduced modulo `2 ^ 32` otherwise. -/
def wrap32 (x : Int) : Int := (x + 2 ^ 31) % 2 ^ 32 - 2 ^ 31

/-- Modelled from the spec: the scale factor `2 ^ 14` of the 17.14 fixed-point numbers of
`threads/fixed-op.h`, which is not among the sources. -/
def FP_SCALE : Int := 2 ^ 14

/-- Modelled from the spec: integer to fixed point (`threads/fixed-op.h` is not among the
sources). -/
def int_fp (n : Int) : Int := wrap32 (n * FP_SCALE)

/-- Modelled from the spec: fixed point to integer, truncating (`threads/fixed-op.h` is
not among the sources). -/
def fp_int (x : Int) : Int := x.tdiv FP_SCALE

/-- Modelled from the spec: fixed point to integer, rounding to the nearest
(`threads/fixed-op.h` is not among the sources). -/
def fp_int_round (x : Int) : Int :=
  if x ≥ 0 then (wrap32 (x + FP_SCALE / 2)).tdiv FP_SCALE
  else (wrap32 (x - FP_SCALE / 2)).tdiv FP_SCALE

/-- Modelled from the spec: the sum of two fixed-point numbers (`threads/fixed-op.h` is
not among the sources). -/
def fp_add (x y : Int) : Int := wrap32 (x + y)

/-- Modelled from the spec: the difference of two fixed-point numbers
(`threads/fixed-op.h` is not among the sources). -/
def fp_sub (x y : Int) : Int := wrap32 (x - y)

/-- Modelled from the spec: the product of two fixed-point numbers, formed in 64 bits and
rescaled, the division truncating as in C (`threads/fixed-op.h` is not among the
sources). -/
def fp_mul (x y : Int) : Int := wrap32 ((x * y).tdiv FP_SCALE)

/-- Modelled from the spec: the quotient of two fixed-point numbers, the dividend scaled in
64 bits, the division truncating as in C (`threads/fixed-op.h` is not among the sources).
The divisor is not zero. -/
def fp_div (x y : Int) : Int := wrap32 ((x * FP_SCALE).tdiv y)

/-! ## MLFQS -/

/-- The value that the body of `mlfqs_update_priority` computes from `recent_cpu` and
`nice`: the fixed-point expression, rounded, and clamped to `PRI_MAX` and `PRI_MIN`. -/
def mlfqs_priority (c : thread_h) (recent_cpu nice : Int) : Int :=
  let priority := fp_int_round
    (fp_add (fp_div recent_cpu (int_fp (-4))) (int_fp (wrap32 (c.PRI_MAX - wrap32 (nice * 2)))))
  let priority := if priority > c.PRI_MAX then c.PRI_MAX else priority
  if priority < c.PRI_MIN then c.PRI_MIN else priority

/-- Recomputes the priority of `thread`, a TCB address, unless it is the idle thread. -/
def mlfqs_update_priority (c : thread_h) (k : Kernel) (thread : Nat) : Kernel :=
  if thread = k.idle_thread then k
  else
    { k with threads := (store k.threads thread
      { k.threads thread with
        priority := mlfqs_priority c (k.threads thread).recent_cpu (k.threads thread).nice }) }

/-- Recomputes the priority of every thread of the all-threads list, then sorts the ready
list. -/
def mlfqs_update_priority_all (c : thread_h) (k : Kernel) : Kernel :=
  let k1 := k.all_list.foldl (fun acc t => mlfqs_update_priority c acc t) k
  { k1 with ready_list := list_sort k1.ready_list (thread_compare_priority k1) }

/-- Recomputes `recent_cpu` of `thread`, a TCB address, unless it is the idle thread. A
zero divisor (a trap) is the result `none`. -/
def mlfqs_update_recent_cpu (k : Kernel) (thread : Nat) : Option Kernel :=
  if thread = k.idle_thread then some k
  else
    let k' := fp_mul (int_fp 2) k.load_avg
    if fp_add k' (int_fp 1) = 0 then none
    else
      let a := fp_div k' (fp_add k' (int_fp 1))
      some { k with threads := (store k.threads thread
        { k.threads thread with
          recent_cpu := fp_add (fp_mul a (k.threads thread).recent_cpu)
            (int_fp (k.threads thread).nice) }) }

/-- Recomputes the load average from the number of ready threads, the running thread
counted unless it is the idle thread. -/
def mlfqs_update_load_avg (k : Kernel) : Option Kernel :=
  let ready_threads := wrap32 (k.ready_list.length : Int)
  match thread_current k with
  | none => none
  | some cur =>
    let ready_threads := if cur ≠ k.idle_thread then wrap32 (ready_threads + 1) else ready_threads
    let a := fp_div (int_fp 59) (int_fp 60)
    let b := fp_div (int_fp 1) (int_fp 60)
    some { k with load_avg := fp_add (fp_mul a k.load_avg) (fp_mul b (int_fp ready_threads)) }

/-- Sets the current thread's nice value to `nice`, recomputes its priority, sorts the
ready list and validates the priority unless the thread is the idle thread. -/
def thread_set_nice (c : thread_h) (k : Kernel) (nice : Int) : Option Kernel :=
  let old_level := k.level
  let k1 := { k with level := INTR_OFF }
  match thread_current k1 with
  | none => none
  | some thread =>
    let k2 := { k1 with threads := (store k1.threads thread
      { k1.threads thread with nice := nice }) }
    let k3 := mlfqs_update_priority c k2 thread
    let k4 := { k3 with ready_list := list_sort k3.ready_list (thread_compare_priority k3) }
    if thread ≠ k4.idle_thread then
      match thread_validate_priority k4 with
      | none => none
      | some k5 =>
        if k5.running_thread = thread then some { k5 with level := old_level } else some k5
    else some { k4 with level := old_level }

/-- Returns the current thread's nice value; the state is as before. -/
def thread_get_nice (k : Kernel) : Option Int :=
  match thread_current { k with level := INTR_OFF } with
  | none => none
  | some t => some (k.threads t).nice

/-- The threads of the all-threads list carry pairwise different tids, each at least 1 and
below the next tid to hand out. -/
def tids_in_use (k : Kernel) : Prop :=
  k.all_list.Pairwise (fun a b => (k.threads a).tid ≠ (k.threads b).tid) ∧
    ∀ a ∈ k.all_list, 1 ≤ (k.threads a).tid ∧ (k.threads a).tid < k.next_tid

/-- The tids handed out by `n` calls of `allocate_tid`, one after the other, and the state
after them. -/
def allocate_tids : Nat → Kernel → List Int × Kernel
  | 0, k => ([], k)
  | n + 1, k =>
    ((allocate_tid k).1 :: (allocate_tids n (allocate_tid k).2).1,
      (allocate_tids n (allocate_tid k).2).2)

/-- Example boot state: the code that is running occupies the page at address 1. -/
def boot_demo : Kernel := boot (fun _ => tcb THREAD_BLOCKED 0) 1 false

/-- The timer ticks `n` times in a row. -/
def thread_tick_times : Nat → Kernel → Option Kernel
  | 0, k => some k
  | n + 1, k =>
    match thread_tick k with
    | none => none
    | some k1 => thread_tick_times n k1

/-- The priority formula of the MLFQS in the words of the specification:
`PRI_MAX - recent_cpu / 4 - nice * 2`, evaluated in fixed point and converted to an integer
by rounding to the nearest. -/
def mlfqs_formula (c : thread_h) (recent_cpu nice : Int) : Int :=
  fp_int_round
    (fp_sub (fp_sub (int_fp c.PRI_MAX) (fp_div recent_cpu (int_fp 4))) (int_fp (nice * 2)))

/-- A priority clamped into the legal range. -/
def clamp_priority (c : thread_h) (priority : Int) : Int :=
  max c.PRI_MIN (min c.PRI_MAX priority)

/-- A live TCB with the given status, priority, nice value and `recent_cpu`. -/
def mlfqs_tcb (status : thread_status) (priority nice recent_cpu : Int) : thread :=
  { tcb status priority with nice := nice, recent_cpu := recent_cpu }

/-- Example state under MLFQS: thread 1 runs with priority 63, nice 0 and `recent_cpu` 0;
thread 2 is the idle thread; the ready list is thread 3 (priority 10, nice 2,
`recent_cpu` 16.0, that is 262144), thread 4 (priority 5, nice 0, `recent_cpu` 8.0) and
thread 5 (priority 0, nice 0, `recent_cpu` 8.0); the load average is 0. -/
def mlfqs_demo : Kernel :=
  { threads := fun a =>
      if a = 1 then mlfqs_tcb THREAD_RUNNING 63 0 0
      else if a = 3 then mlfqs_tcb THREAD_READY 10 2 262144
      else if a = 4 then mlfqs_tcb THREAD_READY 5 0 131072
      else if a = 5 then mlfqs_tcb THREAD_READY 0 0 131072
      else mlfqs_tcb THREAD_BLOCKED 0 0 0,
    locks := fun _ => { holder := 0 },
    ready_list := [3, 4, 5], sleep_list := [], all_list := [1, 2, 3, 4, 5],
    idle_thread := 2, initial_thread := 1, running_thread := 1, thread_ticks := 0,
    thread_mlfqs := true, load_avg := 0, next_tid := 6, level := INTR_ON,
    intr_context := false }

/-- The number of ready threads that the load average counts: the threads of the ready
registry, and the running thread unless it is the idle thread. -/
def ready_count (k : Kernel) : Int :=
  (k.ready_list.length : Int) + (if k.running_thread = k.idle_thread then 0 else 1)

/-- The fixed-point expression that `mlfqs_update_load_avg` stores, as a function of the load
average and the count: `(59/60) * load_avg + (1/60) * ready_count` with every operation
done by the fixed-point helpers. -/
def load_avg_formula (load_avg ready_count : Int) : Int :=
  fp_add (fp_mul (fp_div (int_fp 59) (int_fp 60)) load_avg)
    (fp_mul (fp_div (int_fp 1) (int_fp 60)) (int_fp ready_count))

/-- The decay factor of `recent_cpu` in the words of the specification:
`(2 * load_avg) / (2 * load_avg + 1)`, evaluated in fixed point. -/
def recent_cpu_decay (load_avg : Int) : Int :=
  fp_div (fp_mul (int_fp 2) load_avg) (fp_add (fp_mul (int_fp 2) load_avg) (int_fp 1))

/-- Example state under MLFQS in which the idle thread runs: `mlfqs_demo` with thread 2, of
priority 0, running in place of thread 1. -/
def idle_running_demo : Kernel :=
  { mlfqs_demo with
    running_thread := 2,
    ready_list := [],
    threads := fun a =>
      if a = 2 then mlfqs_tcb THREAD_RUNNING 0 0 0
      else if a = 1 then mlfqs_tcb THREAD_BLOCKED 63 0 0
      else mlfqs_demo.threads a }

/-! ## Definitions for the fixed-point laws -/

/-- Returns 100 times the system load average, rounded to the nearest integer; the state is
as before. -/
def thread_get_load_avg (k : Kernel) : Int :=
  fp_int_round (fp_mul k.load_avg (int_fp 100))

/-- Returns 100 times the current thread's `recent_cpu`, rounded to the nearest integer;
the state is as before. -/
def thread_get_recent_cpu (k : Kernel) : Option Int :=
  match thread_current { k with level := INTR_OFF } with
  | none => none
  | some t => some (fp_int_round (fp_mul (k.threads t).recent_cpu (int_fp 100)))

/-- Modelled from the spec: the 64-bit value `x * y / 2 ^ 14` that `fp_mul` forms before it
is stored in an `int` (`threads/fixed-op.h` is not among the sources). -/
def fp_mul_wide (x y : Int) : Int := (x * y).tdiv FP_SCALE

/-- Modelled from the spec: the 64-bit value `x * 2 ^ 14 / y` that `fp_div` forms before it
is stored in an `int` (`threads/fixed-op.h` is not among the sources). -/
def fp_div_wide (x y : Int) : Int := (x * FP_SCALE).tdiv y

/-- A value that a 32-bit `int` holds. -/
@[reducible] def representable (x : Int) : Prop := -2 ^ 31 ≤ x ∧ x < 2 ^ 31

/-- Example state under MLFQS with `2 ^ 17 - 1` ready threads, at the addresses 3 to
`2 ^ 17 + 1`: thread 1 runs, thread 2 is the idle thread, the load average is 0. -/
def crowded_demo : Kernel :=
  { threads := fun a =>
      if a = 1 then mlfqs_tcb THREAD_RUNNING 63 0 0
      else if a = 2 then mlfqs_tcb THREAD_BLOCKED 0 0 0
      else mlfqs_tcb THREAD_READY 31 0 0,
    locks := fun _ => { holder := 0 },
    ready_list := List.range' 3 131071, sleep_list := [],
    all_list := 1 :: 2 :: List.range' 3 131071,
    idle_thread := 2, initial_thread := 1, running_thread := 1, thread_ticks := 0,
    thread_mlfqs := true, load_avg := 0, next_tid := 131074, level := INTR_ON,
    intr_context := false }

/-! ## Definitions for the dispatch invariant -/

/-- Deschedules the current thread and destroys it. The argument `process_exit` stands for
the function of that name of `userprog/process.c`, which is not among the sources: it maps
the scheduler state to the one it leaves, `none` when it does not return. When `schedule`
comes back to the caller, `NOT_REACHED` panics. -/
def thread_exit (process_exit : Kernel → Option Kernel) (k : Kernel) : Option Kernel :=
  if k.intr_context then none
  else
    match process_exit k with
    | none => none
    | some k1 =>
      let k2 := { k1 with level := INTR_OFF }
      match thread_current k2 with
      | none => none
      | some cur =>
        let k3 := { k2 with all_list := k2.all_list.erase cur }
        match thread_current k3 with
        | none => none
        | some cur1 =>
          match schedule { k3 with threads := (store k3.threads cur1
              { k3.threads cur1 with status := THREAD_DYING }) } with
          | none => none
          | some k4 => if k4.running_thread = cur1 then none else some k4

/-- The state `k` is ready for a dispatch away from `cur`: `cur` is the running thread and
the only TCB with status running, no interrupt handler runs, the idle thread exists, and the
ready list holds valid TCBs, each once, and not `cur`. -/
def dispatch_ready (k : Kernel) (cur : Nat) : Prop :=
  thread_current k = some cur ∧ k.intr_context = false ∧
  (∀ a, is_thread k a = true → (k.threads a).status = THREAD_RUNNING → a = cur) ∧
  is_thread k k.idle_thread = true ∧
  (∀ a ∈ k.ready_list, is_thread k a = true) ∧ k.ready_list.Nodup ∧ cur ∉ k.ready_list

/-- The state `k1` is the outcome of a dispatch from `k`, in which `prev` was given the status
`given` and `next` was selected: `next` runs and is the one TCB with status running, it is
not in the ready list, the time slice is new, `prev` has the status it was given unless it is
`next`, and only `status` members were written. -/
def dispatched (k k1 : Kernel) (prev next : Nat) (given : thread_status) : Prop :=
  k1.running_thread = next ∧
  (∀ a, is_thread k1 a = true → ((k1.threads a).status = THREAD_RUNNING ↔ a = next)) ∧
  next ∉ k1.ready_list ∧
  k1.thread_ticks = 0 ∧
  (prev ≠ next → (k1.threads prev).status = given) ∧
  (∀ a, k1.threads a = { k.threads a with status := (k1.threads a).status })

/-- The ready list at the call of `schedule` in `thread_yield`: the running thread `cur` has
entered it at its ordered place, unless it is the idle thread. -/
def ready_list_of_yield (k : Kernel) (cur : Nat) : List Nat :=
  if cur ≠ k.idle_thread then list_insert_ordered k.ready_list cur (thread_compare_priority k)
  else k.ready_list

/-- Example state in which the idle thread, thread 2, runs with interrupts off and nothing is
ready, as in the loop of `idle` before its `thread_block`; thread 1 is blocked. -/
def idle_demo : Kernel :=
  { threads := fun a => if a = 2 then tcb THREAD_RUNNING 0 else tcb THREAD_BLOCKED 31,
    locks := fun _ => { holder := 0 },
    ready_list := [], sleep_list := [], all_list := [1, 2],
    idle_thread := 2, initial_thread := 1, running_thread := 2, thread_ticks := 3,
    thread_mlfqs := false, load_avg := 0, next_tid := 3, level := INTR_OFF,
    intr_context := false }

/-- Example state: `ready_demo` with interrupts off, as a caller of `thread_block` has
them. -/
def dispatch_demo : Kernel := { ready_demo with level := INTR_OFF }

/-- Example state of a priority inversion: the running thread 1 (priority 30) waits for
lock 1, held by thread 4 (priority 10), which is ready behind thread 3 (priority 20); the
ready list 3, 4 is in descending order of priority. -/
def inversion_demo : Kernel :=
  { threads := fun a =>
      if a = 1 then waiter THREAD_RUNNING 30 1
      else if a = 3 then tcb THREAD_READY 20
      else if a = 4 then tcb THREAD_READY 10
      else tcb THREAD_BLOCKED 0,
    locks := fun l => if l = 1 then { holder := 4 } else { holder := 0 },
    ready_list := [3, 4], sleep_list := [], all_list := [1, 2, 3, 4],
    idle_thread := 2, initial_thread := 1, running_thread := 1, thread_ticks := 0,
    thread_mlfqs := false, load_avg := 0, next_tid := 5, level := INTR_OFF,
    intr_context := false }

/-- The update of the load average as a number: `(59/60) * load_avg + (1/60) * ready_count`
in units of `2 ^ -14`, computed exactly and rounded down once at the end. -/
def load_avg_exact (load_avg ready_count : Int) : Int :=
  (59 * load_avg + ready_count * FP_SCALE) / 60

/-! ## Lemmas on the memory and the list primitives -/

theorem store_same (m : Nat → thread) (a : Nat) (v : thread) : store m a v a = v := by
  simp [store]

theorem store_other (m : Nat → thread) (a b : Nat) (v : thread) (h : b ≠ a) :
    store m a v b = m b := by
  simp [store, h]

/-- Where `list_insert_ordered` puts the element: behind a front part none of whose entries
it precedes, and right in front of the first entry that it precedes. -/
theorem list_insert_ordered_split (less : Nat → Nat → Bool) (x : Nat) (l : List Nat) :
    ∃ pre post, l = pre ++ post ∧ list_insert_ordered l x less = pre ++ x :: post ∧
      (∀ a ∈ pre, less x a = false) ∧ (∀ b, post.head? = some b → less x b = true) := by
  induction l with
  | nil => exact ⟨[], [], rfl, rfl, by simp, by simp⟩
  | cons e es ih =>
    by_cases h : less x e = true
    · refine ⟨[], e :: es, rfl, ?_, by simp, ?_⟩
      · simp [list_insert_ordered, h]
      · intro b hb
        simp at hb
        subst hb
        exact h
    · obtain ⟨pre, post, h1, h2, h3, h4⟩ := ih
      refine ⟨e :: pre, post, by simp [h1], ?_, ?_, h4⟩
      · simp [list_insert_ordered, h, h2]
      · intro a ha
        rcases List.mem_cons.1 ha with rfl | ha
        · simpa using h
        · exact h3 a ha

/-- In a list sorted by descending key, the element ends up behind the keys that are at least
its own and in front of the strictly smaller ones, and the list stays sorted. -/
theorem list_insert_ordered_desc (key : Nat → Int) (x : Nat) (l : List Nat)
    (hs : l.Pairwise (fun a b => key a ≥ key b)) :
    ∃ pre post, l = pre ++ post ∧
      list_insert_ordered l x (fun a b => decide (key a > key b)) = pre ++ x :: post ∧
      (∀ a ∈ pre, key a ≥ key x) ∧ (∀ b ∈ post, key b < key x) ∧
      (pre ++ x :: post).Pairwise (fun a b => key a ≥ key b) := by
  obtain ⟨pre, post, h1, h2, h3, h4⟩ :=
    list_insert_ordered_split (fun a b => decide (key a > key b)) x l
  subst h1
  have hpre : ∀ a ∈ pre, key a ≥ key x := by
    intro a ha
    have := h3 a ha
    simp at this
    exact this
  have hpost : ∀ b ∈ post, key b < key x := by
    intro b hb
    cases post with
    | nil => simp at hb
    | cons p ps =>
      have hp : key p < key x := by
        have := h4 p rfl
        simpa using this
      rcases List.mem_cons.1 hb with rfl | hb
      · exact hp
      · have hpp := (List.pairwise_append.1 hs).2.1
        have := (List.pairwise_cons.1 hpp).1 b hb
        omega
  refine ⟨pre, post, rfl, h2, hpre, hpost, ?_⟩
  rw [List.pairwise_append] at hs ⊢
  refine ⟨hs.1, ?_, ?_⟩
  · rw [List.pairwise_cons]
    exact ⟨fun b hb => le_of_lt (hpost b hb), hs.2.1⟩
  · intro a ha b hb
    rcases List.mem_cons.1 hb with rfl | hb
    · exact hpre a ha
    · exact hs.2.2 a ha b hb

/-! ## Lemmas on the dispatcher -/

theorem is_thread_iff (k : Kernel) (t : Nat) :
    is_thread k t = true ↔ t ≠ 0 ∧ (k.threads t).magic = THREAD_MAGIC := by
  simp [is_thread]

theorem thread_current_eq_some (k : Kernel) (cur : Nat) :
    thread_current k = some cur ↔
      k.running_thread = cur ∧ is_thread k cur = true ∧ (k.threads cur).status = THREAD_RUNNING := by
  unfold thread_current
  by_cases h1 : is_thread k k.running_thread = true
  · by_cases h2 : (k.threads k.running_thread).status = THREAD_RUNNING
    · simp [h1, h2]
      rintro rfl
      exact ⟨h1, h2⟩
    · simp [h1, h2]
      rintro rfl
      simp [h2]
  · simp [h1]
    rintro rfl h
    exact absurd h h1

theorem thread_compare_priority_eq (k : Kernel) :
    thread_compare_priority k =
      fun p1 p2 => decide ((k.threads p1).priority > (k.threads p2).priority) := rfl

theorem thread_compare_wakeup_ticks_eq (k : Kernel) :
    thread_compare_wakeup_ticks k =
      fun p1 p2 => decide ((k.threads p1).wakeup_ticks < (k.threads p2).wakeup_ticks) := rfl

theorem thread_compare_donation_priority_eq (k : Kernel) :
    thread_compare_donation_priority k =
      fun p1 p2 => decide ((k.threads p1).priority > (k.threads p2).priority) := rfl

/-- The result of `thread_unblock` on a valid blocked thread. -/
theorem thread_unblock_eq (k : Kernel) (t : Nat) (ht : is_thread k t = true)
    (hb : (k.threads t).status = THREAD_BLOCKED) :
    thread_unblock k t = some { k with
      ready_list := list_insert_ordered k.ready_list t (thread_compare_priority k),
      threads := store k.threads t { k.threads t with status := THREAD_READY } } := by
  simp [thread_unblock, ht, hb, thread_compare_priority_eq]

/-- The result of `thread_yield` for a running thread that is not the idle thread: it is
enqueued, and the front `next` of the ready list is dispatched. -/
theorem thread_yield_eq (k : Kernel) (cur next : Nat) (rest : List Nat)
    (hc : thread_current k = some cur) (hctx : k.intr_context = false)
    (hidle : cur ≠ k.idle_thread)
    (hins : list_insert_ordered k.ready_list cur (thread_compare_priority k) = next :: rest)
    (hnext : is_thread k next = true) :
    thread_yield k = some { k with
      ready_list := rest,
      running_thread := next,
      thread_ticks := 0,
      level := if next = cur then k.level else INTR_OFF,
      threads :=
        store (store k.threads cur { k.threads cur with status := THREAD_READY }) next
          { store k.threads cur { k.threads cur with status := THREAD_READY } next with
            status := THREAD_RUNNING } } := by
  obtain ⟨hrun, hthr, hst⟩ := (thread_current_eq_some k cur).1 hc
  rw [thread_compare_priority_eq] at hins
  by_cases hnc : next = cur
  · subst hnc
    simp [thread_yield, hc, hctx, hidle, thread_compare_priority_eq, hins, schedule, next_thread_to_run,
      thread_schedule_tail, hrun, store_same, is_thread] at hthr ⊢
    simp [hthr]
  · have hnc2 : ¬ cur = next := fun h => hnc h.symm
    simp [thread_yield, hc, hctx, hidle, thread_compare_priority_eq, hins, schedule, next_thread_to_run,
      thread_schedule_tail, hrun, store_same, store_other, is_thread, hnc, hnc2] at hnext ⊢
    simp [hnext, hnc]

theorem store_store (m : Nat → thread) (a : Nat) (v w : thread) :
    store (store m a v) a w = store m a w := by
  funext x
  unfold store
  split <;> rfl

theorem store_priority (m : Nat → thread) (a b : Nat) (v : thread)
    (h : v.priority = (m a).priority) : (store m a v b).priority = (m b).priority := by
  unfold store
  split
  · next hx => rw [h, hx]
  · rfl

theorem placed_by_priority_congr (k k' : Kernel) (before after : List Nat) (t : Nat)
    (h : ∀ a, (k'.threads a).priority = (k.threads a).priority)
    (hp : placed_by_priority k before after t) : placed_by_priority k' before after t := by
  obtain ⟨pre, post, h1, h2, h3, h4⟩ := hp
  refine ⟨pre, post, h1, h2, ?_, ?_⟩
  · intro a ha
    rw [h a, h t]
    exact h3 a ha
  · intro b hb
    rw [h b, h t]
    exact h4 b hb

theorem sorted_by_priority_congr (k k' : Kernel) (l : List Nat)
    (h : ∀ a, (k'.threads a).priority = (k.threads a).priority)
    (hs : sorted_by_priority k l) : sorted_by_priority k' l := by
  unfold sorted_by_priority at hs ⊢
  refine hs.imp ?_
  intro a b hab
  rw [h a, h b]
  exact hab

/-- The ordered insertion into a sorted ready list, in the terms of the statements. -/
theorem ready_insert_placed (k : Kernel) (t : Nat) (hs : sorted_by_priority k k.ready_list) :
    placed_by_priority k k.ready_list
        (list_insert_ordered k.ready_list t (thread_compare_priority k)) t ∧
      sorted_by_priority k (list_insert_ordered k.ready_list t (thread_compare_priority k)) := by
  obtain ⟨pre, post, h1, h2, h3, h4, h5⟩ :=
    list_insert_ordered_desc (fun a => (k.threads a).priority) t k.ready_list hs
  rw [thread_compare_priority_eq]
  refine ⟨⟨pre, post, h1, h2, h3, h4⟩, ?_⟩
  unfold sorted_by_priority
  rw [h2]
  exact h5

theorem list_insert_ordered_ne_nil (l : List Nat) (x : Nat) (less : Nat → Nat → Bool) :
    list_insert_ordered l x less ≠ [] := by
  cases l with
  | nil => simp [list_insert_ordered]
  | cons e es =>
    unfold list_insert_ordered
    split <;> simp

theorem mem_list_insert_ordered (l : List Nat) (x a : Nat) (less : Nat → Nat → Bool) :
    a ∈ list_insert_ordered l x less ↔ a = x ∨ a ∈ l := by
  obtain ⟨pre, post, h1, h2, -, -⟩ := list_insert_ordered_split less x l
  rw [h2, h1]
  simp only [List.mem_append, List.mem_cons]
  tauto

/-! ## C1: ordered insertion into the ready registry -/

/-- C1. On a ready registry sorted by descending effective priority, `thread_unblock` of a
valid blocked thread `t`, and `thread_yield` of the running non-idle thread `t`, put `t`
behind every entry whose priority is at least its own and in front of every entry with a
lower priority, the other entries keeping their order. After `thread_unblock` the registry
is this sequence; in `thread_yield` the dispatcher then takes the front of this sequence as
the running thread and the rest is the registry. The registry is sorted afterwards. -/
theorem ready_registry_insertion_ordered (k : Kernel)
    (hs : sorted_by_priority k k.ready_list) :
    (∀ t, is_thread k t = true → (k.threads t).status = THREAD_BLOCKED →
      ∃ k', thread_unblock k t = some k' ∧
        placed_by_priority k' k.ready_list k'.ready_list t ∧
        sorted_by_priority k' k'.ready_list) ∧
    (∀ t, thread_current k = some t → t ≠ k.idle_thread → k.intr_context = false →
      (∀ a ∈ k.ready_list, is_thread k a = true) →
      ∃ k', thread_yield k = some k' ∧
        placed_by_priority k' k.ready_list (k'.running_thread :: k'.ready_list) t ∧
        sorted_by_priority k' (k'.running_thread :: k'.ready_list) ∧
        sorted_by_priority k' k'.ready_list) := by
  constructor
  · intro t ht hb
    obtain ⟨hp, hsort⟩ := ready_insert_placed k t hs
    refine ⟨_, thread_unblock_eq k t ht hb, ?_, ?_⟩
    · refine placed_by_priority_congr k _ _ _ _ (fun a => store_priority _ _ _ _ ?_) hp
      rfl
    · refine sorted_by_priority_congr k _ _ (fun a => store_priority _ _ _ _ ?_) hsort
      rfl
  · intro t hc hidle hctx hvalid
    obtain ⟨hp, hsort⟩ := ready_insert_placed k t hs
    obtain ⟨-, hthr, -⟩ := (thread_current_eq_some k t).1 hc
    generalize hins : list_insert_ordered k.ready_list t (thread_compare_priority k) = ins at hp hsort
    cases ins with
    | nil => exact absurd hins (list_insert_ordered_ne_nil _ _ _)
    | cons next rest =>
      have hnext : is_thread k next = true := by
        have hmem : next ∈ list_insert_ordered k.ready_list t (thread_compare_priority k) := by
          rw [hins]
          exact List.mem_cons_self _ _
        rcases (mem_list_insert_ordered _ _ _ _).1 hmem with rfl | h
        · exact hthr
        · exact hvalid next h
      have hprio : ∀ a, ((store (store k.threads t { k.threads t with status := THREAD_READY }) next
          { store k.threads t { k.threads t with status := THREAD_READY } next with
            status := THREAD_RUNNING }) a).priority = (k.threads a).priority := by
        intro a
        refine (store_priority _ _ _ _ ?_).trans (store_priority _ _ _ _ ?_) <;> rfl
      refine ⟨_, thread_yield_eq k t next rest hc hctx hidle hins hnext, ?_, ?_, ?_⟩
      · exact placed_by_priority_congr k _ _ _ _ hprio hp
      · exact sorted_by_priority_congr k _ _ hprio hsort
      · exact sorted_by_priority_congr k _ _ hprio (List.Pairwise.of_cons hsort)

/-- Witness of C1 on `ready_demo`: thread 6 (priority 31) is unblocked behind thread 4
(priority 31), and the yielding thread 1 (priority 31) is enqueued behind thread 4 while
thread 3 is dispatched. -/
theorem ready_registry_insertion_ordered_witness :
    sorted_by_priority ready_demo ready_demo.ready_list ∧
    (∃ k', thread_unblock ready_demo 6 = some k' ∧
      placed_by_priority k' ready_demo.ready_list k'.ready_list 6 ∧
      sorted_by_priority k' k'.ready_list) ∧
    (∃ k', thread_yield ready_demo = some k' ∧
      placed_by_priority k' ready_demo.ready_list (k'.running_thread :: k'.ready_list) 1 ∧
      sorted_by_priority k' (k'.running_thread :: k'.ready_list) ∧
      sorted_by_priority k' k'.ready_list) ∧
    (thread_unblock ready_demo 6).map (fun k' => k'.ready_list) = some [3, 4, 6, 5] ∧
    (thread_yield ready_demo).map (fun k' => (k'.running_thread, k'.ready_list)) =
      some (3, [4, 1, 5]) :=
  have hs : sorted_by_priority ready_demo ready_demo.ready_list := by
    unfold sorted_by_priority
    decide
  ⟨hs,
    (ready_registry_insertion_ordered ready_demo hs).1 6 (by decide) (by decide),
    (ready_registry_insertion_ordered ready_demo hs).2 1 (by decide) (by decide) (by decide)
      (by decide),
    by decide, by decide⟩

/-! ## C2: the dispatcher selects the front of the ready registry -/

/-- One ordered insertion keeps the front of the list the earliest inserted entry of
maximum key. -/
theorem list_insert_ordered_front (key : Nat → Int) (t : Nat) (l inserted : List Nat)
    (hs : l.Pairwise (fun a b => key a ≥ key b))
    (hmem : ∀ a, a ∈ l ↔ a ∈ inserted)
    (hfront : ∀ h tl, l = h :: tl → ∃ pre post, inserted = pre ++ h :: post ∧
      (∀ a ∈ pre, key a < key h) ∧ (∀ b ∈ post, key b ≤ key h))
    (h' : Nat) (tl' : List Nat)
    (hl : list_insert_ordered l t (fun a b => decide (key a > key b)) = h' :: tl') :
    ∃ pre post, inserted ++ [t] = pre ++ h' :: post ∧
      (∀ a ∈ pre, key a < key h') ∧ (∀ b ∈ post, key b ≤ key h') := by
  cases l with
  | nil =>
    have hnil : inserted = [] := by
      cases inserted with
      | nil => rfl
      | cons x xs => exact absurd ((hmem x).2 (List.mem_cons_self _ _)) (List.not_mem_nil _)
    subst hnil
    simp [list_insert_ordered] at hl
    obtain ⟨rfl, rfl⟩ := hl
    exact ⟨[], [], rfl, by simp, by simp⟩
  | cons h tl =>
    by_cases hlt : key t > key h
    · simp [list_insert_ordered, hlt] at hl
      obtain ⟨rfl, rfl⟩ := hl
      refine ⟨inserted, [], rfl, ?_, by simp⟩
      intro a ha
      have hal : a ∈ h :: tl := (hmem a).2 ha
      rcases List.mem_cons.1 hal with rfl | hat
      · exact hlt
      · have := (List.pairwise_cons.1 hs).1 a hat
        omega
    · simp [list_insert_ordered, hlt] at hl
      obtain ⟨rfl, rfl⟩ := hl
      obtain ⟨pre, post, h1, h2, h3⟩ := hfront h tl rfl
      refine ⟨pre, post ++ [t], by simp [h1], h2, ?_⟩
      intro b hb
      rcases List.mem_append.1 hb with hb | hb
      · exact h3 b hb
      · simp at hb
        subst hb
        omega

theorem earliest_of_highest_priority_congr (k k' : Kernel) (inserted : List Nat) (s : Nat)
    (h : ∀ a, (k'.threads a).priority = (k.threads a).priority)
    (he : earliest_of_highest_priority k inserted s) :
    earliest_of_highest_priority k' inserted s := by
  obtain ⟨pre, post, h1, h2, h3⟩ := he
  refine ⟨pre, post, h1, ?_, ?_⟩
  · intro a ha
    rw [h a, h s]
    exact h2 a ha
  · intro b hb
    rw [h b, h s]
    exact h3 b hb

/-- A sequence of `thread_unblock` calls on distinct valid blocked threads succeeds, keeps
the ready list sorted, and keeps at its front the earliest inserted thread of maximum
priority. -/
theorem unblock_all_front (ts : List Nat) :
    ∀ (k : Kernel) (inserted : List Nat), ts.Nodup →
      (∀ t ∈ ts, is_thread k t = true ∧ (k.threads t).status = THREAD_BLOCKED) →
      sorted_by_priority k k.ready_list →
      (∀ a, a ∈ k.ready_list ↔ a ∈ inserted) →
      (∀ h tl, k.ready_list = h :: tl → earliest_of_highest_priority k inserted h) →
      ∃ k', unblock_all k ts = some k' ∧
        (∀ a, (k'.threads a).priority = (k.threads a).priority) ∧
        sorted_by_priority k' k'.ready_list ∧
        (∀ a, a ∈ k'.ready_list ↔ a ∈ inserted ++ ts) ∧
        (∀ h tl, k'.ready_list = h :: tl →
          earliest_of_highest_priority k' (inserted ++ ts) h) := by
  induction ts with
  | nil =>
    intro k inserted _ _ hs hmem hfront
    exact ⟨k, rfl, fun _ => rfl, hs, by simpa using hmem, by simpa using hfront⟩
  | cons t ts ih =>
    intro k inserted hnd hvalid hs hmem hfront
    obtain ⟨ht, hb⟩ := hvalid t (List.mem_cons_self _ _)
    obtain ⟨htn, hnd'⟩ := List.nodup_cons.1 hnd
    have heq := thread_unblock_eq k t ht hb
    generalize hk1 : ({ k with
      ready_list := list_insert_ordered k.ready_list t (thread_compare_priority k),
      threads := store k.threads t { k.threads t with status := THREAD_READY } } : Kernel) = k1
      at heq
    have hthreads : k1.threads = store k.threads t { k.threads t with status := THREAD_READY } := by
      rw [← hk1]
    have hready : k1.ready_list =
        list_insert_ordered k.ready_list t (thread_compare_priority k) := by
      rw [← hk1]
    have hprio : ∀ a, (k1.threads a).priority = (k.threads a).priority := by
      intro a
      rw [hthreads]
      refine store_priority _ _ _ _ ?_
      rfl
    have hvalid1 : ∀ t' ∈ ts, is_thread k1 t' = true ∧ (k1.threads t').status = THREAD_BLOCKED := by
      intro t' ht'
      have hne : t' ≠ t := fun h => htn (h ▸ ht')
      obtain ⟨h1, h2⟩ := hvalid t' (List.mem_cons_of_mem _ ht')
      rw [is_thread_iff] at h1 ⊢
      rw [hthreads, store_other _ _ _ _ hne]
      exact ⟨h1, h2⟩
    obtain ⟨-, hsort⟩ := ready_insert_placed k t hs
    have hs1 : sorted_by_priority k1 k1.ready_list := by
      rw [hready]
      exact sorted_by_priority_congr k k1 _ hprio hsort
    have hmem1 : ∀ a, a ∈ k1.ready_list ↔ a ∈ inserted ++ [t] := by
      intro a
      rw [hready, mem_list_insert_ordered, hmem a]
      simp only [List.mem_append, List.mem_singleton]
      tauto
    have hfront1 : ∀ h tl, k1.ready_list = h :: tl →
        earliest_of_highest_priority k1 (inserted ++ [t]) h := by
      intro h tl hl
      rw [hready, thread_compare_priority_eq] at hl
      exact earliest_of_highest_priority_congr k k1 _ _ hprio
        (list_insert_ordered_front (fun a => (k.threads a).priority) t k.ready_list inserted
          hs hmem hfront h tl hl)
    obtain ⟨k', h1, h2, h3, h4, h5⟩ := ih k1 (inserted ++ [t]) hnd' hvalid1 hs1 hmem1 hfront1
    refine ⟨k', ?_, ?_, h3, ?_, ?_⟩
    · simp only [unblock_all, heq]
      exact h1
    · intro a
      rw [h2 a, hprio a]
    · simpa using h4
    · simpa using h5

/-- C2. `next_thread_to_run` returns the idle thread when the ready registry is empty, and
otherwise removes its front and returns it. Hence, after a sequence of `thread_unblock`
calls (on distinct valid blocked threads) that starts from a sorted registry, the thread
selected is in the registry, no ready thread has a higher priority, and it is the earliest
one of that priority in the order of insertion (the registry as it was, then the threads
unblocked). -/
theorem next_thread_to_run_selects_front (k : Kernel) :
    (k.ready_list = [] → next_thread_to_run k = (k.idle_thread, k)) ∧
    (∀ e es, k.ready_list = e :: es →
      next_thread_to_run k = (e, { k with ready_list := es })) ∧
    (∀ ts, sorted_by_priority k k.ready_list → ts.Nodup →
      (∀ t ∈ ts, is_thread k t = true ∧ (k.threads t).status = THREAD_BLOCKED) →
      k.ready_list ++ ts ≠ [] →
      ∃ k', unblock_all k ts = some k' ∧
        (∀ a, a ∈ k'.ready_list ↔ a ∈ k.ready_list ++ ts) ∧
        (next_thread_to_run k').1 ∈ k'.ready_list ∧
        (next_thread_to_run k').2.ready_list = k'.ready_list.tail ∧
        (∀ a ∈ k'.ready_list,
          (k'.threads a).priority ≤ (k'.threads (next_thread_to_run k').1).priority) ∧
        earliest_of_highest_priority k' (k.ready_list ++ ts) (next_thread_to_run k').1) := by
  refine ⟨?_, ?_, ?_⟩
  · intro h
    simp [next_thread_to_run, h]
  · intro e es h
    simp [next_thread_to_run, h]
  · intro ts hs hnd hvalid hne
    have hfront : ∀ h tl, k.ready_list = h :: tl →
        earliest_of_highest_priority k k.ready_list h := by
      intro h tl hl
      refine ⟨[], tl, by simp [hl], by simp, ?_⟩
      intro b hb
      unfold sorted_by_priority at hs
      rw [hl] at hs
      exact (List.pairwise_cons.1 hs).1 b hb
    obtain ⟨k', h1, -, h3, h4, h5⟩ :=
      unblock_all_front ts k k.ready_list hnd hvalid hs (fun _ => Iff.rfl) hfront
    refine ⟨k', h1, h4, ?_⟩
    cases hl : k'.ready_list with
    | nil =>
      exfalso
      cases hall : k.ready_list ++ ts with
      | nil => exact hne hall
      | cons x xs =>
        have := (h4 x).2 (by rw [hall]; exact List.mem_cons_self _ _)
        rw [hl] at this
        exact List.not_mem_nil _ this
    | cons e es =>
      have hn : next_thread_to_run k' = (e, { k' with ready_list := es }) := by
        simp [next_thread_to_run, hl]
      rw [hn]
      refine ⟨List.mem_cons_self _ _, rfl, ?_, h5 e es hl⟩
      intro a ha
      unfold sorted_by_priority at h3
      rw [hl] at h3
      rcases List.mem_cons.1 ha with rfl | ha
      · exact le_refl _
      · exact (List.pairwise_cons.1 h3).1 a ha

/-- Witness of C2 on `ab_demo`: with A (thread 3, priority 30) and B (thread 4, priority 20)
unblocked in either order, A is selected first and B after it. -/
theorem next_thread_to_run_selects_front_witness :
    (∃ k', unblock_all ab_demo [3, 4] = some k' ∧
      (∀ a, a ∈ k'.ready_list ↔ a ∈ ab_demo.ready_list ++ [3, 4]) ∧
      (next_thread_to_run k').1 ∈ k'.ready_list ∧
      (next_thread_to_run k').2.ready_list = k'.ready_list.tail ∧
      (∀ a ∈ k'.ready_list,
        (k'.threads a).priority ≤ (k'.threads (next_thread_to_run k').1).priority) ∧
      earliest_of_highest_priority k' (ab_demo.ready_list ++ [3, 4]) (next_thread_to_run k').1) ∧
    (unblock_all ab_demo [3, 4]).map
        (fun k' => ((next_thread_to_run k').1, (next_thread_to_run (next_thread_to_run k').2).1)) =
      some (3, 4) ∧
    (unblock_all ab_demo [4, 3]).map
        (fun k' => ((next_thread_to_run k').1, (next_thread_to_run (next_thread_to_run k').2).1)) =
      some (3, 4) ∧
    next_thread_to_run ab_demo = (2, ab_demo) :=
  ⟨(next_thread_to_run_selects_front ab_demo).2.2 [3, 4]
      (by unfold sorted_by_priority; decide) (by decide) (by decide) (by decide),
    by decide, by decide, (next_thread_to_run_selects_front ab_demo).1 rfl⟩

/-! ## C3: the alarm clock wakes the threads that are due -/

/-- The sleep list is not looked at by `thread_unblock`. -/
theorem thread_unblock_sleep_list (k : Kernel) (s : List Nat) (t : Nat) :
    thread_unblock { k with sleep_list := s } t =
      (thread_unblock k t).map (fun k' => { k' with sleep_list := s }) := by
  have hi : is_thread { k with sleep_list := s } t = is_thread k t := rfl
  simp only [thread_unblock, hi, thread_compare_priority_eq]
  split_ifs <;> rfl

theorem unblock_all_sleep_list (ts : List Nat) :
    ∀ (k : Kernel) (s : List Nat), unblock_all { k with sleep_list := s } ts =
      (unblock_all k ts).map (fun k' => { k' with sleep_list := s }) := by
  induction ts with
  | nil => intro k s; rfl
  | cons t ts ih =>
    intro k s
    simp only [unblock_all, thread_unblock_sleep_list]
    cases thread_unblock k t with
    | none => rfl
    | some k1 => exact ih k1 s

/-- What `thread_unblock` returns, when it returns. -/
theorem thread_unblock_some (k k1 : Kernel) (t : Nat) (h : thread_unblock k t = some k1) :
    is_thread k t = true ∧ (k.threads t).status = THREAD_BLOCKED ∧
      k1 = { k with
        ready_list := list_insert_ordered k.ready_list t (thread_compare_priority k),
        threads := store k.threads t { k.threads t with status := THREAD_READY } } := by
  by_cases h1 : is_thread k t = true
  · by_cases h2 : (k.threads t).status = THREAD_BLOCKED
    · rw [thread_unblock_eq k t h1 h2] at h
      exact ⟨h1, h2, (Option.some.inj h).symm⟩
    · simp [thread_unblock, h1, h2] at h
  · simp [thread_unblock, h1] at h

theorem store_wakeup_ticks (m : Nat → thread) (a b : Nat) (v : thread)
    (h : v.wakeup_ticks = (m a).wakeup_ticks) :
    (store m a v b).wakeup_ticks = (m b).wakeup_ticks := by
  unfold store
  split
  · next hx => rw [h, hx]
  · rfl

/-- A sequence of `thread_unblock` calls on distinct valid blocked threads makes exactly
these threads ready, and touches nothing else in the TCBs. -/
theorem unblock_all_threads (ts : List Nat) :
    ∀ (k : Kernel), ts.Nodup →
      (∀ t ∈ ts, is_thread k t = true ∧ (k.threads t).status = THREAD_BLOCKED) →
      ∃ k', unblock_all k ts = some k' ∧
        (∀ a ∈ ts, k'.threads a = { k.threads a with status := THREAD_READY }) ∧
        (∀ a, a ∉ ts → k'.threads a = k.threads a) ∧
        (∀ a, a ∈ k'.ready_list ↔ a ∈ k.ready_list ∨ a ∈ ts) := by
  induction ts with
  | nil =>
    intro k _ _
    exact ⟨k, rfl, by simp, fun _ _ => rfl, by simp⟩
  | cons t ts ih =>
    intro k hnd hvalid
    obtain ⟨ht, hb⟩ := hvalid t (List.mem_cons_self _ _)
    obtain ⟨htn, hnd'⟩ := List.nodup_cons.1 hnd
    have heq := thread_unblock_eq k t ht hb
    generalize hk1 : ({ k with
      ready_list := list_insert_ordered k.ready_list t (thread_compare_priority k),
      threads := store k.threads t { k.threads t with status := THREAD_READY } } : Kernel) = k1
      at heq
    have hthreads : k1.threads = store k.threads t { k.threads t with status := THREAD_READY } := by
      rw [← hk1]
    have hready : k1.ready_list =
        list_insert_ordered k.ready_list t (thread_compare_priority k) := by
      rw [← hk1]
    have hvalid1 : ∀ t' ∈ ts, is_thread k1 t' = true ∧ (k1.threads t').status = THREAD_BLOCKED := by
      intro t' ht'
      have hne : t' ≠ t := fun h => htn (h ▸ ht')
      obtain ⟨h1, h2⟩ := hvalid t' (List.mem_cons_of_mem _ ht')
      rw [is_thread_iff] at h1 ⊢
      rw [hthreads, store_other _ _ _ _ hne]
      exact ⟨h1, h2⟩
    obtain ⟨k', h1, h2, h3, h4⟩ := ih k1 hnd' hvalid1
    refine ⟨k', ?_, ?_, ?_, ?_⟩
    · simp only [unblock_all, heq]
      exact h1
    · intro a ha
      rcases List.mem_cons.1 ha with rfl | ha
      · rw [h3 a htn, hthreads, store_same]
      · have hne : a ≠ t := fun h => htn (h ▸ ha)
        rw [h2 a ha, hthreads, store_other _ _ _ _ hne]
    · intro a ha
      have hne : a ≠ t := fun h => ha (h ▸ List.mem_cons_self _ _)
      have hnt : a ∉ ts := fun h => ha (List.mem_cons_of_mem _ h)
      rw [h3 a hnt, hthreads, store_other _ _ _ _ hne]
    · intro a
      rw [h4 a, hready, mem_list_insert_ordered]
      simp only [List.mem_cons]
      tauto

/-- The loop of `thread_wakeup` unblocks, from the front on, the entries that come before
the first one that is not due, and leaves the others as the sleep list. -/
theorem thread_wakeup_loop_eq (current_ticks : Int) (l : List Nat) :
    ∀ (k : Kernel), k.sleep_list = l →
      thread_wakeup_loop current_ticks l k =
        (unblock_all k
          (l.takeWhile (fun a => decide ((k.threads a).wakeup_ticks ≤ current_ticks)))).map
          (fun k' => { k' with
            sleep_list :=
              l.dropWhile (fun a => decide ((k.threads a).wakeup_ticks ≤ current_ticks)) }) := by
  induction l with
  | nil =>
    intro k hk
    simp only [thread_wakeup_loop, List.takeWhile_nil, List.dropWhile_nil, unblock_all,
      Option.map_some']
    rw [← hk]
  | cons e rest ih =>
    intro k hk
    by_cases hdue : (k.threads e).wakeup_ticks ≤ current_ticks
    · have hnot : ¬ (k.threads e).wakeup_ticks > current_ticks := by omega
      simp only [thread_wakeup_loop, hnot, if_false, List.takeWhile_cons, List.dropWhile_cons,
        hdue, decide_True, if_true, unblock_all, thread_unblock_sleep_list]
      cases hu : thread_unblock k e with
      | none => rfl
      | some k1 =>
        obtain ⟨-, -, hk1⟩ := thread_unblock_some k k1 e hu
        have hticks : ∀ a, (k1.threads a).wakeup_ticks = (k.threads a).wakeup_ticks := by
          intro a
          rw [hk1]
          refine store_wakeup_ticks _ _ _ _ ?_
          rfl
        have hp : (fun a => decide ((k1.threads a).wakeup_ticks ≤ current_ticks)) =
            (fun a => decide ((k.threads a).wakeup_ticks ≤ current_ticks)) := by
          funext a
          rw [hticks a]
        simp only [Option.map_some']
        rw [ih { k1 with sleep_list := rest } rfl, unblock_all_sleep_list]
        simp only [hp, Option.map_map]
        rfl
    · have hnot : (k.threads e).wakeup_ticks > current_ticks := by omega
      simp only [thread_wakeup_loop, hnot, if_true, List.takeWhile_cons, List.dropWhile_cons,
        hdue, decide_False, unblock_all, Option.map_some']
      rw [← hk]
      rfl

/-- In a list sorted by ascending key, the entries with a key of at most `bound` are a
front part of the list. -/
theorem takeWhile_dropWhile_sorted (key : Nat → Int) (bound : Int) (l : List Nat)
    (hs : l.Pairwise (fun a b => key a ≤ key b)) :
    l.takeWhile (fun a => decide (key a ≤ bound)) = l.filter (fun a => decide (key a ≤ bound)) ∧
      l.dropWhile (fun a => decide (key a ≤ bound)) =
        l.filter (fun a => decide (key a > bound)) := by
  induction l with
  | nil => simp
  | cons e es ih =>
    obtain ⟨hall, hes⟩ := List.pairwise_cons.1 hs
    obtain ⟨ih1, ih2⟩ := ih hes
    by_cases h : key e ≤ bound
    · have hn : ¬ key e > bound := by omega
      simp [List.takeWhile_cons, List.dropWhile_cons, List.filter_cons, h, hn, ih1, ih2]
    · have hn : key e > bound := by omega
      have hnone : ∀ a ∈ es, ¬ key a ≤ bound := by
        intro a ha
        have := hall a ha
        omega
      have hallgt : ∀ a ∈ es, key a > bound := by
        intro a ha
        have := hall a ha
        omega
      have h1 : es.filter (fun a => decide (key a ≤ bound)) = [] := by
        rw [List.filter_eq_nil_iff]
        intro a ha
        simpa using hnone a ha
      have h2 : es.filter (fun a => decide (key a > bound)) = es := by
        rw [List.filter_eq_self]
        intro a ha
        simpa using hallgt a ha
      simp [List.takeWhile_cons, List.dropWhile_cons, List.filter_cons, h, hn, h1, h2]

/-- C3. On a sleep registry sorted by ascending wake-up tick (of distinct valid blocked
threads), `thread_wakeup` at tick `current_ticks` does what unblocking the threads with
wake-up tick at most `current_ticks`, one after the other in the order of the registry
(ascending wake-up tick), does, and the threads with a later wake-up tick are the sleep
registry afterwards, in their previous order. The threads woken are ready and in the ready
registry, every other TCB is as before, so the threads left asleep are still blocked. -/
theorem thread_wakeup_exactly_due (k : Kernel) (current_ticks : Int)
    (hs : sorted_by_wakeup k k.sleep_list) (hnd : k.sleep_list.Nodup)
    (hvalid : ∀ t ∈ k.sleep_list, is_thread k t = true ∧ (k.threads t).status = THREAD_BLOCKED) :
    ∃ k', thread_wakeup k current_ticks = some k' ∧
      thread_wakeup k current_ticks =
        (unblock_all k (due_threads k current_ticks)).map
          (fun k1 => { k1 with sleep_list := sleeping_on k current_ticks }) ∧
      sorted_by_wakeup k (due_threads k current_ticks) ∧
      k'.sleep_list = sleeping_on k current_ticks ∧
      (∀ a ∈ due_threads k current_ticks,
        k'.threads a = { k.threads a with status := THREAD_READY } ∧ a ∈ k'.ready_list) ∧
      (∀ a, a ∈ k'.ready_list ↔ a ∈ k.ready_list ∨ a ∈ due_threads k current_ticks) ∧
      (∀ a, a ∉ due_threads k current_ticks → k'.threads a = k.threads a) ∧
      (∀ a ∈ sleeping_on k current_ticks, (k'.threads a).status = THREAD_BLOCKED) := by
  obtain ⟨ht, hd⟩ := takeWhile_dropWhile_sorted (fun a => (k.threads a).wakeup_ticks)
    current_ticks k.sleep_list hs
  have hloop := thread_wakeup_loop_eq current_ticks k.sleep_list k rfl
  rw [ht, hd] at hloop
  have hsub : ∀ a ∈ due_threads k current_ticks, a ∈ k.sleep_list :=
    fun a ha => (List.mem_filter.1 ha).1
  have hnd' : (due_threads k current_ticks).Nodup := hnd.filter _
  obtain ⟨k1, h1, h2, h3, h4⟩ := unblock_all_threads (due_threads k current_ticks) k hnd'
    (fun t ht => hvalid t (hsub t ht))
  have heq : thread_wakeup k current_ticks =
      (unblock_all k (due_threads k current_ticks)).map
        (fun k1 => { k1 with sleep_list := sleeping_on k current_ticks }) := hloop
  refine ⟨{ k1 with sleep_list := sleeping_on k current_ticks }, ?_, heq, ?_, rfl, ?_, h4, h3, ?_⟩
  · rw [heq, h1]
    rfl
  · exact List.Pairwise.sublist (List.filter_sublist _) hs
  · intro a ha
    exact ⟨h2 a ha, (h4 a).2 (Or.inr ha)⟩
  · intro a ha
    have hmem := List.mem_filter.1 ha
    have hnot : a ∉ due_threads k current_ticks := by
      intro hdue
      have h5 := (List.mem_filter.1 hdue).2
      have h6 := hmem.2
      simp only [decide_eq_true_eq] at h5 h6
      omega
    show (k1.threads a).status = THREAD_BLOCKED
    rw [h3 a hnot]
    exact (hvalid a hmem.1).2

/-- Witness of C3 on `alarm_demo`: with the deadlines 5, 10 and 15, `thread_wakeup` at
tick 12 unblocks the tick-5 thread and then the tick-10 thread, and leaves the tick-15
thread asleep and blocked. -/
theorem thread_wakeup_exactly_due_witness :
    (∃ k', thread_wakeup alarm_demo 12 = some k' ∧
      thread_wakeup alarm_demo 12 =
        (unblock_all alarm_demo (due_threads alarm_demo 12)).map
          (fun k1 => { k1 with sleep_list := sleeping_on alarm_demo 12 }) ∧
      sorted_by_wakeup alarm_demo (due_threads alarm_demo 12) ∧
      k'.sleep_list = sleeping_on alarm_demo 12 ∧
      (∀ a ∈ due_threads alarm_demo 12,
        k'.threads a = { alarm_demo.threads a with status := THREAD_READY } ∧
          a ∈ k'.ready_list) ∧
      (∀ a, a ∈ k'.ready_list ↔ a ∈ alarm_demo.ready_list ∨ a ∈ due_threads alarm_demo 12) ∧
      (∀ a, a ∉ due_threads alarm_demo 12 → k'.threads a = alarm_demo.threads a) ∧
      (∀ a ∈ sleeping_on alarm_demo 12, (k'.threads a).status = THREAD_BLOCKED)) ∧
    due_threads alarm_demo 12 = [3, 4] ∧
    (thread_wakeup alarm_demo 12).map
        (fun k' => (k'.sleep_list, k'.ready_list, (k'.threads 3).status, (k'.threads 4).status,
          (k'.threads 5).status)) =
      some ([5], [3, 4], THREAD_READY, THREAD_READY, THREAD_BLOCKED) :=
  ⟨thread_wakeup_exactly_due alarm_demo 12 (by unfold sorted_by_wakeup; decide) (by decide)
      (by decide),
    by decide, by decide⟩

/-! ## C4: going to sleep -/

/-- In a list sorted by ascending key, the element ends up behind the keys that are at most
its own and in front of the strictly greater ones, and the list stays sorted. -/
theorem list_insert_ordered_asc (key : Nat → Int) (x : Nat) (l : List Nat)
    (hs : l.Pairwise (fun a b => key a ≤ key b)) :
    ∃ pre post, l = pre ++ post ∧
      list_insert_ordered l x (fun a b => decide (key a < key b)) = pre ++ x :: post ∧
      (∀ a ∈ pre, key a ≤ key x) ∧ (∀ b ∈ post, key x < key b) ∧
      (pre ++ x :: post).Pairwise (fun a b => key a ≤ key b) := by
  have hs' : l.Pairwise (fun a b => (fun c => - key c) a ≥ (fun c => - key c) b) := by
    refine hs.imp ?_
    intro a b hab
    simp only [ge_iff_le, neg_le_neg_iff]
    exact hab
  obtain ⟨pre, post, h1, h2, h3, h4, h5⟩ := list_insert_ordered_desc (fun c => - key c) x l hs'
  have hless : (fun a b => decide ((fun c => - key c) a > (fun c => - key c) b)) =
      (fun a b => decide (key a < key b)) := by
    funext a b
    simp
  rw [hless] at h2
  refine ⟨pre, post, h1, h2, ?_, ?_, ?_⟩
  · intro a ha
    have := h3 a ha
    simp only [ge_iff_le, neg_le_neg_iff] at this
    exact this
  · intro b hb
    have := h4 b hb
    simp only [neg_lt_neg_iff] at this
    exact this
  · refine h5.imp ?_
    intro a b hab
    simp only [ge_iff_le, neg_le_neg_iff] at hab
    exact hab

/-- The result of `thread_sleep` for a running thread that is not the idle thread and not
itself the thread that the dispatcher picks. -/
theorem thread_sleep_eq (k : Kernel) (cur : Nat) (wakeup_ticks : Int)
    (hc : thread_current k = some cur) (hctx : k.intr_context = false)
    (hidle : cur ≠ k.idle_thread)
    (hne : (next_thread_to_run k).1 ≠ cur)
    (hnext : is_thread k (next_thread_to_run k).1 = true) :
    ∃ k', thread_sleep k wakeup_ticks = some k' ∧
      k'.running_thread = (next_thread_to_run k).1 ∧
      k'.ready_list = (next_thread_to_run k).2.ready_list ∧
      k'.sleep_list = list_insert_ordered k.sleep_list cur
        (fun p1 p2 => decide ((store k.threads cur
          { k.threads cur with wakeup_ticks := wakeup_ticks } p1).wakeup_ticks <
            (store k.threads cur
              { k.threads cur with wakeup_ticks := wakeup_ticks } p2).wakeup_ticks)) ∧
      k'.threads cur =
        { k.threads cur with wakeup_ticks := wakeup_ticks, status := THREAD_BLOCKED } ∧
      (∀ a, a ≠ cur → (k'.threads a).wakeup_ticks = (k.threads a).wakeup_ticks) := by
  obtain ⟨hrun, hthr, hst⟩ := (thread_current_eq_some k cur).1 hc
  obtain ⟨hthr1, hthr2⟩ := (is_thread_iff k cur).1 hthr
  obtain ⟨hnext1, hnext2⟩ := (is_thread_iff k _).1 hnext
  have hne2 : cur ≠ (next_thread_to_run k).1 := fun h => hne h.symm
  cases hl : k.ready_list with
  | nil =>
    simp only [next_thread_to_run, hl] at hne hnext1 hnext2 hne2
    simp [thread_sleep, hidle, hst, thread_block, hctx, thread_current, hrun, is_thread,
      store_same, store_other, schedule, next_thread_to_run, hl, thread_schedule_tail,
      thread_compare_wakeup_ticks_eq, hthr1, hthr2, hnext1, hnext2, hne, hne2]
    intro a ha
    simp only [store]
    split_ifs with h1 <;> first | rfl | (subst h1; rfl)
  | cons e es =>
    simp only [next_thread_to_run, hl] at hne hnext1 hnext2 hne2
    simp [thread_sleep, hidle, hst, thread_block, hctx, thread_current, hrun, is_thread,
      store_same, store_other, schedule, next_thread_to_run, hl, thread_schedule_tail,
      thread_compare_wakeup_ticks_eq, hthr1, hthr2, hnext1, hnext2, hne, hne2]
    intro a ha
    simp only [store]
    split_ifs with h1 <;> first | rfl | (subst h1; rfl)

/-- C4. On a sleep registry sorted by ascending wake-up tick, `thread_sleep` called by the
running thread `cur`, which is not the idle thread and is in neither registry, with the
dispatcher's candidate a valid thread, records the deadline as the wake-up tick of `cur`,
puts `cur` into the sleep registry behind every entry whose wake-up tick is at most the
deadline and in front of the later ones, so that the registry is still sorted, and leaves
`cur` blocked and absent from the ready registry. -/
theorem thread_sleep_ordered (k : Kernel) (cur : Nat) (wakeup_ticks : Int)
    (hs : sorted_by_wakeup k k.sleep_list)
    (hc : thread_current k = some cur) (hidle : cur ≠ k.idle_thread)
    (hctx : k.intr_context = false)
    (hnr : cur ∉ k.ready_list) (hns : cur ∉ k.sleep_list)
    (hnext : is_thread k (next_thread_to_run k).1 = true) :
    ∃ k', thread_sleep k wakeup_ticks = some k' ∧
      (k'.threads cur).wakeup_ticks = wakeup_ticks ∧
      (k'.threads cur).status = THREAD_BLOCKED ∧
      cur ∉ k'.ready_list ∧
      sorted_by_wakeup k' k'.sleep_list ∧
      ∃ pre post, k.sleep_list = pre ++ post ∧ k'.sleep_list = pre ++ cur :: post ∧
        (∀ a ∈ pre, (k'.threads a).wakeup_ticks ≤ wakeup_ticks) ∧
        (∀ b ∈ post, wakeup_ticks < (k'.threads b).wakeup_ticks) := by
  have hne : (next_thread_to_run k).1 ≠ cur := by
    unfold next_thread_to_run
    cases hl : k.ready_list with
    | nil => exact fun h => hidle h.symm
    | cons e es =>
      intro h
      apply hnr
      rw [hl]
      simp only at h
      rw [h]
      exact List.mem_cons_self _ _
  obtain ⟨k', h1, -, h3, h4, h5, h6⟩ := thread_sleep_eq k cur wakeup_ticks hc hctx hidle hne hnext
  have hkey : ∀ a, (k'.threads a).wakeup_ticks =
      (store k.threads cur { k.threads cur with wakeup_ticks := wakeup_ticks } a).wakeup_ticks := by
    intro a
    by_cases ha : a = cur
    · subst ha
      rw [h5, store_same]
    · rw [h6 a ha, store_other _ _ _ _ ha]
  have hs2 : k.sleep_list.Pairwise (fun a b =>
      (store k.threads cur { k.threads cur with wakeup_ticks := wakeup_ticks } a).wakeup_ticks ≤
        (store k.threads cur { k.threads cur with wakeup_ticks := wakeup_ticks } b).wakeup_ticks) := by
    refine List.Pairwise.imp_of_mem ?_ hs
    intro a b ha hb hab
    have hac : a ≠ cur := fun h => hns (h ▸ ha)
    have hbc : b ≠ cur := fun h => hns (h ▸ hb)
    rw [store_other _ _ _ _ hac, store_other _ _ _ _ hbc]
    exact hab
  obtain ⟨pre, post, g1, g2, g3, g4, g5⟩ := list_insert_ordered_asc
    (fun a => (store k.threads cur
      { k.threads cur with wakeup_ticks := wakeup_ticks } a).wakeup_ticks) cur k.sleep_list hs2
  have hcur : (k'.threads cur).wakeup_ticks = wakeup_ticks := by rw [h5]
  refine ⟨k', h1, hcur, by rw [h5], ?_, ?_, pre, post, g1, ?_, ?_, ?_⟩
  · rw [h3]
    unfold next_thread_to_run
    cases hl : k.ready_list with
    | nil => simp [hl] at hnr ⊢
    | cons e es =>
      rw [hl] at hnr
      simp only
      exact fun h => hnr (List.mem_cons_of_mem _ h)
  · unfold sorted_by_wakeup
    rw [h4, g2]
    refine g5.imp ?_
    intro a b hab
    rw [hkey a, hkey b]
    exact hab
  · rw [h4]
    exact g2
  · intro a ha
    have := g3 a ha
    rw [← hkey a, ← hkey cur, hcur] at this
    exact this
  · intro b hb
    have := g4 b hb
    rw [← hkey b, ← hkey cur, hcur] at this
    exact this

/-- Witness of C4 on `alarm_demo` outside the interrupt handler, where thread 2, the idle
thread, is valid: the running thread 1 goes to sleep until tick 10 and enters the sleep
registry behind the tick-10 thread 4 and in front of the tick-15 thread 5. -/
theorem thread_sleep_ordered_witness :
    (∃ k', thread_sleep { alarm_demo with intr_context := false } 10 = some k' ∧
      (k'.threads 1).wakeup_ticks = 10 ∧
      (k'.threads 1).status = THREAD_BLOCKED ∧
      1 ∉ k'.ready_list ∧
      sorted_by_wakeup k' k'.sleep_list ∧
      ∃ pre post, alarm_demo.sleep_list = pre ++ post ∧ k'.sleep_list = pre ++ 1 :: post ∧
        (∀ a ∈ pre, (k'.threads a).wakeup_ticks ≤ 10) ∧
        (∀ b ∈ post, 10 < (k'.threads b).wakeup_ticks)) ∧
    (thread_sleep { alarm_demo with intr_context := false } 10).map
        (fun k' => (k'.sleep_list, k'.ready_list, k'.running_thread, (k'.threads 1).status)) =
      some ([3, 4, 1, 5], [], 2, THREAD_BLOCKED) :=
  ⟨thread_sleep_ordered { alarm_demo with intr_context := false } 1 10
      (by unfold sorted_by_wakeup; decide) (by decide) (by decide) (by decide) (by decide)
      (by decide) (by decide),
    by decide⟩

/-! ## C5, C7, C8: priority donation along the wait chain -/

/-- The holders on the chain are read from the `_lock` members and the locks only. -/
theorem chain_holders_congr (k k1 : Kernel) (hl : k1.locks = k.locks)
    (ht : ∀ a, (k1.threads a)._lock = (k.threads a)._lock) (n : Nat) :
    ∀ cur, chain_holders k1 n cur = chain_holders k n cur := by
  induction n with
  | zero => intro cur; rfl
  | succ n ih =>
    intro cur
    simp only [chain_holders, hl, ht, ih]

/-- The loop of `donate_priority` with `n` iterations, on a chain whose awaited locks have
holders: it returns, the holders met get the priority of `cur` and keep their other fields,
and nothing else changes. -/
theorem donate_priority_loop_spec (n : Nat) :
    ∀ (cur : Nat) (k : Kernel),
      (∀ a, a = cur ∨ a ∈ chain_holders k n cur → (k.threads a)._lock ≠ 0 →
        (k.locks (k.threads a)._lock).holder ≠ 0) →
      ∃ k', donate_priority_loop n cur k = some k' ∧
        k' = { k with threads := k'.threads } ∧
        (∀ a, a ∉ chain_holders k n cur → k'.threads a = k.threads a) ∧
        (∀ a, a ∈ chain_holders k n cur →
          k'.threads a = { k.threads a with priority := (k.threads cur).priority }) := by
  induction n with
  | zero =>
    intro cur k _
    exact ⟨k, rfl, rfl, fun _ _ => rfl, fun a ha => absurd ha (List.not_mem_nil _)⟩
  | succ n ih =>
    intro cur k hwf
    by_cases hlock : (k.threads cur)._lock = 0
    · refine ⟨k, ?_, rfl, fun _ _ => rfl, ?_⟩
      · simp [donate_priority_loop, hlock]
      · intro a ha
        simp [chain_holders, hlock] at ha
    · have hh : (k.locks (k.threads cur)._lock).holder ≠ 0 := hwf cur (Or.inl rfl) hlock
      generalize hhold : (k.locks (k.threads cur)._lock).holder = h at hh
      have hch : chain_holders k (n + 1) cur = h :: chain_holders k n h := by
        simp [chain_holders, hlock, hhold, hh]
      generalize hk1 : ({ k with threads := (store k.threads h
          { k.threads h with priority := (k.threads cur).priority }) } : Kernel) = k1
      have hthreads : k1.threads = store k.threads h
          { k.threads h with priority := (k.threads cur).priority } := by rw [← hk1]
      have hlocks : k1.locks = k.locks := by rw [← hk1]
      have hl1 : ∀ a, (k1.threads a)._lock = (k.threads a)._lock := by
        intro a
        rw [hthreads]
        unfold store
        split
        · next hx => rw [hx]
        · rfl
      have hcong := chain_holders_congr k k1 hlocks hl1 n
      have hwf1 : ∀ a, a = h ∨ a ∈ chain_holders k1 n h → (k1.threads a)._lock ≠ 0 →
          (k1.locks (k1.threads a)._lock).holder ≠ 0 := by
        intro a ha
        rw [hl1 a, hlocks]
        apply hwf a
        right
        rw [hch]
        rcases ha with rfl | ha
        · exact List.mem_cons_self _ _
        · rw [hcong] at ha
          exact List.mem_cons_of_mem _ ha
      obtain ⟨k', h1, h2, h3, h4⟩ := ih h k1 hwf1
      have hp1 : (k1.threads h).priority = (k.threads cur).priority := by
        rw [hthreads, store_same]
      refine ⟨k', ?_, ?_, ?_, ?_⟩
      · simp only [donate_priority_loop, hlock, if_false, hhold, hh, hk1]
        exact h1
      · rw [h2, ← hk1]
      · intro a ha
        rw [hch] at ha
        have hne : a ≠ h := fun e => ha (e ▸ List.mem_cons_self _ _)
        have hnot : a ∉ chain_holders k1 n h := by
          rw [hcong]
          exact fun e => ha (List.mem_cons_of_mem _ e)
        rw [h3 a hnot, hthreads, store_other _ _ _ _ hne]
      · intro a ha
        rw [hch] at ha
        by_cases hin : a ∈ chain_holders k1 n h
        · rw [h4 a hin, hp1, hthreads]
          by_cases hah : a = h
          · rw [hah, store_same]
          · rw [store_other _ _ _ _ hah]
        · have hah : a = h := by
            rcases List.mem_cons.1 ha with e | e
            · exact e
            · rw [hcong] at hin
              exact absurd e hin
          rw [h3 a hin, hthreads, hah, store_same]

/-- On a wait chain that ends within `n` steps, the holders met are the chain. -/
theorem chain_holders_of_wait_chain (k : Kernel) (holders : List Nat) :
    ∀ (n cur : Nat), wait_chain k cur holders → holders.length ≤ n →
      chain_holders k n cur = holders := by
  induction holders with
  | nil =>
    intro n cur hchain _
    cases n with
    | zero => rfl
    | succ n =>
      simp only [wait_chain] at hchain
      simp [chain_holders, hchain]
  | cons h rest ih =>
    intro n cur hchain hlen
    obtain ⟨h1, h2, h3, h4⟩ := hchain
    cases n with
    | zero => simp at hlen
    | succ n =>
      have hlen' : rest.length ≤ n := by simpa using hlen
      simp [chain_holders, h1, h2, h3, ih n h h4 hlen']

/-- On a wait chain every awaited lock has a holder. -/
theorem wait_chain_holders_present (k : Kernel) (holders : List Nat) :
    ∀ cur, wait_chain k cur holders →
      ∀ a, a = cur ∨ a ∈ holders → (k.threads a)._lock ≠ 0 →
        (k.locks (k.threads a)._lock).holder ≠ 0 := by
  induction holders with
  | nil =>
    intro cur hchain a ha hl
    simp only [wait_chain] at hchain
    rcases ha with rfl | ha
    · exact absurd hchain hl
    · exact absurd ha (List.not_mem_nil _)
  | cons h rest ih =>
    intro cur hchain a ha hl
    obtain ⟨-, h2, h3, h4⟩ := hchain
    rcases ha with rfl | ha
    · rw [h2]
      exact h3
    · apply ih h h4 a ?_ hl
      rcases List.mem_cons.1 ha with e | e
      · exact Or.inl e
      · exact Or.inr e

/-- C5. On a wait chain `T0 -> L1 -> T1 -> ... -> Tk` of the running thread `T0` with
`k <= DONATION_MAX_DEPTH`, where `Tk` waits for no lock, `donate_priority` returns and
leaves every holder `T1..Tk` with an effective priority equal to the priority of `T0`,
which is as before. This holds whatever the priorities of the holders were, so also when
`T0`'s priority is at least each of them. -/
theorem donate_priority_along_chain (c : thread_h) (k : Kernel) (cur : Nat)
    (holders : List Nat)
    (hc : thread_current k = some cur)
    (hchain : wait_chain k cur holders)
    (hlen : holders.length ≤ c.DONATION_MAX_DEPTH) :
    ∃ k', donate_priority c k = some k' ∧
      (∀ h ∈ holders, (k'.threads h).priority = (k.threads cur).priority) ∧
      (k'.threads cur).priority = (k.threads cur).priority := by
  have hch := chain_holders_of_wait_chain k holders c.DONATION_MAX_DEPTH cur hchain hlen
  have hwf : ∀ a, a = cur ∨ a ∈ chain_holders k c.DONATION_MAX_DEPTH cur →
      (k.threads a)._lock ≠ 0 → (k.locks (k.threads a)._lock).holder ≠ 0 := by
    rw [hch]
    exact wait_chain_holders_present k holders cur hchain
  obtain ⟨k', h1, -, h3, h4⟩ := donate_priority_loop_spec c.DONATION_MAX_DEPTH cur k hwf
  rw [hch] at h3 h4
  refine ⟨k', ?_, ?_, ?_⟩
  · simp only [donate_priority, hc]
    exact h1
  · intro h hh
    rw [h4 h hh]
  · by_cases hin : cur ∈ holders
    · rw [h4 cur hin]
    · rw [h3 cur hin]

/-- Witness of C5 on `chain_demo`: the running thread 1 (priority 40) waits for a lock of
thread 3, which waits for a lock of thread 4; both holders end up with priority 40. -/
theorem donate_priority_along_chain_witness :
    (∃ k', donate_priority demo_h chain_demo = some k' ∧
      (∀ h ∈ [3, 4], (k'.threads h).priority = (chain_demo.threads 1).priority) ∧
      (k'.threads 1).priority = (chain_demo.threads 1).priority) ∧
    (donate_priority demo_h chain_demo).map
        (fun k' => ((k'.threads 1).priority, (k'.threads 3).priority, (k'.threads 4).priority)) =
      some (40, 40, 40) :=
  ⟨donate_priority_along_chain demo_h chain_demo 1 [3, 4] (by decide)
      (by simp only [wait_chain]; decide) (by decide),
    by decide⟩

/-- C7, at the failing input `lowering_demo`. The holder, thread 3, has priority 50, which
is its base priority, and the donor, the running thread 1, has priority 40. The claim gives
the holder the priority `max 50 40 = 50` after `donate_priority`; the code gives it 40, which
is below what it had and below its `priority_original`. -/
theorem donate_priority_lowers_higher_holder :
    (lowering_demo.threads 3).priority = 50 ∧
    (lowering_demo.threads 1).priority = 40 ∧
    wait_chain lowering_demo 1 [3] ∧
    (donate_priority demo_h lowering_demo).map
        (fun k' => ((k'.threads 3).priority, (k'.threads 3).priority_original)) =
      some (40, 50) ∧
    (donate_priority demo_h lowering_demo).map (fun k' => (k'.threads 3).priority) ≠
      some (max (lowering_demo.threads 3).priority (lowering_demo.threads 1).priority) :=
  ⟨by decide, by decide, by simp only [wait_chain]; decide, by decide, by decide⟩

/-- C8. `donate_priority` returns on every wait chain of the running thread whose awaited
locks have holders, be it circular or longer than `DONATION_MAX_DEPTH`. It writes the
priority, and nothing else, of the holders met on the first `DONATION_MAX_DEPTH` steps, which
are `DONATION_MAX_DEPTH` at most; a thread that comes only later on the chain, and a thread
that is not on the chain, is unchanged, and so is the rest of the state. -/
theorem donate_priority_bounded (c : thread_h) (k : Kernel) (cur : Nat)
    (hc : thread_current k = some cur)
    (hwf : ∀ a, a = cur ∨ a ∈ chain_holders k c.DONATION_MAX_DEPTH cur →
      (k.threads a)._lock ≠ 0 → (k.locks (k.threads a)._lock).holder ≠ 0) :
    ∃ k', donate_priority c k = some k' ∧
      (chain_holders k c.DONATION_MAX_DEPTH cur).length ≤ c.DONATION_MAX_DEPTH ∧
      k' = { k with threads := k'.threads } ∧
      (∀ a, k'.threads a = { k.threads a with priority := (k'.threads a).priority }) ∧
      (∀ a, a ∉ chain_holders k c.DONATION_MAX_DEPTH cur → k'.threads a = k.threads a) ∧
      (∀ n a, a ∈ chain_holders k n cur → a ∉ chain_holders k c.DONATION_MAX_DEPTH cur →
        k'.threads a = k.threads a) := by
  have hlen : ∀ n cur, (chain_holders k n cur).length ≤ n := by
    intro n
    induction n with
    | zero => intro cur; simp [chain_holders]
    | succ n ih =>
      intro cur
      unfold chain_holders
      split_ifs
      · simp
      · simp
      · simpa using ih _
  obtain ⟨k', h1, h2, h3, h4⟩ := donate_priority_loop_spec c.DONATION_MAX_DEPTH cur k hwf
  refine ⟨k', ?_, hlen _ _, h2, ?_, h3, fun _ a _ hnot => h3 a hnot⟩
  · simp only [donate_priority, hc]
    exact h1
  · intro a
    by_cases hin : a ∈ chain_holders k c.DONATION_MAX_DEPTH cur
    · rw [h4 a hin]
    · rw [h3 a hin]

/-- Witness of C8 on `cycle_demo`, a circular wait: with a depth of 8 the call returns,
threads 3 and 4 on the circle get priority 40 and thread 5 keeps priority 15. On
`chain_demo` with a depth of 1 only the first holder, thread 3, is written; thread 4, further
along the chain, keeps priority 10. -/
theorem donate_priority_bounded_witness :
    (∃ k', donate_priority demo_h cycle_demo = some k' ∧
      (chain_holders cycle_demo demo_h.DONATION_MAX_DEPTH 1).length ≤
        demo_h.DONATION_MAX_DEPTH ∧
      k' = { cycle_demo with threads := k'.threads } ∧
      (∀ a, k'.threads a =
        { cycle_demo.threads a with priority := (k'.threads a).priority }) ∧
      (∀ a, a ∉ chain_holders cycle_demo demo_h.DONATION_MAX_DEPTH 1 →
        k'.threads a = cycle_demo.threads a) ∧
      (∀ n a, a ∈ chain_holders cycle_demo n 1 →
        a ∉ chain_holders cycle_demo demo_h.DONATION_MAX_DEPTH 1 →
        k'.threads a = cycle_demo.threads a)) ∧
    chain_holders cycle_demo 8 1 = [3, 4, 3, 4, 3, 4, 3, 4] ∧
    (donate_priority demo_h cycle_demo).map
        (fun k' => ((k'.threads 1).priority, (k'.threads 3).priority, (k'.threads 4).priority,
          (k'.threads 5).priority)) =
      some (40, 40, 40, 15) ∧
    (donate_priority { demo_h with DONATION_MAX_DEPTH := 1 } chain_demo).map
        (fun k' => ((k'.threads 1).priority, (k'.threads 3).priority, (k'.threads 4).priority,
          (k'.threads 5).priority)) =
      some (40, 40, 10, 15) := by
  have hch : chain_holders cycle_demo demo_h.DONATION_MAX_DEPTH 1 = [3, 4, 3, 4, 3, 4, 3, 4] := by
    decide
  have hwf : ∀ a, a = 1 ∨ a ∈ chain_holders cycle_demo demo_h.DONATION_MAX_DEPTH 1 →
      (cycle_demo.threads a)._lock ≠ 0 →
        (cycle_demo.locks (cycle_demo.threads a)._lock).holder ≠ 0 := by
    intro a ha _
    rw [hch] at ha
    have h3 : a = 1 ∨ a = 3 ∨ a = 4 := by
      simp only [List.mem_cons, List.mem_singleton, List.not_mem_nil, or_false] at ha
      tauto
    rcases h3 with rfl | rfl | rfl <;> decide
  exact ⟨donate_priority_bounded demo_h cycle_demo 1 (by decide) hwf, by decide, by decide,
    by decide⟩

/-! ## Lemmas on `list_sort` -/

/-- An element that precedes no entry of the list is inserted at the back. -/
theorem list_insert_ordered_back (less : Nat → Nat → Bool) (x : Nat) (l : List Nat)
    (h : ∀ a ∈ l, less x a = false) : list_insert_ordered l x less = l ++ [x] := by
  induction l with
  | nil => rfl
  | cons e es ih =>
    have he : less x e = false := h e (List.mem_cons_self _ _)
    simp [list_insert_ordered, he, ih (fun a ha => h a (List.mem_cons_of_mem _ ha))]

/-- Inserting into a list sorted by descending key puts the element behind the entries of
the same key: the entries of any one key keep their order, the new one last. -/
theorem list_insert_ordered_stable (key : Nat → Int) (x : Nat) (l : List Nat)
    (hs : l.Pairwise (fun a b => key a ≥ key b)) (p : Int) :
    (list_insert_ordered l x (fun a b => decide (key a > key b))).filter
        (fun a => decide (key a = p)) =
      (l ++ [x]).filter (fun a => decide (key a = p)) := by
  obtain ⟨pre, post, h1, h2, -, h4, -⟩ := list_insert_ordered_desc key x l hs
  rw [h2, h1]
  by_cases hx : key x = p
  · have hpost : post.filter (fun a => decide (key a = p)) = [] := by
      rw [List.filter_eq_nil_iff]
      intro a ha
      have := h4 a ha
      simp only [decide_eq_true_eq]
      omega
    simp [List.filter_append, List.filter_cons, hx, hpost]
  · simp [List.filter_append, List.filter_cons, hx]

/-- The insertions of `list_sort`, started from a sorted list `acc`: the result is sorted by
descending key, it is a rearrangement of `acc` followed by `l`, the entries of any one key
keep their relative order, and nothing moves when `acc` followed by `l` is sorted already. -/
theorem list_sort_fold (key : Nat → Int) (l : List Nat) :
    ∀ acc : List Nat, acc.Pairwise (fun a b => key a ≥ key b) →
      (l.foldl (fun acc e => list_insert_ordered acc e (fun a b => decide (key a > key b)))
          acc).Pairwise (fun a b => key a ≥ key b) ∧
      (l.foldl (fun acc e => list_insert_ordered acc e (fun a b => decide (key a > key b)))
          acc).Perm (acc ++ l) ∧
      (∀ p : Int,
        (l.foldl (fun acc e => list_insert_ordered acc e (fun a b => decide (key a > key b)))
            acc).filter (fun a => decide (key a = p)) =
          (acc ++ l).filter (fun a => decide (key a = p))) ∧
      ((acc ++ l).Pairwise (fun a b => key a ≥ key b) →
        l.foldl (fun acc e => list_insert_ordered acc e (fun a b => decide (key a > key b)))
          acc = acc ++ l) := by
  induction l with
  | nil =>
    intro acc hacc
    simp only [List.foldl_nil, List.append_nil]
    exact ⟨hacc, List.Perm.refl _, fun _ => trivial, fun _ => trivial⟩
  | cons x xs ih =>
    intro acc hacc
    obtain ⟨pre, post, h1, h2, -, -, h5⟩ := list_insert_ordered_desc key x acc hacc
    have hsorted : (list_insert_ordered acc x (fun a b => decide (key a > key b))).Pairwise
        (fun a b => key a ≥ key b) := by
      rw [h2]
      exact h5
    have hperm : (list_insert_ordered acc x (fun a b => decide (key a > key b))).Perm
        (acc ++ [x]) := by
      rw [h2, h1]
      refine List.perm_middle.trans ?_
      exact (List.perm_append_singleton x (pre ++ post)).symm
    obtain ⟨g1, g2, g3, g4⟩ := ih _ hsorted
    simp only [List.foldl_cons]
    refine ⟨g1, ?_, ?_, ?_⟩
    · refine g2.trans ?_
      have := hperm.append_right xs
      simpa using this
    · intro p
      rw [g3 p, List.filter_append, list_insert_ordered_stable key x acc hacc p,
        ← List.filter_append]
      simp
    · intro hall
      have hback : list_insert_ordered acc x (fun a b => decide (key a > key b)) =
          acc ++ [x] := by
        apply list_insert_ordered_back
        intro a ha
        have := (List.pairwise_append.1 hall).2.2 a ha x (List.mem_cons_self _ _)
        simp only [decide_eq_false_iff_not, not_lt]
        exact this
      rw [hback] at g4 ⊢
      have := g4 (by simpa using hall)
      simpa using this

/-- What `list_sort` does under a descending order of keys: the result is sorted, a
rearrangement of the list, stable, and the list itself when that is sorted already. -/
theorem list_sort_desc (key : Nat → Int) (l : List Nat) :
    (list_sort l (fun a b => decide (key a > key b))).Pairwise (fun a b => key a ≥ key b) ∧
      (list_sort l (fun a b => decide (key a > key b))).Perm l ∧
      (∀ p : Int, (list_sort l (fun a b => decide (key a > key b))).filter
          (fun a => decide (key a = p)) = l.filter (fun a => decide (key a = p))) ∧
      (l.Pairwise (fun a b => key a ≥ key b) →
        list_sort l (fun a b => decide (key a > key b)) = l) := by
  have h := list_sort_fold key l [] List.Pairwise.nil
  simpa [list_sort] using h

theorem list_insert_ordered_congr (less less' : Nat → Nat → Bool) (x : Nat) (l : List Nat)
    (h : ∀ a ∈ l, less x a = less' x a) :
    list_insert_ordered l x less = list_insert_ordered l x less' := by
  induction l with
  | nil => rfl
  | cons e es ih =>
    simp only [list_insert_ordered, h e (List.mem_cons_self _ _),
      ih (fun a ha => h a (List.mem_cons_of_mem _ ha))]

theorem list_sort_fold_congr (less less' : Nat → Nat → Bool) (l : List Nat) :
    ∀ acc : List Nat, (∀ a ∈ acc ++ l, ∀ b ∈ acc ++ l, less a b = less' a b) →
      l.foldl (fun acc e => list_insert_ordered acc e less) acc =
        l.foldl (fun acc e => list_insert_ordered acc e less') acc := by
  induction l with
  | nil => intro acc _; rfl
  | cons x xs ih =>
    intro acc h
    have hx : x ∈ acc ++ x :: xs := by simp
    have hins : list_insert_ordered acc x less = list_insert_ordered acc x less' :=
      list_insert_ordered_congr less less' x acc
        (fun a ha => h x hx a (List.mem_append_left _ ha))
    simp only [List.foldl_cons]
    rw [← hins]
    apply ih
    have hsub : ∀ a, a ∈ list_insert_ordered acc x less ++ xs → a ∈ acc ++ x :: xs := by
      intro a ha
      rcases List.mem_append.1 ha with ha | ha
      · rcases (mem_list_insert_ordered _ _ _ _).1 ha with rfl | ha
        · exact hx
        · exact List.mem_append_left _ ha
      · exact List.mem_append_right _ (List.mem_cons_of_mem _ ha)
    exact fun a ha b hb => h a (hsub a ha) b (hsub b hb)

/-- The order of `list_sort` is read on the entries of the list only. -/
theorem list_sort_congr (less less' : Nat → Nat → Bool) (l : List Nat)
    (h : ∀ a ∈ l, ∀ b ∈ l, less a b = less' a b) : list_sort l less = list_sort l less' := by
  unfold list_sort
  exact list_sort_fold_congr less less' l [] (by simpa using h)

/-- The maximum of a base value and the keys of a list is at least the base and each key, and
it is the base or one of the keys. -/
theorem foldl_max_spec (key : Nat → Int) (l : List Nat) :
    ∀ base : Int, base ≤ l.foldl (fun m d => max m (key d)) base ∧
      (∀ d ∈ l, key d ≤ l.foldl (fun m d => max m (key d)) base) ∧
      (l.foldl (fun m d => max m (key d)) base = base ∨
        ∃ d ∈ l, l.foldl (fun m d => max m (key d)) base = key d) := by
  induction l with
  | nil => intro base; simp
  | cons x xs ih =>
    intro base
    obtain ⟨h1, h2, h3⟩ := ih (max base (key x))
    simp only [List.foldl_cons]
    refine ⟨le_trans (le_max_left _ _) h1, ?_, ?_⟩
    · intro d hd
      rcases List.mem_cons.1 hd with rfl | hd
      · exact le_trans (le_max_right _ _) h1
      · exact h2 d hd
    · rcases h3 with h3 | ⟨d, hd, h3⟩
      · rcases max_choice base (key x) with hm | hm
        · left
          rw [h3, hm]
        · right
          exact ⟨x, List.mem_cons_self _ _, by rw [h3, hm]⟩
      · right
        exact ⟨d, List.mem_cons_of_mem _ hd, h3⟩

/-- The value that is at least the base and each key, and is the base or one of the keys,
is the maximum computed by the fold. -/
theorem foldl_max_unique (key : Nat → Int) (l : List Nat) (base m : Int)
    (h1 : base ≤ m) (h2 : ∀ d ∈ l, key d ≤ m) (h3 : m = base ∨ ∃ d ∈ l, m = key d) :
    m = l.foldl (fun m d => max m (key d)) base := by
  obtain ⟨g1, g2, g3⟩ := foldl_max_spec key l base
  apply le_antisymm
  · rcases h3 with h3 | ⟨d, hd, h3⟩
    · rw [h3]
      exact g1
    · rw [h3]
      exact g2 d hd
  · rcases g3 with g3 | ⟨d, hd, g3⟩
    · rw [g3]
      exact h1
    · rw [g3]
      exact h2 d hd

theorem remove_donation_loop_eq_filter (k : Kernel) (lock : Nat) (l : List Nat) :
    remove_donation_loop k lock l = l.filter (fun d => decide ((k.threads d)._lock ≠ lock)) := by
  induction l with
  | nil => rfl
  | cons d ds ih =>
    by_cases h : (k.threads d)._lock = lock
    · simp [remove_donation_loop, h, ih]
    · simp [remove_donation_loop, h, ih]

/-! ## C6, C9: revoking donations and setting the base priority -/

/-- The result of `update_donation` for a running thread that is not its own donor: its
priority becomes the maximum of `priority_original` and the priorities of its donors, its
donation list is sorted, and nothing else changes. -/
theorem update_donation_spec (k : Kernel) (cur : Nat)
    (hc : thread_current k = some cur)
    (hself : cur ∉ (k.threads cur).donation_list) :
    ∃ k', update_donation k = some k' ∧
      k' = { k with threads := k'.threads } ∧
      (∀ a, a ≠ cur → k'.threads a = k.threads a) ∧
      k'.threads cur = { k.threads cur with
        priority := max_with_donors k (k.threads cur).priority_original
          (k.threads cur).donation_list,
        donation_list :=
          list_sort (k.threads cur).donation_list (thread_compare_donation_priority k) } := by
  by_cases hd : (k.threads cur).donation_list = []
  · refine ⟨{ k with threads := (store k.threads cur
      { k.threads cur with priority := (k.threads cur).priority_original }) }, ?_, rfl, ?_, ?_⟩
    · simp [update_donation, hc, store_same, hd]
    · intro a ha
      exact store_other _ _ _ _ ha
    · simp only [store_same, hd, max_with_donors, list_sort, List.foldl_nil]
  · have hcongr : list_sort (k.threads cur).donation_list
        (fun p1 p2 => decide ((store k.threads cur
          { k.threads cur with priority := (k.threads cur).priority_original } p1).priority >
            (store k.threads cur
              { k.threads cur with priority := (k.threads cur).priority_original } p2).priority)) =
        list_sort (k.threads cur).donation_list (thread_compare_donation_priority k) := by
      apply list_sort_congr
      intro a ha b hb
      have hac : a ≠ cur := fun e => hself (e ▸ ha)
      have hbc : b ≠ cur := fun e => hself (e ▸ hb)
      rw [store_other _ _ _ _ hac, store_other _ _ _ _ hbc]
      rfl
    obtain ⟨s1, s2, -, -⟩ := list_sort_desc (fun a => (k.threads a).priority)
      (k.threads cur).donation_list
    have hcmp : (fun a b => decide ((k.threads a).priority > (k.threads b).priority)) =
        thread_compare_donation_priority k := rfl
    rw [hcmp] at s1 s2
    generalize hsorted : list_sort (k.threads cur).donation_list
      (thread_compare_donation_priority k) = sorted at hcongr s1 s2
    cases sorted with
    | nil => exact absurd (List.Perm.nil_eq s2) (fun e => hd e.symm)
    | cons p1 rest =>
      have hp1 : p1 ∈ (k.threads cur).donation_list := s2.subset (List.mem_cons_self _ _)
      have hp1c : p1 ≠ cur := fun e => hself (e ▸ hp1)
      have hmax : max_with_donors k (k.threads cur).priority_original
          (k.threads cur).donation_list =
          if (k.threads p1).priority > (k.threads cur).priority_original
          then (k.threads p1).priority else (k.threads cur).priority_original := by
        symm
        apply foldl_max_unique (fun a => (k.threads a).priority)
        · split_ifs <;> omega
        · intro d hdm
          have hds : d ∈ p1 :: rest := s2.symm.subset hdm
          have hle : (k.threads d).priority ≤ (k.threads p1).priority := by
            rcases List.mem_cons.1 hds with rfl | hdr
            · exact le_refl _
            · exact (List.pairwise_cons.1 s1).1 d hdr
          split_ifs <;> omega
        · split_ifs
          · exact Or.inr ⟨p1, hp1, rfl⟩
          · exact Or.inl rfl
      have hres : update_donation k = some { k with threads := (store k.threads cur
          { k.threads cur with
            priority := if (k.threads p1).priority > (k.threads cur).priority_original
              then (k.threads p1).priority else (k.threads cur).priority_original,
            donation_list := p1 :: rest }) } := by
        simp only [update_donation, hc, store_same, ne_eq, hd, not_false_eq_true, if_true,
          thread_compare_donation_priority_eq, hcongr, store_other _ _ _ _ hp1c, store_store]
        by_cases hgt : (k.threads p1).priority > (k.threads cur).priority_original
        · simp only [hgt, if_true]
        · simp only [hgt, if_false]
      rw [hmax]
      refine ⟨_, hres, rfl, ?_, ?_⟩
      · intro a ha
        exact store_other _ _ _ _ ha
      · exact store_same _ _ _

theorem max_with_donors_congr (k k' : Kernel) (base : Int) (donors : List Nat)
    (h : ∀ a, (k'.threads a).priority = (k.threads a).priority) :
    max_with_donors k' base donors = max_with_donors k base donors := by
  unfold max_with_donors
  have : (fun (m : Int) (d : Nat) => max m (k'.threads d).priority) =
      (fun (m : Int) (d : Nat) => max m (k.threads d).priority) := by
    funext m d
    rw [h d]
  rw [this]

/-- The result of `remove_donation` for the running thread. -/
theorem remove_donation_eq (k : Kernel) (cur lock : Nat) (hc : thread_current k = some cur) :
    remove_donation k lock = some { k with threads := (store k.threads cur
      { k.threads cur with donation_list := donors_not_waiting k lock }) } := by
  obtain ⟨hrun, -, -⟩ := (thread_current_eq_some k cur).1 hc
  simp only [remove_donation, hc, remove_donation_loop_eq_filter, donors_not_waiting, hrun]

/-- C6, the claim as stated fails on `donors_demo`. The donors of the running thread 1 that
do not wait for lock 1 are thread 3 (priority 20) and thread 4 (priority 30), in this order
in its donation list; after `remove_donation` of lock 1 and `update_donation` the donation
list is thread 4, thread 3: the donors are not in their previous order. -/
theorem remove_then_update_reorders_donors :
    donors_not_waiting donors_demo 1 = [3, 4] ∧
    ((remove_donation donors_demo 1).bind update_donation).map
        (fun k2 => (k2.threads 1).donation_list) = some [4, 3] ∧
    ((remove_donation donors_demo 1).bind update_donation).map
        (fun k2 => (k2.threads 1).donation_list) ≠ some (donors_not_waiting donors_demo 1) := by
  decide

/-- C6, amended. For the running thread `H`, which is not its own donor, and a lock `L`,
`remove_donation L` followed by `update_donation` returns; the donation list of `H` is then
made of exactly its previous donors that do not wait for `L`, put in descending order of
priority with the donors of one priority in their previous order (so it is these donors in
their previous order when that was descending already); these donors and every other thread
are untouched; the effective priority of `H` is the maximum of `priority_original` and the
priorities of the donors left, which is `priority_original` when none is left; the other
fields of `H` are as before. -/
theorem remove_then_update_donation (k : Kernel) (H L : Nat)
    (hc : thread_current k = some H)
    (hself : H ∉ (k.threads H).donation_list) :
    ∃ k1 k2, remove_donation k L = some k1 ∧ update_donation k1 = some k2 ∧
      k2 = { k with threads := k2.threads } ∧
      (∀ a, a ≠ H → k2.threads a = k.threads a) ∧
      k2.threads H = { k.threads H with
        priority := (k2.threads H).priority,
        donation_list := (k2.threads H).donation_list } ∧
      (k2.threads H).donation_list.Perm (donors_not_waiting k L) ∧
      sorted_by_priority k (k2.threads H).donation_list ∧
      (∀ p : Int, (k2.threads H).donation_list.filter
          (fun d => decide ((k.threads d).priority = p)) =
        (donors_not_waiting k L).filter (fun d => decide ((k.threads d).priority = p))) ∧
      (sorted_by_priority k (donors_not_waiting k L) →
        (k2.threads H).donation_list = donors_not_waiting k L) ∧
      (k2.threads H).priority =
        max_with_donors k (k.threads H).priority_original (donors_not_waiting k L) ∧
      (donors_not_waiting k L = [] →
        (k2.threads H).priority = (k.threads H).priority_original) := by
  obtain ⟨hrun, hthr, hst⟩ := (thread_current_eq_some k H).1 hc
  have h1 := remove_donation_eq k H L hc
  generalize hk1 : ({ k with threads := (store k.threads H
      { k.threads H with donation_list := donors_not_waiting k L }) } : Kernel) = k1 at h1
  have hthreads : k1.threads = store k.threads H
      { k.threads H with donation_list := donors_not_waiting k L } := by rw [← hk1]
  have hH : k1.threads H = { k.threads H with donation_list := donors_not_waiting k L } := by
    rw [hthreads, store_same]
  have hprio : ∀ a, (k1.threads a).priority = (k.threads a).priority := by
    intro a
    rw [hthreads]
    refine store_priority _ _ _ _ ?_
    rfl
  have hc1 : thread_current k1 = some H := by
    rw [thread_current_eq_some]
    refine ⟨by rw [← hk1]; exact hrun, ?_, by rw [hH]; exact hst⟩
    rw [is_thread_iff] at hthr ⊢
    rw [hH]
    exact hthr
  have hsub : ∀ d ∈ donors_not_waiting k L, d ∈ (k.threads H).donation_list := by
    intro d hd
    unfold donors_not_waiting at hd
    rw [hrun] at hd
    exact (List.mem_filter.1 hd).1
  have hself1 : H ∉ (k1.threads H).donation_list := by
    rw [hH]
    exact fun h => hself (hsub H h)
  obtain ⟨k2, g1, g2, g3, g4⟩ := update_donation_spec k1 H hc1 hself1
  have hcmp : thread_compare_donation_priority k1 =
      (fun a b => decide ((k.threads a).priority > (k.threads b).priority)) := by
    funext a b
    simp only [thread_compare_donation_priority, hprio]
  rw [hH, hcmp, max_with_donors_congr k k1 _ _ hprio] at g4
  simp only at g4
  obtain ⟨s1, s2, s3, s4⟩ := list_sort_desc (fun a => (k.threads a).priority)
    (donors_not_waiting k L)
  have hdl : (k2.threads H).donation_list = list_sort (donors_not_waiting k L)
      (fun a b => decide ((k.threads a).priority > (k.threads b).priority)) := by rw [g4]
  have hpr : (k2.threads H).priority =
      max_with_donors k (k.threads H).priority_original (donors_not_waiting k L) := by rw [g4]
  refine ⟨k1, k2, h1, g1, ?_, ?_, ?_, ?_, ?_, ?_, ?_, hpr, ?_⟩
  · rw [g2, ← hk1]
  · intro a ha
    rw [g3 a ha, hthreads, store_other _ _ _ _ ha]
  · rw [g4]
  · rw [hdl]
    exact s2
  · unfold sorted_by_priority
    rw [hdl]
    exact s1
  · intro p
    rw [hdl]
    exact s3 p
  · intro hs
    rw [hdl]
    exact s4 hs
  · intro hnil
    rw [hpr, hnil]
    rfl

/-- Witness of C6 on `release_demo`: H (thread 1, base priority 10) has the priority 40 of
its single donor D (thread 3), which waits for lock 1; after the release of lock 1 its
donation list is empty and its priority is 10. -/
theorem remove_then_update_donation_witness :
    (∃ k1 k2, remove_donation release_demo 1 = some k1 ∧ update_donation k1 = some k2 ∧
      k2 = { release_demo with threads := k2.threads } ∧
      (∀ a, a ≠ 1 → k2.threads a = release_demo.threads a) ∧
      k2.threads 1 = { release_demo.threads 1 with
        priority := (k2.threads 1).priority,
        donation_list := (k2.threads 1).donation_list } ∧
      (k2.threads 1).donation_list.Perm (donors_not_waiting release_demo 1) ∧
      sorted_by_priority release_demo (k2.threads 1).donation_list ∧
      (∀ p : Int, (k2.threads 1).donation_list.filter
          (fun d => decide ((release_demo.threads d).priority = p)) =
        (donors_not_waiting release_demo 1).filter
          (fun d => decide ((release_demo.threads d).priority = p))) ∧
      (sorted_by_priority release_demo (donors_not_waiting release_demo 1) →
        (k2.threads 1).donation_list = donors_not_waiting release_demo 1) ∧
      (k2.threads 1).priority =
        max_with_donors release_demo (release_demo.threads 1).priority_original
          (donors_not_waiting release_demo 1) ∧
      (donors_not_waiting release_demo 1 = [] →
        (k2.threads 1).priority = (release_demo.threads 1).priority_original)) ∧
    (release_demo.threads 1).priority = 40 ∧
    ((remove_donation release_demo 1).bind update_donation).map
        (fun k2 => ((k2.threads 1).priority, (k2.threads 1).donation_list)) = some (10, []) :=
  ⟨remove_then_update_donation release_demo 1 1 (by decide) (by decide), by decide, by decide⟩

/-- The result of `thread_yield` for the idle thread when the ready list is not empty: it is
not enqueued, and the front of the ready list is dispatched. -/
theorem thread_yield_idle_eq (k : Kernel) (cur next : Nat) (rest : List Nat)
    (hc : thread_current k = some cur) (hctx : k.intr_context = false)
    (hidle : cur = k.idle_thread)
    (hready : k.ready_list = next :: rest)
    (hnext : is_thread k next = true) :
    thread_yield k = some { k with
      ready_list := rest,
      running_thread := next,
      thread_ticks := 0,
      level := if next = cur then k.level else INTR_OFF,
      threads :=
        store (store k.threads cur { k.threads cur with status := THREAD_READY }) next
          { store k.threads cur { k.threads cur with status := THREAD_READY } next with
            status := THREAD_RUNNING } } := by
  obtain ⟨hrun, hthr, hst⟩ := (thread_current_eq_some k cur).1 hc
  obtain ⟨hthr1, hthr2⟩ := (is_thread_iff k cur).1 hthr
  obtain ⟨hnext1, hnext2⟩ := (is_thread_iff k next).1 hnext
  by_cases hnc : next = cur
  · subst hnc
    simp [thread_yield, hc, hctx, ← hidle, hready, schedule, next_thread_to_run,
      thread_schedule_tail, hrun, store_same, is_thread, hthr1, hthr2]
  · have hnc2 : ¬ cur = next := fun h => hnc h.symm
    simp [thread_yield, hc, hctx, ← hidle, hready, schedule, next_thread_to_run,
      thread_schedule_tail, hrun, store_same, store_other, is_thread, hnc, hnc2, hnext1, hnext2]

/-- The call `thread_yield` returns, and writes nothing but `status` members. -/
theorem thread_yield_frame (k : Kernel) (cur : Nat)
    (hc : thread_current k = some cur) (hctx : k.intr_context = false)
    (hvalid : ∀ a ∈ k.ready_list, is_thread k a = true)
    (hne : cur ≠ k.idle_thread ∨ k.ready_list ≠ []) :
    ∃ k', thread_yield k = some k' ∧
      ∀ a, k'.threads a = { k.threads a with status := (k'.threads a).status } := by
  obtain ⟨-, hthr, -⟩ := (thread_current_eq_some k cur).1 hc
  have hstore : ∀ (next a : Nat),
      (store (store k.threads cur { k.threads cur with status := THREAD_READY }) next
        { store k.threads cur { k.threads cur with status := THREAD_READY } next with
          status := THREAD_RUNNING }) a =
      { k.threads a with status :=
        ((store (store k.threads cur { k.threads cur with status := THREAD_READY }) next
          { store k.threads cur { k.threads cur with status := THREAD_READY } next with
            status := THREAD_RUNNING }) a).status } := by
    intro next a
    by_cases h1 : a = next
    · subst h1
      by_cases h2 : a = cur
      · subst h2
        simp only [store_same]
      · simp only [store_same, store_other _ _ _ _ h2]
    · by_cases h2 : a = cur
      · subst h2
        simp only [store_same, store_other _ _ _ _ h1]
      · simp only [store_other _ _ _ _ h1, store_other _ _ _ _ h2]
  by_cases hidle : cur = k.idle_thread
  · cases hl : k.ready_list with
    | nil =>
      rcases hne with h | h
      · exact absurd hidle h
      · exact absurd hl h
    | cons next rest =>
      have hnext : is_thread k next = true := hvalid next (by rw [hl]; exact List.mem_cons_self _ _)
      exact ⟨_, thread_yield_idle_eq k cur next rest hc hctx hidle hl hnext, hstore next⟩
  · cases hins : list_insert_ordered k.ready_list cur (thread_compare_priority k) with
    | nil => exact absurd hins (list_insert_ordered_ne_nil _ _ _)
    | cons next rest =>
      have hnext : is_thread k next = true := by
        have hmem : next ∈ list_insert_ordered k.ready_list cur (thread_compare_priority k) := by
          rw [hins]
          exact List.mem_cons_self _ _
        rcases (mem_list_insert_ordered _ _ _ _).1 hmem with rfl | h
        · exact hthr
        · exact hvalid next h
      exact ⟨_, thread_yield_eq k cur next rest hc hctx hidle hins hnext, hstore next⟩

/-- The call `thread_validate_priority` returns, and writes nothing but `status` members. -/
theorem thread_validate_priority_frame (k : Kernel) (cur : Nat)
    (hc : thread_current k = some cur) (hctx : k.intr_context = false)
    (hvalid : ∀ a ∈ k.ready_list, is_thread k a = true) :
    ∃ k', thread_validate_priority k = some k' ∧
      ∀ a, k'.threads a = { k.threads a with status := (k'.threads a).status } := by
  cases hl : k.ready_list with
  | nil => exact ⟨k, by simp [thread_validate_priority, hl], fun _ => rfl⟩
  | cons front rest =>
    by_cases hlt : (k.threads cur).priority < (k.threads front).priority
    · obtain ⟨k', h1, h2⟩ := thread_yield_frame k cur hc hctx hvalid
        (Or.inr (by rw [hl]; exact List.cons_ne_nil _ _))
      refine ⟨k', ?_, h2⟩
      simp [thread_validate_priority, hl, hc, hlt, h1]
    · exact ⟨k, by simp [thread_validate_priority, hl, hc, hlt], fun _ => rfl⟩

/-- C9. With MLFQS inactive, `thread_set_priority` called by the running thread `cur` (not
its own donor, outside an interrupt handler, the ready threads valid) returns and sets
`priority_original` of `cur` to `new_priority` and its effective priority to the maximum of
`new_priority` and the priorities of its donors. So the effective priority is at least the
priority of every donor, and when a donor has a priority of `new_priority` or more, it is
the priority of a donor. -/
theorem thread_set_priority_keeps_donations (k : Kernel) (cur : Nat) (new_priority : Int)
    (hm : k.thread_mlfqs = false)
    (hc : thread_current k = some cur)
    (hself : cur ∉ (k.threads cur).donation_list)
    (hctx : k.intr_context = false)
    (hvalid : ∀ a ∈ k.ready_list, is_thread k a = true) :
    ∃ k', thread_set_priority k new_priority = some k' ∧
      (k'.threads cur).priority_original = new_priority ∧
      (k'.threads cur).priority =
        max_with_donors k new_priority (k.threads cur).donation_list ∧
      new_priority ≤ (k'.threads cur).priority ∧
      (∀ d ∈ (k.threads cur).donation_list,
        (k.threads d).priority ≤ (k'.threads cur).priority) ∧
      ((∃ d ∈ (k.threads cur).donation_list, new_priority ≤ (k.threads d).priority) →
        ∃ d ∈ (k.threads cur).donation_list, (k'.threads cur).priority = (k.threads d).priority) := by
  obtain ⟨hrun, hthr, hst⟩ := (thread_current_eq_some k cur).1 hc
  generalize hk1 : ({ k with threads := (store k.threads cur
      { k.threads cur with priority_original := new_priority }) } : Kernel) = k1
  have hthreads : k1.threads = store k.threads cur
      { k.threads cur with priority_original := new_priority } := by rw [← hk1]
  have hcur1 : k1.threads cur = { k.threads cur with priority_original := new_priority } := by
    rw [hthreads, store_same]
  have hprio : ∀ a, (k1.threads a).priority = (k.threads a).priority := by
    intro a
    rw [hthreads]
    refine store_priority _ _ _ _ ?_
    rfl
  have hc1 : thread_current k1 = some cur := by
    rw [thread_current_eq_some]
    refine ⟨by rw [← hk1]; exact hrun, ?_, by rw [hcur1]; exact hst⟩
    rw [is_thread_iff] at hthr ⊢
    rw [hcur1]
    exact hthr
  have hself1 : cur ∉ (k1.threads cur).donation_list := by
    rw [hcur1]
    exact hself
  obtain ⟨k2, g1, g2, g3, g4⟩ := update_donation_spec k1 cur hc1 hself1
  rw [hcur1, max_with_donors_congr k k1 _ _ hprio] at g4
  simp only at g4
  have hmagic : ∀ a, (k2.threads a).magic = (k.threads a).magic := by
    intro a
    by_cases ha : a = cur
    · rw [ha, g4]
    · rw [g3 a ha, hthreads, store_other _ _ _ _ ha]
  have hc2 : thread_current k2 = some cur := by
    rw [thread_current_eq_some]
    refine ⟨by rw [g2, ← hk1]; exact hrun, ?_, by rw [g4]; exact hst⟩
    rw [is_thread_iff] at hthr ⊢
    rw [hmagic]
    exact hthr
  have hctx2 : k2.intr_context = false := by
    rw [g2, ← hk1]
    exact hctx
  have hvalid2 : ∀ a ∈ k2.ready_list, is_thread k2 a = true := by
    intro a ha
    rw [g2, ← hk1] at ha
    have := hvalid a ha
    rw [is_thread_iff] at this ⊢
    rw [hmagic]
    exact this
  obtain ⟨k', f1, f2⟩ := thread_validate_priority_frame k2 cur hc2 hctx2 hvalid2
  have hpo : (k'.threads cur).priority_original = new_priority := by
    rw [f2 cur, g4]
  have hpr : (k'.threads cur).priority =
      max_with_donors k new_priority (k.threads cur).donation_list := by
    rw [f2 cur, g4]
  obtain ⟨m1, m2, m3⟩ := foldl_max_spec (fun a => (k.threads a).priority)
    (k.threads cur).donation_list new_priority
  refine ⟨k', ?_, hpo, hpr, ?_, ?_, ?_⟩
  · unfold thread_set_priority
    rw [if_neg (by rw [hm]; exact Bool.false_ne_true)]
    simp only [hc, hk1, g1]
    exact f1
  · rw [hpr]
    exact m1
  · intro d hd
    rw [hpr]
    exact m2 d hd
  · rintro ⟨d, hd, hle⟩
    rw [hpr]
    rcases m3 with m3 | m3
    · refine ⟨d, hd, ?_⟩
      have := m2 d hd
      unfold max_with_donors
      rw [m3] at this ⊢
      omega
    · exact m3

/-- Witness of C9 on `release_demo`: thread 1 has the donor thread 3 of priority 40; setting
its base priority to 5 leaves its effective priority at 40, and setting it to 50 raises it
to 50. -/
theorem thread_set_priority_keeps_donations_witness :
    (∃ k', thread_set_priority release_demo 5 = some k' ∧
      (k'.threads 1).priority_original = 5 ∧
      (k'.threads 1).priority =
        max_with_donors release_demo 5 (release_demo.threads 1).donation_list ∧
      5 ≤ (k'.threads 1).priority ∧
      (∀ d ∈ (release_demo.threads 1).donation_list,
        (release_demo.threads d).priority ≤ (k'.threads 1).priority) ∧
      ((∃ d ∈ (release_demo.threads 1).donation_list, 5 ≤ (release_demo.threads d).priority) →
        ∃ d ∈ (release_demo.threads 1).donation_list,
          (k'.threads 1).priority = (release_demo.threads d).priority)) ∧
    (thread_set_priority release_demo 5).map
        (fun k' => ((k'.threads 1).priority_original, (k'.threads 1).priority)) = some (5, 40) ∧
    (thread_set_priority release_demo 50).map
        (fun k' => ((k'.threads 1).priority_original, (k'.threads 1).priority)) = some (50, 50) :=
  ⟨thread_set_priority_keeps_donations release_demo 1 5 (by decide) (by decide) (by decide)
      (by decide) (by decide),
    by decide, by decide⟩

/-! ## C10: validation of the running thread's priority -/

theorem option_match_map (o : Option Kernel) (tid : Int) :
    (match o with
      | none => none
      | some k8 => some (tid, k8)) = o.map (fun k8 => (tid, k8)) := by
  cases o <;> rfl

/-- The part of `thread_create` up to `thread_unblock`, when the three pages are there: the
new thread `t` is ready with the given priority and in the ready list at its ordered place;
the call ends with `thread_validate_priority`. -/
theorem thread_create_unblocked (c : thread_h) (k : Kernel) (cur : Nat) (priority : Int)
    (function t pcb fdtable : Nat)
    (hf : function ≠ 0) (ht : t ≠ 0) (hpcb : pcb ≠ 0) (hfd : fdtable ≠ 0)
    (hpri : c.PRI_MIN ≤ priority ∧ priority ≤ c.PRI_MAX)
    (hc : thread_current k = some cur) (htc : t ≠ cur) :
    ∃ k7, thread_create c k priority function t pcb fdtable =
        (thread_validate_priority k7).map (fun k8 => (k.next_tid, k8)) ∧
      k7.ready_list = list_insert_ordered k.ready_list t (thread_compare_priority k7) ∧
      (k7.threads t).priority = priority ∧
      (k7.threads t).magic = THREAD_MAGIC ∧
      (∀ a, a ≠ t → (k7.threads a).priority = (k.threads a).priority) ∧
      (∀ a, a ≠ t → (k7.threads a).magic = (k.threads a).magic) ∧
      thread_current k7 = some cur ∧
      k7.intr_context = k.intr_context ∧
      k7.idle_thread = k.idle_thread := by
  obtain ⟨hrun, hthr, hst⟩ := (thread_current_eq_some k cur).1 hc
  obtain ⟨hthr1, hthr2⟩ := (is_thread_iff k cur).1 hthr
  have hct : cur ≠ t := fun h => htc h.symm
  simp only [thread_create, hf, ht, hpcb, hfd, init_thread, hpri.1, hpri.2, allocate_tid,
    thread_current, is_thread, hrun, store_same, store_other _ _ _ _ hct, store_store,
    store_other _ _ _ _ htc, hthr1, hthr2, hst, thread_unblock, if_false, if_true, ne_eq,
    not_true_eq_false, not_false_eq_true, and_self, decide_True, decide_False, Bool.and_self,
    Bool.not_eq_true, decide_not, Bool.not_true, Bool.false_eq_true, Bool.true_and,
    Bool.and_true, Bool.not_false]
  refine Exists.intro ?w (And.intro ?h1 ?rest)
  case h1 => exact option_match_map _ _
  case rest =>
    refine ⟨?_, ?_, ?_, ?_, ?_, ?_, rfl, rfl⟩
    · simp only [thread_compare_priority_eq]
      congr 1
      funext a b
      by_cases hat : a = t <;> by_cases hbt : b = t <;> by_cases hac : a = cur <;>
        by_cases hbc : b = cur <;> simp_all [store]
    · simp only [store_same]
    · simp only [store_same]
    · intro a ha
      by_cases hac : a = cur
      · subst hac
        simp only [store_other _ _ _ _ ha, store_same]
      · simp only [store_other _ _ _ _ ha, store_other _ _ _ _ hac]
    · intro a ha
      by_cases hac : a = cur
      · subst hac
        simp only [store_other _ _ _ _ ha, store_same, hthr2]
      · simp only [store_other _ _ _ _ ha, store_other _ _ _ _ hac]
    · simp [store_other _ _ _ _ hct, store_same, hthr1, hthr2, hst, hrun]

/-- When the front of the ready list outranks the running thread, `thread_yield` dispatches
that front. -/
theorem thread_yield_to_front (k : Kernel) (cur front : Nat) (rest : List Nat)
    (hc : thread_current k = some cur) (hctx : k.intr_context = false)
    (hl : k.ready_list = front :: rest)
    (hfront : is_thread k front = true)
    (hlt : (k.threads cur).priority < (k.threads front).priority) :
    ∃ k', thread_yield k = some k' ∧ k'.running_thread = front ∧
      (k'.threads cur).status = THREAD_READY := by
  have hne : front ≠ cur := by
    intro h
    rw [h] at hlt
    exact lt_irrefl _ hlt
  have hne2 : cur ≠ front := fun h => hne h.symm
  by_cases hidle : cur = k.idle_thread
  · refine ⟨_, thread_yield_idle_eq k cur front rest hc hctx hidle hl hfront, rfl, ?_⟩
    simp only [store_other _ _ _ _ hne2, store_same]
  · have hins : list_insert_ordered k.ready_list cur (thread_compare_priority k) =
        front :: list_insert_ordered rest cur (thread_compare_priority k) := by
      have hless : thread_compare_priority k cur front = false := by
        simp only [thread_compare_priority, gt_iff_lt, decide_eq_false_iff_not, not_lt]
        omega
      rw [hl]
      simp only [list_insert_ordered, hless, Bool.false_eq_true, if_false]
    refine ⟨_, thread_yield_eq k cur front _ hc hctx hidle hins hfront, rfl, ?_⟩
    simp only [store_other _ _ _ _ hne2, store_same]

/-- An element that precedes every entry of the list is inserted at the front. -/
theorem list_insert_ordered_at_front (less : Nat → Nat → Bool) (x : Nat) (l : List Nat)
    (h : ∀ a ∈ l, less x a = true) : list_insert_ordered l x less = x :: l := by
  cases l with
  | nil => rfl
  | cons e es =>
    simp [list_insert_ordered, h e (List.mem_cons_self _ _)]

/-- C10, the consequence for `thread_create` as stated fails on `ready_demo`. The creator,
thread 1, has priority 31, and thread 3 is ready with priority 40. A thread created with
priority 35, strictly above the creator's, is not handed the CPU: the creator yields to
thread 3, and the new thread, at address 7, waits behind it in the ready list. -/
theorem thread_create_higher_priority_not_dispatched :
    (ready_demo.threads 1).priority < 35 ∧
    (thread_create demo_h ready_demo 35 1 7 8 9).map
        (fun r => (r.2.running_thread, r.2.ready_list)) = some (3, [7, 4, 1, 5]) ∧
    (thread_create demo_h ready_demo 35 1 7 8 9).map (fun r => r.2.running_thread) ≠
      some 7 := by
  decide

/-- C10, amended. For the running thread `cur`, outside an interrupt handler and with valid
ready threads: `thread_validate_priority` leaves the state as it is when the ready registry
is empty or its front has a priority of at most that of `cur`, and otherwise, that is when
the front has a strictly higher priority, it is `thread_yield`, which returns with the
front dispatched and `cur` ready. As a consequence, with the three pages allocated at a
fresh address `t`: `thread_create` with a priority strictly above that of the creator and
of every thread in the ready registry returns with the new thread running; and
`thread_create` with a priority of at most the creator's returns with a running thread
other than the new one, which is the creator when no ready thread outranks it. -/
theorem thread_validate_priority_yields_iff (c : thread_h) (k : Kernel) (cur : Nat)
    (hc : thread_current k = some cur) (hctx : k.intr_context = false)
    (hvalid : ∀ a ∈ k.ready_list, is_thread k a = true) :
    (k.ready_list = [] → thread_validate_priority k = some k) ∧
    (∀ front rest, k.ready_list = front :: rest →
      ((k.threads front).priority ≤ (k.threads cur).priority →
        thread_validate_priority k = some k) ∧
      ((k.threads cur).priority < (k.threads front).priority →
        thread_validate_priority k = thread_yield k ∧
        ∃ k', thread_yield k = some k' ∧ k'.running_thread = front ∧ front ≠ cur ∧
          (k'.threads cur).status = THREAD_READY)) ∧
    (∀ priority function t pcb fdtable, function ≠ 0 → t ≠ 0 → pcb ≠ 0 → fdtable ≠ 0 →
      c.PRI_MIN ≤ priority ∧ priority ≤ c.PRI_MAX → t ≠ cur → t ∉ k.ready_list →
      ((k.threads cur).priority < priority →
        (∀ a ∈ k.ready_list, (k.threads a).priority < priority) →
        ∃ k', thread_create c k priority function t pcb fdtable = some (k.next_tid, k') ∧
          k'.running_thread = t) ∧
      (priority ≤ (k.threads cur).priority →
        ∃ k', thread_create c k priority function t pcb fdtable = some (k.next_tid, k') ∧
          k'.running_thread ≠ t ∧
          ((∀ a ∈ k.ready_list, (k.threads a).priority ≤ (k.threads cur).priority) →
            k'.running_thread = cur))) := by
  refine ⟨?_, ?_, ?_⟩
  · intro hl
    simp [thread_validate_priority, hl]
  · intro front rest hl
    constructor
    · intro hle
      have hnot : ¬ (k.threads cur).priority < (k.threads front).priority := by omega
      simp [thread_validate_priority, hl, hc, hnot]
    · intro hlt
      have hfront : is_thread k front = true :=
        hvalid front (by rw [hl]; exact List.mem_cons_self _ _)
      obtain ⟨k', h1, h2, h3⟩ := thread_yield_to_front k cur front rest hc hctx hl hfront hlt
      refine ⟨by simp [thread_validate_priority, hl, hc, hlt], k', h1, h2, ?_, h3⟩
      intro h
      rw [h] at hlt
      exact lt_irrefl _ hlt
  · intro priority function t pcb fdtable hf ht hpcb hfd hpri htc htr
    obtain ⟨k7, g1, g2, g3, g4, g5, g6, g7, g8, -⟩ :=
      thread_create_unblocked c k cur priority function t pcb fdtable hf ht hpcb hfd hpri hc htc
    have hctx7 : k7.intr_context = false := by rw [g8]; exact hctx
    have hcur7 : (k7.threads cur).priority = (k.threads cur).priority := g5 cur (fun h => htc h.symm)
    have hvalid7 : ∀ a, a = t ∨ a ∈ k.ready_list → is_thread k7 a = true := by
      intro a ha
      rw [is_thread_iff]
      by_cases hat : a = t
      · rw [hat]
        exact ⟨ht, g4⟩
      · rcases ha with ha | ha
        · exact absurd ha hat
        · have := (is_thread_iff k a).1 (hvalid a ha)
          rw [g6 a hat]
          exact this
    have hprio7 : ∀ a ∈ k.ready_list, (k7.threads a).priority = (k.threads a).priority := by
      intro a ha
      exact g5 a (fun h => htr (h ▸ ha))
    constructor
    · intro hgt hall
      have hfront : k7.ready_list = t :: k.ready_list := by
        rw [g2]
        apply list_insert_ordered_at_front
        intro a ha
        simp only [thread_compare_priority, gt_iff_lt, decide_eq_true_eq]
        rw [g3, hprio7 a ha]
        exact hall a ha
      have hlt7 : (k7.threads cur).priority < (k7.threads t).priority := by
        rw [hcur7, g3]
        exact hgt
      obtain ⟨k', h1, h2, -⟩ := thread_yield_to_front k7 cur t k.ready_list g7 hctx7 hfront
        (hvalid7 t (Or.inl rfl)) hlt7
      refine ⟨k', ?_, h2⟩
      rw [g1]
      simp [thread_validate_priority, hfront, g7, hlt7, h1]
    · intro hle
      cases hl7 : k7.ready_list with
      | nil =>
        exact absurd (g2 ▸ hl7) (list_insert_ordered_ne_nil _ _ _)
      | cons front7 rest7 =>
        have hmem : front7 = t ∨ front7 ∈ k.ready_list := by
          have : front7 ∈ list_insert_ordered k.ready_list t (thread_compare_priority k7) := by
            rw [← g2, hl7]
            exact List.mem_cons_self _ _
          exact (mem_list_insert_ordered _ _ _ _).1 this
        have hrun7 : k7.running_thread = cur := ((thread_current_eq_some k7 cur).1 g7).1
        by_cases hlt7 : (k7.threads cur).priority < (k7.threads front7).priority
        · obtain ⟨k', h1, h2, -⟩ := thread_yield_to_front k7 cur front7 rest7 g7 hctx7 hl7
            (hvalid7 front7 hmem) hlt7
          have hft : front7 ≠ t := by
            intro h
            rw [h, g3, hcur7] at hlt7
            omega
          refine ⟨k', ?_, ?_, ?_⟩
          · rw [g1]
            simp [thread_validate_priority, hl7, g7, hlt7, h1]
          · rw [h2]
            exact hft
          · intro hall
            exfalso
            rcases hmem with h | h
            · exact hft h
            · have := hall front7 h
              rw [hprio7 front7 h, hcur7] at hlt7
              omega
        · refine ⟨k7, ?_, ?_, fun _ => hrun7⟩
          · rw [g1]
            simp [thread_validate_priority, hl7, g7, hlt7]
          · rw [hrun7]
            exact fun h => htc h.symm

/-- Witness of C10 on `ready_demo`, where thread 1 runs at priority 31 and the front of the
ready registry, thread 3, has priority 40: validation makes thread 1 yield to thread 3. A
thread created at address 7 with priority 50 is running when `thread_create` is over; one
created with priority 20 is not. -/
theorem thread_validate_priority_yields_iff_witness :
    ((ready_demo.threads 1).priority < (ready_demo.threads 3).priority →
      thread_validate_priority ready_demo = thread_yield ready_demo ∧
      ∃ k', thread_yield ready_demo = some k' ∧ k'.running_thread = 3 ∧ 3 ≠ 1 ∧
        (k'.threads 1).status = THREAD_READY) ∧
    (∃ k', thread_create demo_h ready_demo 50 1 7 8 9 = some (ready_demo.next_tid, k') ∧
      k'.running_thread = 7) ∧
    (∃ k', thread_create demo_h ready_demo 20 1 7 8 9 = some (ready_demo.next_tid, k') ∧
      k'.running_thread ≠ 7 ∧
      ((∀ a ∈ ready_demo.ready_list,
          (ready_demo.threads a).priority ≤ (ready_demo.threads 1).priority) →
        k'.running_thread = 1)) ∧
    (thread_validate_priority ready_demo).map (fun k' => (k'.running_thread, k'.ready_list)) =
      some (3, [4, 1, 5]) ∧
    (thread_validate_priority { ready_demo with ready_list := [4, 5] }).map
        (fun k' => (k'.running_thread, k'.ready_list)) = some (1, [4, 5]) ∧
    (thread_create demo_h { ready_demo with ready_list := [4, 5] } 50 1 7 8 9).map
        (fun r => (r.2.running_thread, r.2.ready_list)) = some (7, [4, 1, 5]) ∧
    (thread_create demo_h { ready_demo with ready_list := [4, 5] } 31 1 7 8 9).map
        (fun r => (r.2.running_thread, r.2.ready_list)) = some (1, [4, 7, 5]) := by
  have h := thread_validate_priority_yields_iff demo_h ready_demo 1 (by decide) (by decide)
    (by decide)
  have hdemo : ready_demo.ready_list = [3, 4, 5] := rfl
  refine ⟨((h.2.1 3 [4, 5] hdemo).2), ?_, ?_, by decide, by decide, by decide, by decide⟩
  · exact (h.2.2 50 1 7 8 9 (by decide) (by decide) (by decide) (by decide) (by decide)
      (by decide) (by decide)).1 (by decide) (by decide)
  · exact (h.2.2 20 1 7 8 9 (by decide) (by decide) (by decide) (by decide) (by decide)
      (by decide) (by decide)).2 (by decide)

/-! ## C11: `thread_unblock` does not preempt -/

/-- C11. For a valid blocked thread `t`, `thread_unblock` returns with `t` ready and in the
ready registry, next to the entries that were there; the running thread is the same and, if
it was running, still has the status running; the time-slice counter and the interrupt level
are as before; no TCB but that of `t` changes, and of `t` only the status; nothing else in
the state changes. On a thread that is not blocked, `thread_unblock` is a failed
assertion. -/
theorem thread_unblock_does_not_preempt (k : Kernel) (t : Nat) :
    (is_thread k t = true → (k.threads t).status = THREAD_BLOCKED →
      ∃ k', thread_unblock k t = some k' ∧
        (k'.threads t).status = THREAD_READY ∧
        (∀ a, a ∈ k'.ready_list ↔ a = t ∨ a ∈ k.ready_list) ∧
        k'.running_thread = k.running_thread ∧
        ((k.threads k.running_thread).status = THREAD_RUNNING →
          (k'.threads k'.running_thread).status = THREAD_RUNNING) ∧
        k'.thread_ticks = k.thread_ticks ∧
        k'.level = k.level ∧
        (∀ a, a ≠ t → k'.threads a = k.threads a) ∧
        k'.threads t = { k.threads t with status := THREAD_READY } ∧
        k' = { k with threads := k'.threads, ready_list := k'.ready_list }) ∧
    ((k.threads t).status ≠ THREAD_BLOCKED → thread_unblock k t = none) := by
  constructor
  · intro ht hb
    refine ⟨_, thread_unblock_eq k t ht hb, ?_, ?_, rfl, ?_, rfl, rfl, ?_, ?_, rfl⟩
    · simp only [store_same]
    · intro a
      exact mem_list_insert_ordered _ _ _ _
    · intro hr
      have hne : k.running_thread ≠ t := by
        intro h
        rw [h, hb] at hr
        exact absurd hr (by decide)
      simp only [store_other _ _ _ _ hne]
      exact hr
    · intro a ha
      exact store_other _ _ _ _ ha
    · exact store_same _ _ _
  · intro hb
    by_cases h1 : is_thread k t = true
    · simp [thread_unblock, h1, hb]
    · simp [thread_unblock, h1]

/-- Witness of C11 on `ready_demo`: unblocking the blocked thread 6 leaves thread 1 running
with the counter and the interrupt level as they were; unblocking thread 3, which is ready,
fails. -/
theorem thread_unblock_does_not_preempt_witness :
    (∃ k', thread_unblock ready_demo 6 = some k' ∧
      (k'.threads 6).status = THREAD_READY ∧
      (∀ a, a ∈ k'.ready_list ↔ a = 6 ∨ a ∈ ready_demo.ready_list) ∧
      k'.running_thread = ready_demo.running_thread ∧
      ((ready_demo.threads ready_demo.running_thread).status = THREAD_RUNNING →
        (k'.threads k'.running_thread).status = THREAD_RUNNING) ∧
      k'.thread_ticks = ready_demo.thread_ticks ∧
      k'.level = ready_demo.level ∧
      (∀ a, a ≠ 6 → k'.threads a = ready_demo.threads a) ∧
      k'.threads 6 = { ready_demo.threads 6 with status := THREAD_READY } ∧
      k' = { ready_demo with threads := k'.threads, ready_list := k'.ready_list }) ∧
    thread_unblock ready_demo 3 = none ∧
    (thread_unblock ready_demo 6).map
        (fun k' => (k'.running_thread, (k'.threads 1).status, (k'.threads 6).status,
          k'.ready_list, k'.thread_ticks, k'.level)) =
      some (1, THREAD_RUNNING, THREAD_READY, [3, 4, 6, 5], 0, INTR_ON) :=
  ⟨(thread_unblock_does_not_preempt ready_demo 6).1 (by decide) (by decide),
    (thread_unblock_does_not_preempt ready_demo 3).2 (by decide), by decide⟩

/-! ## C12, C13: the result of `thread_create` and the tids -/

/-- The call `thread_validate_priority` returns; it writes nothing but `status` members, the
ready list, the running thread, the time-slice counter and the interrupt level. -/
theorem thread_validate_priority_frame_state (k : Kernel) (cur : Nat)
    (hc : thread_current k = some cur) (hctx : k.intr_context = false)
    (hvalid : ∀ a ∈ k.ready_list, is_thread k a = true) :
    ∃ k', thread_validate_priority k = some k' ∧
      (∀ a, k'.threads a = { k.threads a with status := (k'.threads a).status }) ∧
      k' = { k with threads := k'.threads, ready_list := k'.ready_list, running_thread := k'.running_thread, thread_ticks := k'.thread_ticks, level := k'.level } := by
  obtain ⟨k', h1, h2⟩ := thread_validate_priority_frame k cur hc hctx hvalid
  refine ⟨k', h1, h2, ?_⟩
  obtain ⟨-, hthr, -⟩ := (thread_current_eq_some k cur).1 hc
  cases hl : k.ready_list with
  | nil =>
    simp only [thread_validate_priority, hl, Option.some.injEq] at h1
    rw [← h1]
  | cons front rest =>
    by_cases hlt : (k.threads cur).priority < (k.threads front).priority
    · have hfront : is_thread k front = true :=
        hvalid front (by rw [hl]; exact List.mem_cons_self _ _)
      have hy : thread_validate_priority k = thread_yield k := by
        simp [thread_validate_priority, hl, hc, hlt]
      rw [hy] at h1
      by_cases hidle : cur = k.idle_thread
      · rw [thread_yield_idle_eq k cur front rest hc hctx hidle hl hfront] at h1
        rw [← Option.some.inj h1]
      · cases hins : list_insert_ordered k.ready_list cur (thread_compare_priority k) with
        | nil => exact absurd hins (list_insert_ordered_ne_nil _ _ _)
        | cons next rest' =>
          have hnext : is_thread k next = true := by
            have hmem : next ∈ list_insert_ordered k.ready_list cur
                (thread_compare_priority k) := by
              rw [hins]
              exact List.mem_cons_self _ _
            rcases (mem_list_insert_ordered _ _ _ _).1 hmem with rfl | h
            · exact hthr
            · exact hvalid next h
          rw [thread_yield_eq k cur next rest' hc hctx hidle hins hnext] at h1
          rw [← Option.some.inj h1]
    · simp only [thread_validate_priority, hl, hc, hlt, if_false, Option.some.injEq] at h1
      rw [← h1]

/-- The part of `thread_create` up to `thread_unblock`, when the three pages are there, in
terms of the tids and the all-threads list: the new thread `t` carries the tid handed out
and is the last entry of the list; this is the state that `thread_validate_priority`
gets. -/
theorem thread_create_unblocked_tids (c : thread_h) (k : Kernel) (cur : Nat) (priority : Int)
    (function t pcb fdtable : Nat)
    (hf : function ≠ 0) (ht : t ≠ 0) (hpcb : pcb ≠ 0) (hfd : fdtable ≠ 0)
    (hpri : c.PRI_MIN ≤ priority ∧ priority ≤ c.PRI_MAX)
    (hc : thread_current k = some cur) (htc : t ≠ cur) :
    ∃ k7, thread_create c k priority function t pcb fdtable =
        (thread_validate_priority k7).map (fun k8 => (k.next_tid, k8)) ∧
      (∀ a, a ∈ k7.ready_list ↔ a = t ∨ a ∈ k.ready_list) ∧
      (k7.threads t).tid = k.next_tid ∧
      (k7.threads t).magic = THREAD_MAGIC ∧
      (∀ a, a ≠ t → (k7.threads a).tid = (k.threads a).tid) ∧
      (∀ a, a ≠ t → (k7.threads a).magic = (k.threads a).magic) ∧
      thread_current k7 = some cur ∧
      k7.intr_context = k.intr_context ∧
      k7.all_list = k.all_list ++ [t] ∧
      k7.next_tid = (allocate_tid k).2.next_tid := by
  obtain ⟨hrun, hthr, hst⟩ := (thread_current_eq_some k cur).1 hc
  obtain ⟨hthr1, hthr2⟩ := (is_thread_iff k cur).1 hthr
  have hct : cur ≠ t := fun h => htc h.symm
  simp only [thread_create, hf, ht, hpcb, hfd, init_thread, hpri.1, hpri.2, allocate_tid,
    thread_current, is_thread, hrun, store_same, store_other _ _ _ _ hct, store_store,
    store_other _ _ _ _ htc, hthr1, hthr2, hst, thread_unblock, if_false, if_true, ne_eq,
    not_true_eq_false, not_false_eq_true, and_self, decide_True, decide_False, Bool.and_self,
    Bool.not_eq_true, decide_not, Bool.not_true, Bool.false_eq_true, Bool.true_and,
    Bool.and_true, Bool.not_false]
  refine Exists.intro ?w (And.intro ?h1 ?rest)
  case h1 => exact option_match_map _ _
  case rest =>
    refine ⟨?_, ?_, ?_, ?_, ?_, ?_, rfl, rfl, rfl⟩
    · intro a
      exact mem_list_insert_ordered _ _ _ _
    · simp only [store_same]
    · simp only [store_same]
    · intro a ha
      by_cases hac : a = cur
      · subst hac
        simp only [store_other _ _ _ _ ha, store_same]
      · simp only [store_other _ _ _ _ ha, store_other _ _ _ _ hac]
    · intro a ha
      by_cases hac : a = cur
      · subst hac
        simp only [store_other _ _ _ _ ha, store_same, hthr2]
      · simp only [store_other _ _ _ _ ha, store_other _ _ _ _ hac]
    · simp [store_other _ _ _ _ hct, store_same, hthr1, hthr2, hst, hrun]

/-- The result of `thread_create` when the page of the PCB or of the file-descriptor table
is not there: `TID_ERROR`, with the TCB at `t` initialized, carrying the tid handed out and
entered in the all-threads list. -/
theorem thread_create_page_missing (c : thread_h) (k : Kernel) (cur : Nat) (priority : Int)
    (function t pcb fdtable : Nat)
    (hf : function ≠ 0) (ht : t ≠ 0) (hmiss : pcb = 0 ∨ fdtable = 0)
    (hpri : c.PRI_MIN ≤ priority ∧ priority ≤ c.PRI_MAX)
    (hc : thread_current k = some cur) (htc : t ≠ cur) :
    ∃ k4, thread_create c k priority function t pcb fdtable = some (c.TID_ERROR, k4) ∧
      (k4.threads t).tid = k.next_tid ∧
      (∀ a, a ≠ t → k4.threads a = k.threads a) ∧
      k4.all_list = k.all_list ++ [t] ∧
      k4.next_tid = (allocate_tid k).2.next_tid ∧
      k4.ready_list = k.ready_list := by
  obtain ⟨hrun, hthr, hst⟩ := (thread_current_eq_some k cur).1 hc
  obtain ⟨hthr1, hthr2⟩ := (is_thread_iff k cur).1 hthr
  have hct : cur ≠ t := fun h => htc h.symm
  by_cases hp : pcb = 0
  · simp only [thread_create, hf, ht, hp, init_thread, hpri.1, hpri.2, allocate_tid,
      thread_current, is_thread, hrun, store_same, store_other _ _ _ _ hct, store_store,
      hthr1, hthr2, hst, if_false, if_true, ne_eq,
      not_true_eq_false, not_false_eq_true, and_self, decide_True, decide_False, Bool.and_self,
      Bool.not_eq_true, decide_not, Bool.not_true, Bool.false_eq_true, Bool.true_and,
      Bool.and_true, Bool.not_false]
    refine ⟨_, rfl, ?_, ?_, rfl, rfl, rfl⟩
    · simp only [store_same]
    · intro a ha
      simp only [store_other _ _ _ _ ha]
  · have hfd : fdtable = 0 := by
      rcases hmiss with h | h
      · exact absurd h hp
      · exact h
    simp only [thread_create, hf, ht, hp, hfd, init_thread, hpri.1, hpri.2, allocate_tid,
      thread_current, is_thread, hrun, store_same, store_other _ _ _ _ hct, store_store,
      hthr1, hthr2, hst, if_false, if_true, ne_eq,
      not_true_eq_false, not_false_eq_true, and_self, decide_True, decide_False, Bool.and_self,
      Bool.not_eq_true, decide_not, Bool.not_true, Bool.false_eq_true, Bool.true_and,
      Bool.and_true, Bool.not_false]
    refine ⟨_, rfl, ?_, ?_, rfl, rfl, rfl⟩
    · simp only [store_same]
    · intro a ha
      simp only [store_other _ _ _ _ ha]

/-- C12. For the running thread `cur` outside an interrupt handler, with a non-null
`function`, a priority in the legal range, valid ready threads, a page `t` other than the
TCB of `cur`, and with `TID_ERROR` below 1 and the next tid at least 1: `thread_create`
returns `TID_ERROR`, and does not halt, when the page of the TCB, of the PCB or of the
file-descriptor table is not there; otherwise it returns the tid handed out to the new
thread and stored in its TCB, which is not `TID_ERROR`. -/
theorem thread_create_returns (c : thread_h) (k : Kernel) (cur : Nat) (priority : Int)
    (function t pcb fdtable : Nat)
    (hf : function ≠ 0)
    (hpri : c.PRI_MIN ≤ priority ∧ priority ≤ c.PRI_MAX)
    (hc : thread_current k = some cur) (htc : t ≠ cur)
    (hctx : k.intr_context = false)
    (hvalid : ∀ a ∈ k.ready_list, is_thread k a = true)
    (herr : c.TID_ERROR < 1) (hnext : 1 ≤ k.next_tid) :
    (t = 0 ∨ pcb = 0 ∨ fdtable = 0 →
      ∃ k', thread_create c k priority function t pcb fdtable = some (c.TID_ERROR, k')) ∧
    (t ≠ 0 → pcb ≠ 0 → fdtable ≠ 0 →
      ∃ tid k', thread_create c k priority function t pcb fdtable = some (tid, k') ∧
        tid = k.next_tid ∧ (k'.threads t).tid = tid ∧ tid ≠ c.TID_ERROR) := by
  constructor
  · intro hmiss
    by_cases ht : t = 0
    · exact ⟨k, by simp [thread_create, hf, ht]⟩
    · have hm : pcb = 0 ∨ fdtable = 0 := by
        rcases hmiss with h | h
        · exact absurd h ht
        · exact h
      obtain ⟨k4, h1, -⟩ :=
        thread_create_page_missing c k cur priority function t pcb fdtable hf ht hm hpri hc htc
      exact ⟨k4, h1⟩
  · intro ht hpcb hfd
    obtain ⟨k7, g1, g2, g3, g4, -, g6, g7, g8, -, -⟩ :=
      thread_create_unblocked_tids c k cur priority function t pcb fdtable hf ht hpcb hfd hpri hc htc
    have hctx7 : k7.intr_context = false := by rw [g8]; exact hctx
    have hvalid7 : ∀ a ∈ k7.ready_list, is_thread k7 a = true := by
      intro a ha
      rw [is_thread_iff]
      by_cases hat : a = t
      · rw [hat]
        exact ⟨ht, g4⟩
      · rcases (g2 a).1 ha with h | h
        · exact absurd h hat
        · have := (is_thread_iff k a).1 (hvalid a h)
          rw [g6 a hat]
          exact this
    obtain ⟨k', f1, f2⟩ := thread_validate_priority_frame k7 cur g7 hctx7 hvalid7
    refine ⟨k.next_tid, k', ?_, rfl, ?_, ?_⟩
    · rw [g1, f1]
      rfl
    · rw [f2 t]
      exact g3
    · omega

/-- Witness of C12 on `ready_demo`, whose next tid is 7, with the stock `TID_ERROR` of -1:
without the page of the PCB the result is -1, with the three pages it is 7. -/
theorem thread_create_returns_witness :
    (∃ k', thread_create demo_h ready_demo 20 1 7 0 9 = some (demo_h.TID_ERROR, k')) ∧
    (∃ tid k', thread_create demo_h ready_demo 20 1 7 8 9 = some (tid, k') ∧
      tid = ready_demo.next_tid ∧ (k'.threads 7).tid = tid ∧ tid ≠ demo_h.TID_ERROR) ∧
    (thread_create demo_h ready_demo 20 1 0 8 9).map (fun r => r.1) = some (-1) ∧
    (thread_create demo_h ready_demo 20 1 7 0 9).map (fun r => r.1) = some (-1) ∧
    (thread_create demo_h ready_demo 20 1 7 8 0).map (fun r => r.1) = some (-1) ∧
    (thread_create demo_h ready_demo 20 1 7 8 9).map (fun r => (r.1, (r.2.threads 7).tid)) =
      some (7, 7) :=
  ⟨(thread_create_returns demo_h ready_demo 1 20 1 7 0 9 (by decide) (by decide) (by decide)
      (by decide) (by decide) (by decide) (by decide) (by decide)).1 (by decide),
    (thread_create_returns demo_h ready_demo 1 20 1 7 8 9 (by decide) (by decide) (by decide)
      (by decide) (by decide) (by decide) (by decide) (by decide)).2 (by decide) (by decide)
      (by decide),
    by decide, by decide, by decide, by decide⟩

/-- Absent overflow, `allocate_tid` hands out the counter and increments it. -/
theorem allocate_tid_next (k : Kernel) (h1 : 1 ≤ k.next_tid) (h2 : k.next_tid < 2 ^ 31 - 1) :
    (allocate_tid k).1 = k.next_tid ∧ (allocate_tid k).2.next_tid = k.next_tid + 1 := by
  refine ⟨rfl, ?_⟩
  simp only [allocate_tid]
  norm_num at h2 ⊢
  omega

/-- The tids of `n` allocations in a row, absent overflow, are the counter and its `n - 1`
successors. -/
theorem allocate_tids_eq (n : Nat) :
    ∀ k : Kernel, 1 ≤ k.next_tid → k.next_tid + (n : Int) < 2 ^ 31 →
      (allocate_tids n k).1 = (List.range n).map (fun (i : Nat) => k.next_tid + (i : Int)) := by
  induction n with
  | zero => intro k _ _; rfl
  | succ n ih =>
    intro k h1 h2
    have hlt : k.next_tid < 2 ^ 31 - 1 := by
      push_cast at h2
      omega
    obtain ⟨g1, g2⟩ := allocate_tid_next k h1 hlt
    have h1' : 1 ≤ (allocate_tid k).2.next_tid := by rw [g2]; omega
    have h2' : (allocate_tid k).2.next_tid + (n : Int) < 2 ^ 31 := by
      rw [g2]
      push_cast at h2
      omega
    simp only [allocate_tids, ih _ h1' h2', g1, g2, List.range_succ_eq_map, List.map_cons,
      List.map_map]
    congr 1
    · simp
    · apply List.map_congr_left
      intro i _
      simp only [Function.comp_apply, Nat.cast_succ]
      omega

/-- Entering a new thread with the tid handed out keeps the tids in use pairwise different
and below the counter. -/
theorem tids_in_use_extend (k k' : Kernel) (t : Nat)
    (hinv : tids_in_use k) (h1 : 1 ≤ k.next_tid)
    (hall : k'.all_list = k.all_list ++ [t])
    (htid : (k'.threads t).tid = k.next_tid)
    (hold : ∀ a, a ≠ t → (k'.threads a).tid = (k.threads a).tid)
    (hnext : k'.next_tid = k.next_tid + 1)
    (hfresh : t ∉ k.all_list) : tids_in_use k' := by
  obtain ⟨hp, hb⟩ := hinv
  have hne : ∀ a ∈ k.all_list, a ≠ t := fun a ha h => hfresh (h ▸ ha)
  constructor
  · rw [hall, List.pairwise_append]
    refine ⟨?_, List.pairwise_singleton _ _, ?_⟩
    · refine List.Pairwise.imp_of_mem ?_ hp
      intro a b ha hb' hab
      rw [hold a (hne a ha), hold b (hne b hb')]
      exact hab
    · intro a ha b hb'
      rw [List.mem_singleton] at hb'
      rw [hb', htid, hold a (hne a ha)]
      have := (hb a ha).2
      omega
  · intro a ha
    rw [hall, List.mem_append, List.mem_singleton] at ha
    rw [hnext]
    rcases ha with ha | ha
    · rw [hold a (hne a ha)]
      have := hb a ha
      omega
    · rw [ha, htid]
      omega

/-- The result of `thread_init` on the boot state: the thread `main` at the running page
carries tid 1, it is the only entry of the all-threads list, and the next tid is 2. -/
theorem thread_init_boot (c : thread_h) (memory : Nat → thread) (running : Nat) (mlfqs : Bool)
    (hr : running ≠ 0) (hpri : c.PRI_MIN ≤ c.PRI_DEFAULT ∧ c.PRI_DEFAULT ≤ c.PRI_MAX) :
    ∃ k', thread_init c (boot memory running mlfqs) = some k' ∧
      k'.all_list = [running] ∧
      (k'.threads running).tid = 1 ∧
      (k'.threads running).status = THREAD_RUNNING ∧
      k'.initial_thread = running ∧
      k'.next_tid = 2 := by
  simp only [thread_init, boot, init_thread, hr, hpri.1, hpri.2, allocate_tid, store_same,
    store_store, ne_eq, not_true_eq_false, if_false, and_self, not_false_eq_true,
    List.nil_append]
  refine ⟨_, rfl, rfl, ?_, ?_, rfl, ?_⟩
  · simp only [store_same]
  · simp only [store_same]
  · norm_num

/-- C13. `allocate_tid` hands out the counter, which starts at 1 in the boot state, and,
absent overflow, increments it, so that the next tid is strictly greater: fewer than
`2 ^ 31 - 1` allocations in a row from the boot value give the tids 1, 2, 3 and so on.
`thread_init` gives the thread `main` the tid 1. `thread_create`, also when it returns
`TID_ERROR` for the PCB or the file-descriptor table, gives the TCB at a fresh page `t` the
tid handed out, greater than the tid of every thread of the all-threads list, and leaves
their tids as they are: the threads of the all-threads list carry pairwise different
tids before and after. -/
theorem allocate_tid_ascending (c : thread_h) :
    (∀ memory running mlfqs, (allocate_tid (boot memory running mlfqs)).1 = 1) ∧
    (∀ k : Kernel, (allocate_tid k).1 = k.next_tid ∧
      (1 ≤ k.next_tid → k.next_tid < 2 ^ 31 - 1 →
        (allocate_tid k).2.next_tid = k.next_tid + 1 ∧
        (allocate_tid k).1 < (allocate_tid (allocate_tid k).2).1)) ∧
    (∀ (n : Nat) (k : Kernel), k.next_tid = 1 → (n : Int) < 2 ^ 31 - 1 →
      (allocate_tids n k).1 = (List.range n).map (fun (i : Nat) => 1 + (i : Int)) ∧
      (allocate_tids n k).1.Pairwise (fun a b => a < b)) ∧
    (∀ memory running mlfqs, running ≠ 0 →
      c.PRI_MIN ≤ c.PRI_DEFAULT ∧ c.PRI_DEFAULT ≤ c.PRI_MAX →
      ∃ k', thread_init c (boot memory running mlfqs) = some k' ∧
        k'.all_list = [running] ∧ (k'.threads running).tid = 1 ∧ k'.next_tid = 2 ∧
        tids_in_use k') ∧
    (∀ (k : Kernel) (cur : Nat) (priority : Int) (function t pcb fdtable : Nat),
      function ≠ 0 → t ≠ 0 → c.PRI_MIN ≤ priority ∧ priority ≤ c.PRI_MAX →
      thread_current k = some cur → t ≠ cur → k.intr_context = false →
      (∀ a ∈ k.ready_list, is_thread k a = true) →
      t ∉ k.all_list → tids_in_use k → 1 ≤ k.next_tid → k.next_tid < 2 ^ 31 - 1 →
      ∃ r k', thread_create c k priority function t pcb fdtable = some (r, k') ∧
        k'.all_list = k.all_list ++ [t] ∧
        (k'.threads t).tid = k.next_tid ∧
        (∀ a ∈ k.all_list, (k'.threads a).tid = (k.threads a).tid ∧
          (k'.threads a).tid < (k'.threads t).tid) ∧
        tids_in_use k') := by
  refine ⟨fun _ _ _ => rfl, ?_, ?_, ?_, ?_⟩
  · intro k
    refine ⟨rfl, ?_⟩
    intro h1 h2
    obtain ⟨g1, g2⟩ := allocate_tid_next k h1 h2
    refine ⟨g2, ?_⟩
    show k.next_tid < (allocate_tid k).2.next_tid
    rw [g2]
    omega
  · intro n k hk hn
    have h := allocate_tids_eq n k (by rw [hk]) (by rw [hk]; omega)
    rw [hk] at h
    refine ⟨h, ?_⟩
    rw [h, List.pairwise_map]
    refine (List.pairwise_lt_range n).imp ?_
    intro a b hab
    omega
  · intro memory running mlfqs hr hpri
    obtain ⟨k', h1, h2, h3, -, -, h6⟩ := thread_init_boot c memory running mlfqs hr hpri
    refine ⟨k', h1, h2, h3, h6, ?_⟩
    unfold tids_in_use
    rw [h2, h6]
    refine ⟨List.pairwise_singleton _ _, ?_⟩
    intro a ha
    rw [List.mem_singleton] at ha
    rw [ha, h3]
    omega
  · intro k cur priority function t pcb fdtable hf ht hpri hc htc hctx hvalid hfresh hinv
      hn1 hn2
    obtain ⟨-, hnext⟩ := allocate_tid_next k hn1 hn2
    have hlt : ∀ (k' : Kernel), (k'.threads t).tid = k.next_tid →
        (∀ a, a ≠ t → (k'.threads a).tid = (k.threads a).tid) →
        ∀ a ∈ k.all_list, (k'.threads a).tid = (k.threads a).tid ∧
          (k'.threads a).tid < (k'.threads t).tid := by
      intro k' h1 h2 a ha
      have hat : a ≠ t := fun h => hfresh (h ▸ ha)
      rw [h2 a hat, h1]
      exact ⟨rfl, (hinv.2 a ha).2⟩
    by_cases hmiss : pcb = 0 ∨ fdtable = 0
    · obtain ⟨k4, g1, g2, g3, g4, g5, -⟩ :=
        thread_create_page_missing c k cur priority function t pcb fdtable hf ht hmiss hpri hc htc
      have hold : ∀ a, a ≠ t → (k4.threads a).tid = (k.threads a).tid := by
        intro a ha
        rw [g3 a ha]
      exact ⟨c.TID_ERROR, k4, g1, g4, g2, hlt k4 g2 hold,
        tids_in_use_extend k k4 t hinv hn1 g4 g2 hold (by rw [g5, hnext]) hfresh⟩
    · have hpcb : pcb ≠ 0 := fun h => hmiss (Or.inl h)
      have hfd : fdtable ≠ 0 := fun h => hmiss (Or.inr h)
      obtain ⟨k7, g1, g2, g3, g4, g5, g6, g7, g8, g9, g10⟩ :=
        thread_create_unblocked_tids c k cur priority function t pcb fdtable hf ht hpcb hfd
          hpri hc htc
      have hctx7 : k7.intr_context = false := by rw [g8]; exact hctx
      have hvalid7 : ∀ a ∈ k7.ready_list, is_thread k7 a = true := by
        intro a ha
        rw [is_thread_iff]
        by_cases hat : a = t
        · rw [hat]
          exact ⟨ht, g4⟩
        · rcases (g2 a).1 ha with h | h
          · exact absurd h hat
          · have := (is_thread_iff k a).1 (hvalid a h)
            rw [g6 a hat]
            exact this
      obtain ⟨k', f1, f2, f3⟩ := thread_validate_priority_frame_state k7 cur g7 hctx7 hvalid7
      have hall : k'.all_list = k.all_list ++ [t] := by rw [f3]; exact g9
      have hnt : k'.next_tid = k.next_tid + 1 := by rw [f3]; show k7.next_tid = _; rw [g10, hnext]
      have htid : (k'.threads t).tid = k.next_tid := by rw [f2 t]; exact g3
      have hold : ∀ a, a ≠ t → (k'.threads a).tid = (k.threads a).tid := by
        intro a ha
        rw [f2 a]
        exact g5 a ha
      refine ⟨k.next_tid, k', ?_, hall, htid, hlt k' htid hold,
        tids_in_use_extend k k' t hinv hn1 hall htid hold hnt hfresh⟩
      rw [g1, f1]
      rfl

/-- Witness of C13 on `boot_demo`: `thread_init` gives `main` the tid 1; the thread created
next at page 2 gets tid 2, also when the page of its PCB is missing, and the one created
after it at page 3 gets tid 3; five allocations in a row give 1, 2, 3, 4, 5. -/
theorem allocate_tid_ascending_witness :
    (∃ k', thread_init demo_h boot_demo = some k' ∧
      k'.all_list = [1] ∧ (k'.threads 1).tid = 1 ∧ k'.next_tid = 2 ∧ tids_in_use k') ∧
    (allocate_tids 5 boot_demo).1 = [1, 2, 3, 4, 5] ∧
    ((thread_init demo_h boot_demo).bind (fun k => thread_create demo_h k 31 1 2 8 9)).map
        (fun r => (r.1, (r.2.threads 1).tid, (r.2.threads 2).tid, r.2.next_tid)) =
      some (2, 1, 2, 3) ∧
    (((thread_init demo_h boot_demo).bind (fun k => thread_create demo_h k 31 1 2 0 9)).bind
        (fun r => thread_create demo_h r.2 31 1 3 8 9)).map
        (fun r => (r.1, (r.2.threads 1).tid, (r.2.threads 2).tid, (r.2.threads 3).tid,
          r.2.all_list)) =
      some (3, 1, 2, 3, [1, 2, 3]) :=
  ⟨(allocate_tid_ascending demo_h).2.2.2.1 (fun _ => tcb THREAD_BLOCKED 0) 1 false (by decide)
      (by decide),
    by decide, by decide, by decide⟩

/-! ## C14: the time slice -/

/-- The result of `thread_tick` for a valid running thread: the counter is incremented as
an `unsigned`, the request is made when it has reached `TIME_SLICE`, one of the three
statistics is incremented, and nothing else changes. -/
theorem thread_tick_spec (k : Kernel) (cur : Nat) (hc : thread_current k = some cur) :
    ∃ k', thread_tick k = some k' ∧
      k'.thread_ticks = (k.thread_ticks + 1) % 2 ^ 32 ∧
      k'.yield_on_return =
        (if TIME_SLICE ≤ (k.thread_ticks + 1) % 2 ^ 32 then true else k.yield_on_return) ∧
      k'.idle_ticks + k'.kernel_ticks + k'.user_ticks =
        k.idle_ticks + k.kernel_ticks + k.user_ticks + 1 ∧
      k' = { k with thread_ticks := k'.thread_ticks, yield_on_return := k'.yield_on_return, idle_ticks := k'.idle_ticks, kernel_ticks := k'.kernel_ticks, user_ticks := k'.user_ticks } := by
  unfold thread_tick
  simp only [hc]
  by_cases h4 : TIME_SLICE ≤ (k.thread_ticks + 1) % 2 ^ 32
  · by_cases h1 : cur = k.idle_thread
    · simp only [h1, if_true]
      split_ifs with h
      · exact ⟨_, rfl, rfl, rfl, by simp only; omega, rfl⟩
      · exact absurd h4 h
    · by_cases h2 : (k.threads cur).pagedir ≠ 0
      · simp only [h1, h2, if_true, if_false, ne_eq, not_false_eq_true]
        split_ifs with h
        · exact ⟨_, rfl, rfl, rfl, by simp only; omega, rfl⟩
        · exact absurd h4 h
      · simp only [h1, h2, if_false]
        split_ifs with h
        · exact ⟨_, rfl, rfl, rfl, by simp only; omega, rfl⟩
        · exact absurd h4 h
  · by_cases h1 : cur = k.idle_thread
    · simp only [h1, if_true]
      split_ifs with h
      · exact absurd h h4
      · exact ⟨_, rfl, rfl, rfl, by simp only; omega, rfl⟩
    · by_cases h2 : (k.threads cur).pagedir ≠ 0
      · simp only [h1, h2, if_true, if_false, ne_eq, not_false_eq_true]
        split_ifs with h
        · exact absurd h h4
        · exact ⟨_, rfl, rfl, rfl, by simp only; omega, rfl⟩
      · simp only [h1, h2, if_false]
        split_ifs with h
        · exact absurd h h4
        · exact ⟨_, rfl, rfl, rfl, by simp only; omega, rfl⟩

/-- Ticks in a row: the counter counts them, and the request stands when it stood before or
the counter has reached `TIME_SLICE`. -/
theorem thread_tick_times_spec (n : Nat) :
    ∀ (k : Kernel) (cur : Nat), thread_current k = some cur → k.thread_ticks + n < 2 ^ 32 →
      ∃ k', thread_tick_times n k = some k' ∧
        k'.thread_ticks = k.thread_ticks + n ∧
        (k'.yield_on_return = true ↔
          k.yield_on_return = true ∨ (1 ≤ n ∧ TIME_SLICE ≤ k.thread_ticks + n)) := by
  induction n with
  | zero =>
    intro k cur _ _
    exact ⟨k, rfl, rfl, by simp⟩
  | succ n ih =>
    intro k cur hc hlt
    obtain ⟨k1, h1, h2, h3, -, h5⟩ := thread_tick_spec k cur hc
    have hmod : (k.thread_ticks + 1) % 2 ^ 32 = k.thread_ticks + 1 :=
      Nat.mod_eq_of_lt (by omega)
    rw [hmod] at h2 h3
    have hc1 : thread_current k1 = some cur := by
      rw [h5]
      exact hc
    obtain ⟨k', g1, g2, g3⟩ := ih k1 cur hc1 (by rw [h2]; omega)
    refine ⟨k', ?_, by rw [g2, h2]; omega, ?_⟩
    · simp only [thread_tick_times, h1]
      exact g1
    · rw [g3, h3, h2]
      unfold TIME_SLICE
      by_cases hy : k.yield_on_return = true
      · simp [hy]
      · split_ifs with h
        · simp only [true_or, hy, false_or, true_iff]
          omega
        · simp only [hy, false_or]
          constructor
          · rintro ⟨a, b⟩
            omega
          · rintro ⟨a, b⟩
            omega

/-- C14. For a valid running thread and the value `c` of the time-slice counter,
`thread_tick` stores `c + 1` (in the arithmetic of an `unsigned`, so `c + 1` itself for every
`c` below `2 ^ 32 - 1`) and requests a yield on return if and only if the value stored is at
least `TIME_SLICE`, which is 4: the request is set then, and is as before otherwise.
`thread_schedule_tail` sets the counter to 0. From a counter of 0 with no request pending,
after `n` ticks the counter is `n` and the request is pending if and only if `n` is at
least 4: not after the first three ticks, and after the fourth. -/
theorem thread_tick_requests_yield (k : Kernel) (cur : Nat)
    (hc : thread_current k = some cur) :
    (∃ k', thread_tick k = some k' ∧
      k'.thread_ticks = (k.thread_ticks + 1) % 2 ^ 32 ∧
      (k.thread_ticks + 1 < 2 ^ 32 → k'.thread_ticks = k.thread_ticks + 1) ∧
      (4 ≤ k'.thread_ticks → k'.yield_on_return = true) ∧
      (k'.thread_ticks < 4 → k'.yield_on_return = k.yield_on_return)) ∧
    (∀ prev, k.level = INTR_OFF → (prev = 0 ∨ (k.threads prev).status ≠ THREAD_DYING) →
      ∃ k0, thread_schedule_tail k prev = some k0 ∧ k0.thread_ticks = 0) ∧
    (k.thread_ticks = 0 → k.yield_on_return = false → ∀ n, n < 2 ^ 32 →
      ∃ kn, thread_tick_times n k = some kn ∧ kn.thread_ticks = n ∧
        (kn.yield_on_return = true ↔ 4 ≤ n)) := by
  refine ⟨?_, ?_, ?_⟩
  · obtain ⟨k', h1, h2, h3, -, -⟩ := thread_tick_spec k cur hc
    refine ⟨k', h1, h2, ?_, ?_, ?_⟩
    · intro hlt
      rw [h2]
      exact Nat.mod_eq_of_lt hlt
    · intro h4
      rw [h3, ← h2]
      unfold TIME_SLICE
      simp [h4]
    · intro h4
      rw [h3, ← h2]
      unfold TIME_SLICE
      have : ¬ 4 ≤ k'.thread_ticks := by omega
      simp [this]
  · intro prev hl hprev
    refine ⟨{ k with
      threads := (store k.threads k.running_thread
        { k.threads k.running_thread with status := THREAD_RUNNING }),
      thread_ticks := 0 }, ?_, rfl⟩
    rcases hprev with hp | hp
    · simp [thread_schedule_tail, hl, hp]
    · by_cases hpc : prev = k.running_thread
      · simp [thread_schedule_tail, hl, hpc, store_same]
      · simp [thread_schedule_tail, hl, store_other _ _ _ _ hpc, hp]
  · intro h0 hy n hn
    obtain ⟨kn, g1, g2, g3⟩ := thread_tick_times_spec n k cur hc (by rw [h0]; omega)
    refine ⟨kn, g1, by rw [g2, h0]; omega, ?_⟩
    rw [g3, h0, hy]
    unfold TIME_SLICE
    constructor
    · rintro (h | ⟨-, h⟩)
      · exact absurd h (by decide)
      · omega
    · intro h
      exact Or.inr ⟨by omega, by omega⟩

/-- Witness of C14 on `alarm_demo`, where thread 1 runs with a counter of 0 and no request
pending: the request is not pending after one, two and three ticks and is pending after the
fourth. -/
theorem thread_tick_requests_yield_witness :
    (∃ k', thread_tick alarm_demo = some k' ∧
      k'.thread_ticks = (alarm_demo.thread_ticks + 1) % 2 ^ 32 ∧
      (alarm_demo.thread_ticks + 1 < 2 ^ 32 → k'.thread_ticks = alarm_demo.thread_ticks + 1) ∧
      (4 ≤ k'.thread_ticks → k'.yield_on_return = true) ∧
      (k'.thread_ticks < 4 → k'.yield_on_return = alarm_demo.yield_on_return)) ∧
    (thread_tick_times 1 alarm_demo).map (fun k' => (k'.thread_ticks, k'.yield_on_return)) =
      some (1, false) ∧
    (thread_tick_times 2 alarm_demo).map (fun k' => (k'.thread_ticks, k'.yield_on_return)) =
      some (2, false) ∧
    (thread_tick_times 3 alarm_demo).map (fun k' => (k'.thread_ticks, k'.yield_on_return)) =
      some (3, false) ∧
    (thread_tick_times 4 alarm_demo).map (fun k' => (k'.thread_ticks, k'.yield_on_return)) =
      some (4, true) ∧
    (thread_schedule_tail { alarm_demo with thread_ticks := 3 } 0).map
        (fun k' => k'.thread_ticks) = some 0 :=
  ⟨(thread_tick_requests_yield alarm_demo 1 (by decide)).1, by decide, by decide, by decide,
    by decide, by decide⟩

/-! ## Lemmas on the fixed-point arithmetic -/

/-- A value that is representable in 32 bits is not changed by the reduction. -/
theorem wrap32_of_range (x : Int) (h1 : -2 ^ 31 ≤ x) (h2 : x < 2 ^ 31) : wrap32 x = x := by
  unfold wrap32
  norm_num at h1 h2 ⊢
  omega

/-- The reduction to 32 bits gives a representable value. -/
theorem wrap32_range (x : Int) : -2 ^ 31 ≤ wrap32 x ∧ wrap32 x < 2 ^ 31 := by
  unfold wrap32
  norm_num
  omega

/-- The truncating division of C by a positive divisor, in terms of the division that
rounds down. -/
theorem tdiv_of_pos (a b : Int) (hb : 0 < b) :
    a.tdiv b = if 0 ≤ a then a / b else -((-a) / b) := by
  split_ifs with h
  · exact Int.tdiv_eq_ediv h (le_of_lt hb)
  · have hneg : 0 ≤ -a := by omega
    have := Int.tdiv_eq_ediv hneg (le_of_lt hb)
    rw [Int.neg_tdiv] at this
    omega

/-- Rounding to the nearest, for a fixed-point number that is at least half a unit away from
the ends of the 32-bit range. -/
theorem fp_int_round_eq (x : Int) (h1 : -2 ^ 31 + 8192 ≤ x) (h2 : x < 2 ^ 31 - 8192) :
    fp_int_round x = if 0 ≤ x then (x + 8192) / 16384 else -((8192 - x) / 16384) := by
  unfold fp_int_round FP_SCALE
  norm_num at h1 h2 ⊢
  split_ifs with h
  · rw [wrap32_of_range _ (by norm_num; omega) (by norm_num; omega),
      tdiv_of_pos _ _ (by norm_num)]
    rw [if_pos (by omega)]
  · rw [wrap32_of_range _ (by norm_num; omega) (by norm_num; omega),
      tdiv_of_pos _ _ (by norm_num)]
    rw [if_neg (by omega)]
    congr 2
    omega

/-- The quotient by the fixed-point number 4, and by the fixed-point number -4, of a
fixed-point number that is representable in 32 bits. -/
theorem fp_div_four (x : Int) (h1 : -2 ^ 31 ≤ x) (h2 : x < 2 ^ 31) :
    fp_div x (int_fp 4) = x.tdiv 4 ∧ fp_div x (int_fp (-4)) = -(x.tdiv 4) := by
  have e4 : int_fp 4 = 65536 := by decide
  have e4' : int_fp (-4) = -65536 := by decide
  have hq : (x * 16384).tdiv 65536 = x.tdiv 4 := by
    rw [tdiv_of_pos _ _ (by norm_num), tdiv_of_pos _ _ (by norm_num)]
    split_ifs <;> omega
  have hr : -2 ^ 31 ≤ x.tdiv 4 ∧ x.tdiv 4 < 2 ^ 31 ∧ -2 ^ 31 ≤ -(x.tdiv 4) ∧
      -(x.tdiv 4) < 2 ^ 31 := by
    rw [tdiv_of_pos _ _ (by norm_num)]
    norm_num at h1 h2 ⊢
    split_ifs <;> omega
  unfold fp_div FP_SCALE
  rw [e4, e4']
  norm_num
  constructor
  · rw [hq]
    exact wrap32_of_range _ hr.1 hr.2.1
  · rw [hq]
    exact wrap32_of_range _ hr.2.2.1 hr.2.2.2

/-! ## C15, C16: the MLFQS priority -/

/-- The fixed-point value that `mlfqs_update_priority` rounds, and the one of the formula in
the words of the specification, are both `(PRI_MAX - nice * 2) * 2 ^ 14 - recent_cpu / 4`
with the truncating division of C, no intermediate result leaving the 32-bit range. -/
theorem mlfqs_fixed_value (c : thread_h) (recent_cpu nice : Int)
    (hrc : -2 ^ 31 ≤ recent_cpu ∧ recent_cpu < 2 ^ 31)
    (hnice : -20 ≤ nice ∧ nice ≤ 20)
    (hmax : -65536 ≤ c.PRI_MAX ∧ c.PRI_MAX ≤ 65536) :
    fp_add (fp_div recent_cpu (int_fp (-4))) (int_fp (wrap32 (c.PRI_MAX - wrap32 (nice * 2)))) =
        (c.PRI_MAX - nice * 2) * 16384 - recent_cpu.tdiv 4 ∧
      fp_sub (fp_sub (int_fp c.PRI_MAX) (fp_div recent_cpu (int_fp 4))) (int_fp (nice * 2)) =
        (c.PRI_MAX - nice * 2) * 16384 - recent_cpu.tdiv 4 ∧
      -2 ^ 31 + 8192 ≤ (c.PRI_MAX - nice * 2) * 16384 - recent_cpu.tdiv 4 ∧
      (c.PRI_MAX - nice * 2) * 16384 - recent_cpu.tdiv 4 < 2 ^ 31 - 8192 := by
  obtain ⟨d1, d2⟩ := fp_div_four recent_cpu hrc.1 hrc.2
  have hq : -536870912 ≤ recent_cpu.tdiv 4 ∧ recent_cpu.tdiv 4 ≤ 536870912 := by
    rw [tdiv_of_pos _ _ (by norm_num)]
    have := hrc.1
    have := hrc.2
    norm_num at *
    split_ifs <;> omega
  generalize recent_cpu.tdiv 4 = q at d1 d2 hq
  obtain ⟨n1, n2⟩ := hnice
  obtain ⟨m1, m2⟩ := hmax
  generalize c.PRI_MAX = pmax at m1 m2
  have w1 : wrap32 (nice * 2) = nice * 2 := wrap32_of_range _ (by norm_num; omega) (by norm_num; omega)
  have w2 : wrap32 (pmax - nice * 2) = pmax - nice * 2 :=
    wrap32_of_range _ (by norm_num; omega) (by norm_num; omega)
  have w3 : wrap32 ((pmax - nice * 2) * 16384) = (pmax - nice * 2) * 16384 :=
    wrap32_of_range _ (by norm_num; omega) (by norm_num; omega)
  have w4 : wrap32 (pmax * 16384) = pmax * 16384 :=
    wrap32_of_range _ (by norm_num; omega) (by norm_num; omega)
  have w5 : wrap32 (nice * 2 * 16384) = nice * 2 * 16384 :=
    wrap32_of_range _ (by norm_num; omega) (by norm_num; omega)
  have w6 : wrap32 (pmax * 16384 - q) = pmax * 16384 - q :=
    wrap32_of_range _ (by norm_num; omega) (by norm_num; omega)
  have w7 : wrap32 (-q + (pmax - nice * 2) * 16384) = -q + (pmax - nice * 2) * 16384 :=
    wrap32_of_range _ (by norm_num; omega) (by norm_num; omega)
  have w8 : wrap32 (pmax * 16384 - q - nice * 2 * 16384) = pmax * 16384 - q - nice * 2 * 16384 :=
    wrap32_of_range _ (by norm_num; omega) (by norm_num; omega)
  have hF : FP_SCALE = 16384 := by decide
  refine ⟨?_, ?_, by norm_num; omega, by norm_num; omega⟩
  · rw [d2]
    simp only [fp_add, int_fp, hF, w1, w2, w3, w7]
    omega
  · rw [d1]
    simp only [fp_sub, int_fp, hF, w4, w5, w6, w8]
    omega

/-- The value computed by `mlfqs_update_priority` is the formula of the specification,
clamped. -/
theorem mlfqs_priority_eq_formula (c : thread_h) (recent_cpu nice : Int)
    (hrc : -2 ^ 31 ≤ recent_cpu ∧ recent_cpu < 2 ^ 31)
    (hnice : -20 ≤ nice ∧ nice ≤ 20)
    (hmax : -65536 ≤ c.PRI_MAX ∧ c.PRI_MAX ≤ 65536) :
    mlfqs_priority c recent_cpu nice = clamp_priority c (mlfqs_formula c recent_cpu nice) := by
  obtain ⟨h1, h2, -, -⟩ := mlfqs_fixed_value c recent_cpu nice hrc hnice hmax
  unfold mlfqs_priority mlfqs_formula clamp_priority
  rw [h1, h2]
  simp only
  split_ifs <;> omega

/-- The value computed by `mlfqs_update_priority` is in the legal range. -/
theorem mlfqs_priority_range (c : thread_h) (recent_cpu nice : Int)
    (h : c.PRI_MIN ≤ c.PRI_MAX) :
    c.PRI_MIN ≤ mlfqs_priority c recent_cpu nice ∧
      mlfqs_priority c recent_cpu nice ≤ c.PRI_MAX := by
  unfold mlfqs_priority
  simp only
  split_ifs <;> omega

/-- C15. For a thread other than the idle thread, `mlfqs_update_priority` stores as its
priority the value computed from its `recent_cpu` and `nice`, and changes nothing else; the
value is in the legal range whenever `PRI_MIN <= PRI_MAX`; and for a `recent_cpu` that is a
32-bit number, a `nice` in `[-20, 20]` and a `PRI_MAX` of absolute value at most `2 ^ 16`
it is `PRI_MAX - recent_cpu / 4 - nice * 2`, evaluated in fixed point and rounded to the
nearest integer (half a unit off at most), clamped into the legal range. For the idle
thread the state is left as it is. -/
theorem mlfqs_update_priority_clamped (c : thread_h) (k : Kernel) (thread : Nat) :
    (thread ≠ k.idle_thread →
      (mlfqs_update_priority c k thread).threads thread =
        { k.threads thread with
          priority := mlfqs_priority c (k.threads thread).recent_cpu (k.threads thread).nice } ∧
      (∀ a, a ≠ thread → (mlfqs_update_priority c k thread).threads a = k.threads a) ∧
      mlfqs_update_priority c k thread =
        { k with threads := (mlfqs_update_priority c k thread).threads } ∧
      (c.PRI_MIN ≤ c.PRI_MAX →
        c.PRI_MIN ≤ ((mlfqs_update_priority c k thread).threads thread).priority ∧
        ((mlfqs_update_priority c k thread).threads thread).priority ≤ c.PRI_MAX) ∧
      (-2 ^ 31 ≤ (k.threads thread).recent_cpu ∧ (k.threads thread).recent_cpu < 2 ^ 31 →
        -20 ≤ (k.threads thread).nice ∧ (k.threads thread).nice ≤ 20 →
        -65536 ≤ c.PRI_MAX ∧ c.PRI_MAX ≤ 65536 →
        ((mlfqs_update_priority c k thread).threads thread).priority =
          clamp_priority c
            (mlfqs_formula c (k.threads thread).recent_cpu (k.threads thread).nice) ∧
        |mlfqs_formula c (k.threads thread).recent_cpu (k.threads thread).nice * 16384 -
          ((c.PRI_MAX - (k.threads thread).nice * 2) * 16384 -
            (k.threads thread).recent_cpu.tdiv 4)| ≤ 8192)) ∧
    (thread = k.idle_thread → mlfqs_update_priority c k thread = k) := by
  constructor
  · intro hne
    have hst : (mlfqs_update_priority c k thread).threads = store k.threads thread
        { k.threads thread with
          priority := mlfqs_priority c (k.threads thread).recent_cpu
            (k.threads thread).nice } := by
      simp only [mlfqs_update_priority, hne, if_false]
    have hp : ((mlfqs_update_priority c k thread).threads thread).priority =
        mlfqs_priority c (k.threads thread).recent_cpu (k.threads thread).nice := by
      rw [hst, store_same]
    refine ⟨by rw [hst, store_same], ?_, ?_, ?_, ?_⟩
    · intro a ha
      rw [hst, store_other _ _ _ _ ha]
    · simp only [mlfqs_update_priority, hne, if_false]
    · intro h
      rw [hp]
      exact mlfqs_priority_range c _ _ h
    · intro hrc hnice hmax
      rw [hp]
      refine ⟨mlfqs_priority_eq_formula c _ _ hrc hnice hmax, ?_⟩
      obtain ⟨-, h2, h3, h4⟩ := mlfqs_fixed_value c _ _ hrc hnice hmax
      unfold mlfqs_formula
      rw [h2]
      generalize (c.PRI_MAX - (k.threads thread).nice * 2) * 16384 -
        (k.threads thread).recent_cpu.tdiv 4 = x at h3 h4
      rw [fp_int_round_eq x h3 h4, abs_le]
      split_ifs <;> constructor <;> omega
  · intro h
    simp only [mlfqs_update_priority, h, if_true]

/-- Witness of C15 on `mlfqs_demo` with the stock range 0 to 63: thread 3 has `recent_cpu`
16.0 and nice 2, and gets the priority `63 - 4 - 4 = 55`; with `recent_cpu` 400.0 the
formula gives -41, and the priority is 0; the idle thread 2 keeps its priority. -/
theorem mlfqs_update_priority_clamped_witness :
    ((mlfqs_update_priority demo_h mlfqs_demo 3).threads 3).priority =
      clamp_priority demo_h
        (mlfqs_formula demo_h (mlfqs_demo.threads 3).recent_cpu (mlfqs_demo.threads 3).nice) ∧
    ((mlfqs_update_priority demo_h mlfqs_demo 3).threads 3).priority = 55 ∧
    mlfqs_formula demo_h (400 * 16384) 2 = -41 ∧
    mlfqs_priority demo_h (400 * 16384) 2 = 0 ∧
    mlfqs_priority demo_h (-400 * 16384) 0 = 63 ∧
    mlfqs_priority demo_h 98304 0 = 62 ∧
    mlfqs_update_priority demo_h mlfqs_demo 2 = mlfqs_demo :=
  ⟨(((mlfqs_update_priority_clamped demo_h mlfqs_demo 3).1 (by decide)).2.2.2.2 (by decide)
      (by decide) (by decide)).1,
    by decide, by decide, by decide, by decide, by decide,
    (mlfqs_update_priority_clamped demo_h mlfqs_demo 2).2 (by decide)⟩

/-- C16. For a `recent_cpu` that is a 32-bit number, `nice1 <= nice2` in `[-20, 20]` and a
`PRI_MAX` of absolute value at most `2 ^ 16`, the priority that `mlfqs_update_priority`
computes with `nice2` is at most the one it computes with `nice1`; so is the priority it
stores for a thread other than the idle thread whose nice value is `nice2`, against the one
it stores when the nice value is `nice1`. -/
theorem mlfqs_priority_monotone_in_nice (c : thread_h) (recent_cpu nice1 nice2 : Int)
    (hrc : -2 ^ 31 ≤ recent_cpu ∧ recent_cpu < 2 ^ 31)
    (h1 : -20 ≤ nice1) (h12 : nice1 ≤ nice2) (h2 : nice2 ≤ 20)
    (hmax : -65536 ≤ c.PRI_MAX ∧ c.PRI_MAX ≤ 65536) :
    mlfqs_priority c recent_cpu nice2 ≤ mlfqs_priority c recent_cpu nice1 ∧
    (∀ (k : Kernel) (thread : Nat), thread ≠ k.idle_thread →
      (k.threads thread).recent_cpu = recent_cpu →
      ((mlfqs_update_priority c
          { k with threads := (store k.threads thread { k.threads thread with nice := nice2 }) }
          thread).threads thread).priority ≤
        ((mlfqs_update_priority c
          { k with threads := (store k.threads thread { k.threads thread with nice := nice1 }) }
          thread).threads thread).priority) := by
  have hmono : mlfqs_priority c recent_cpu nice2 ≤ mlfqs_priority c recent_cpu nice1 := by
    have hn1 : -20 ≤ nice1 ∧ nice1 ≤ 20 := ⟨h1, by omega⟩
    have hn2 : -20 ≤ nice2 ∧ nice2 ≤ 20 := ⟨by omega, h2⟩
    obtain ⟨a1, -, a3, a4⟩ := mlfqs_fixed_value c recent_cpu nice1 hrc hn1 hmax
    obtain ⟨b1, -, b3, b4⟩ := mlfqs_fixed_value c recent_cpu nice2 hrc hn2 hmax
    unfold mlfqs_priority
    rw [a1, b1]
    have hx : (c.PRI_MAX - nice2 * 2) * 16384 - recent_cpu.tdiv 4 ≤
        (c.PRI_MAX - nice1 * 2) * 16384 - recent_cpu.tdiv 4 := by omega
    generalize (c.PRI_MAX - nice1 * 2) * 16384 - recent_cpu.tdiv 4 = x1 at a3 a4 hx
    generalize (c.PRI_MAX - nice2 * 2) * 16384 - recent_cpu.tdiv 4 = x2 at b3 b4 hx
    rw [fp_int_round_eq x1 a3 a4, fp_int_round_eq x2 b3 b4]
    simp only
    split_ifs <;> omega
  refine ⟨hmono, ?_⟩
  intro k thread hne hrcpu
  simp only [mlfqs_update_priority, hne, if_false, store_same, hrcpu]
  exact hmono

/-- Witness of C16 with the stock range 0 to 63 and a `recent_cpu` of 8.0: the priority is
71 - 2, clamped, that is 63 for nice -5, and 61, 51 and 21 for nice 0, 5 and 20. -/
theorem mlfqs_priority_monotone_in_nice_witness :
    mlfqs_priority demo_h 131072 5 ≤ mlfqs_priority demo_h 131072 0 ∧
    (∀ (k : Kernel) (thread : Nat), thread ≠ k.idle_thread →
      (k.threads thread).recent_cpu = 131072 →
      ((mlfqs_update_priority demo_h
          { k with threads := (store k.threads thread { k.threads thread with nice := 5 }) }
          thread).threads thread).priority ≤
        ((mlfqs_update_priority demo_h
          { k with threads := (store k.threads thread { k.threads thread with nice := 0 }) }
          thread).threads thread).priority) ∧
    mlfqs_priority demo_h 131072 (-5) = 63 ∧
    mlfqs_priority demo_h 131072 0 = 61 ∧
    mlfqs_priority demo_h 131072 5 = 51 ∧
    mlfqs_priority demo_h 131072 20 = 21 :=
  ⟨(mlfqs_priority_monotone_in_nice demo_h 131072 0 5 (by decide) (by decide) (by decide)
      (by decide) (by decide)).1,
    (mlfqs_priority_monotone_in_nice demo_h 131072 0 5 (by decide) (by decide) (by decide)
      (by decide) (by decide)).2,
    by decide, by decide, by decide, by decide⟩

/-! ## The load average as integer arithmetic -/

/-- The fixed-point numbers 59/60 and 1/60. -/
theorem fp_sixtieths : fp_div (int_fp 59) (int_fp 60) = 16110 ∧
    fp_div (int_fp 1) (int_fp 60) = 273 := by
  decide

/-- The formula of the load average as integer arithmetic, for a load average that is a
32-bit number and a count below `2 ^ 17`. -/
theorem load_avg_formula_eq (load_avg count : Int)
    (hl : -2 ^ 31 ≤ load_avg ∧ load_avg < 2 ^ 31) (hn : 0 ≤ count ∧ count < 2 ^ 17) :
    load_avg_formula load_avg count = (16110 * load_avg).tdiv 16384 + 273 * count := by
  obtain ⟨l1, l2⟩ := hl
  obtain ⟨n1, n2⟩ := hn
  have hF : FP_SCALE = 16384 := by decide
  have hq : (273 * (count * 16384)).tdiv 16384 = 273 * count := by
    rw [tdiv_of_pos _ _ (by norm_num), if_pos (by omega)]
    omega
  have hb : -2111569920 ≤ (16110 * load_avg).tdiv 16384 ∧
      (16110 * load_avg).tdiv 16384 ≤ 2111569920 := by
    rw [tdiv_of_pos _ _ (by norm_num)]
    norm_num at l1 l2
    split_ifs <;> omega
  generalize hp : (16110 * load_avg).tdiv 16384 = p at hb
  have w1 : wrap32 (count * 16384) = count * 16384 :=
    wrap32_of_range _ (by norm_num; omega) (by norm_num at n2 ⊢; omega)
  have w2 : wrap32 p = p := wrap32_of_range _ (by norm_num; omega) (by norm_num; omega)
  have w3 : wrap32 (273 * count) = 273 * count :=
    wrap32_of_range _ (by norm_num; omega) (by norm_num at n2 ⊢; omega)
  have w4 : wrap32 (p + 273 * count) = p + 273 * count :=
    wrap32_of_range _ (by norm_num; omega) (by norm_num at n2 ⊢; omega)
  unfold load_avg_formula
  rw [fp_sixtieths.1, fp_sixtieths.2]
  simp only [fp_add, fp_mul, int_fp, hF, w1, hq, hp, w2, w3, w4]

/-! ## C18: the decay of `recent_cpu` -/

/-- The decay factor for a load average from 0 to below `2 ^ 30 - 2 ^ 13`, the range in
which `2 * load_avg + 1` is representable: it is at least 0 and below the fixed-point
number 1. -/
theorem recent_cpu_decay_range (load_avg : Int) (h0 : 0 ≤ load_avg)
    (h1 : load_avg < 2 ^ 30 - 2 ^ 13) :
    fp_mul (int_fp 2) load_avg = 2 * load_avg ∧
      fp_add (fp_mul (int_fp 2) load_avg) (int_fp 1) = 2 * load_avg + 16384 ∧
      recent_cpu_decay load_avg = (2 * load_avg * 16384) / (2 * load_avg + 16384) ∧
      0 ≤ recent_cpu_decay load_avg ∧ recent_cpu_decay load_avg < 16384 := by
  norm_num at h1
  have e2 : int_fp 2 = 32768 := by decide
  have e1 : int_fp 1 = 16384 := by decide
  have hF : FP_SCALE = 16384 := by decide
  have hm : fp_mul (int_fp 2) load_avg = 2 * load_avg := by
    unfold fp_mul
    rw [e2, hF, tdiv_of_pos _ _ (by norm_num), if_pos (by omega)]
    have : 32768 * load_avg / 16384 = 2 * load_avg := by omega
    rw [this]
    exact wrap32_of_range _ (by norm_num; omega) (by norm_num; omega)
  have hd : fp_add (fp_mul (int_fp 2) load_avg) (int_fp 1) = 2 * load_avg + 16384 := by
    rw [hm, e1]
    unfold fp_add
    exact wrap32_of_range _ (by norm_num; omega) (by norm_num; omega)
  have hpos : (0 : Int) < 2 * load_avg + 16384 := by omega
  have hq0 : 0 ≤ (2 * load_avg * 16384) / (2 * load_avg + 16384) :=
    Int.ediv_nonneg (by omega) (le_of_lt hpos)
  have hq1 : (2 * load_avg * 16384) / (2 * load_avg + 16384) < 16384 :=
    Int.ediv_lt_of_lt_mul hpos (by omega)
  have hdecay : recent_cpu_decay load_avg = (2 * load_avg * 16384) / (2 * load_avg + 16384) := by
    unfold recent_cpu_decay
    rw [hd, hm]
    unfold fp_div
    rw [hF, tdiv_of_pos _ _ hpos, if_pos (by omega)]
    exact wrap32_of_range _ (by norm_num; omega) (by norm_num; omega)
  exact ⟨hm, hd, hdecay, by rw [hdecay]; exact hq0, by rw [hdecay]; exact hq1⟩

/-- A non-negative 32-bit fixed-point number multiplied by a factor from 0 to below 1 is
not negative and not larger. -/
theorem fp_mul_decay (a x : Int) (ha0 : 0 ≤ a) (ha1 : a < 16384) (hx0 : 0 ≤ x)
    (hx1 : x < 2 ^ 31) : 0 ≤ fp_mul a x ∧ fp_mul a x ≤ x := by
  have hF : FP_SCALE = 16384 := by decide
  have hprod : 0 ≤ a * x := mul_nonneg ha0 hx0
  have hle : a * x ≤ 16384 * x := mul_le_mul_of_nonneg_right (le_of_lt ha1) hx0
  have hq0 : 0 ≤ a * x / 16384 := Int.ediv_nonneg hprod (by norm_num)
  have hq1 : a * x / 16384 ≤ x := by
    have := Int.ediv_le_ediv (by norm_num : (0 : Int) < 16384) hle
    rwa [Int.mul_ediv_cancel_left _ (by norm_num : (16384 : Int) ≠ 0)] at this
  unfold fp_mul
  rw [hF, tdiv_of_pos _ _ (by norm_num), if_pos hprod,
    wrap32_of_range _ (by norm_num; omega) (by norm_num at hx1 ⊢; omega)]
  exact ⟨hq0, hq1⟩

/-- C18, the claim as stated fails for a large load average. With the load average
`2 ^ 31 - 1`, which is not negative, twice the load average is not representable in 32 bits:
the decay factor computed is -2, which is negative, and thread 4 of `mlfqs_demo`, with nice 0
and the `recent_cpu` 131072, gets the negative `recent_cpu` -16. -/
theorem recent_cpu_decay_overflow :
    (0 : Int) ≤ 2 ^ 31 - 1 ∧
    recent_cpu_decay (2 ^ 31 - 1) = -2 ∧
    ¬ (0 ≤ recent_cpu_decay (2 ^ 31 - 1)) ∧
    (mlfqs_demo.threads 4).nice = 0 ∧
    (mlfqs_demo.threads 4).recent_cpu = 131072 ∧
    (mlfqs_update_recent_cpu { mlfqs_demo with load_avg := 2 ^ 31 - 1 } 4).map
        (fun k' => (k'.threads 4).recent_cpu) = some (-16) := by
  decide

/-- C18, amended. For a thread other than the idle thread and a load average from 0 to
below `2 ^ 30 - 2 ^ 13` (so that `2 * load_avg + 1` is representable in 32 bits),
`mlfqs_update_recent_cpu` returns and sets `recent_cpu` of the thread, and nothing else, to
`decay * recent_cpu + nice` evaluated in fixed point, with the decay factor
`(2 * load_avg) / (2 * load_avg + 1)`, which is at least 0 and strictly below the
fixed-point number 1; hence with nice 0 and a 32-bit `recent_cpu` that is not negative, the
new `recent_cpu` is not negative and not larger than the old one. For the idle thread the
state is left as it is. -/
theorem mlfqs_update_recent_cpu_decays (k : Kernel) (thread : Nat) :
    (thread ≠ k.idle_thread → 0 ≤ k.load_avg → k.load_avg < 2 ^ 30 - 2 ^ 13 →
      ∃ k', mlfqs_update_recent_cpu k thread = some k' ∧
        k'.threads thread = { k.threads thread with
          recent_cpu := fp_add (fp_mul (recent_cpu_decay k.load_avg) (k.threads thread).recent_cpu)
            (int_fp (k.threads thread).nice) } ∧
        (∀ a, a ≠ thread → k'.threads a = k.threads a) ∧
        k' = { k with threads := k'.threads } ∧
        0 ≤ recent_cpu_decay k.load_avg ∧ recent_cpu_decay k.load_avg < int_fp 1 ∧
        ((k.threads thread).nice = 0 → 0 ≤ (k.threads thread).recent_cpu →
          (k.threads thread).recent_cpu < 2 ^ 31 →
          0 ≤ (k'.threads thread).recent_cpu ∧
          (k'.threads thread).recent_cpu ≤ (k.threads thread).recent_cpu)) ∧
    (thread = k.idle_thread → mlfqs_update_recent_cpu k thread = some k) := by
  constructor
  · intro hne h0 h1
    obtain ⟨-, hd, -, hq0, hq1⟩ := recent_cpu_decay_range k.load_avg h0 h1
    have hdne : fp_add (fp_mul (int_fp 2) k.load_avg) (int_fp 1) ≠ 0 := by
      rw [hd]
      omega
    have hres : mlfqs_update_recent_cpu k thread = some { k with threads := (store k.threads thread
        { k.threads thread with
          recent_cpu := fp_add (fp_mul (recent_cpu_decay k.load_avg) (k.threads thread).recent_cpu)
            (int_fp (k.threads thread).nice) }) } := by
      simp only [mlfqs_update_recent_cpu, hne, if_false, hdne, recent_cpu_decay]
    have e1 : int_fp 1 = 16384 := by decide
    refine ⟨_, hres, store_same _ _ _, ?_, rfl, hq0, by rw [e1]; exact hq1, ?_⟩
    · intro a ha
      exact store_other _ _ _ _ ha
    · intro hn hx0 hx1
      obtain ⟨m0, m1⟩ := fp_mul_decay _ _ hq0 hq1 hx0 hx1
      have e0 : int_fp 0 = 0 := by decide
      have hsum : fp_add (fp_mul (recent_cpu_decay k.load_avg) (k.threads thread).recent_cpu)
          (int_fp (k.threads thread).nice) =
          fp_mul (recent_cpu_decay k.load_avg) (k.threads thread).recent_cpu := by
        rw [hn, e0]
        unfold fp_add
        rw [add_zero]
        exact wrap32_of_range _ (by norm_num; omega) (by norm_num at hx1 ⊢; omega)
      simp only [store_same, hsum]
      exact ⟨m0, m1⟩
  · intro h
    simp only [mlfqs_update_recent_cpu, h, if_true]

/-- Witness of C18 on `mlfqs_demo` with a load average of 1.0: the decay factor is 2/3,
that is 10922, and thread 4, with nice 0, goes from the `recent_cpu` 8.0 to 87376, which is
5.33; the idle thread 2 is skipped. -/
theorem mlfqs_update_recent_cpu_decays_witness :
    (∃ k', mlfqs_update_recent_cpu { mlfqs_demo with load_avg := 16384 } 4 = some k' ∧
      k'.threads 4 = { mlfqs_demo.threads 4 with
        recent_cpu := fp_add (fp_mul (recent_cpu_decay 16384) (mlfqs_demo.threads 4).recent_cpu)
          (int_fp (mlfqs_demo.threads 4).nice) } ∧
      (∀ a, a ≠ 4 → k'.threads a = mlfqs_demo.threads a) ∧
      k' = { { mlfqs_demo with load_avg := 16384 } with threads := k'.threads } ∧
      0 ≤ recent_cpu_decay 16384 ∧ recent_cpu_decay 16384 < int_fp 1 ∧
      ((mlfqs_demo.threads 4).nice = 0 → 0 ≤ (mlfqs_demo.threads 4).recent_cpu →
        (mlfqs_demo.threads 4).recent_cpu < 2 ^ 31 →
        0 ≤ (k'.threads 4).recent_cpu ∧
        (k'.threads 4).recent_cpu ≤ (mlfqs_demo.threads 4).recent_cpu)) ∧
    recent_cpu_decay 16384 = 10922 ∧
    (mlfqs_update_recent_cpu { mlfqs_demo with load_avg := 16384 } 4).map
        (fun k' => (k'.threads 4).recent_cpu) = some 87376 ∧
    mlfqs_update_recent_cpu { mlfqs_demo with load_avg := 16384 } 2 =
      some { mlfqs_demo with load_avg := 16384 } :=
  ⟨(mlfqs_update_recent_cpu_decays { mlfqs_demo with load_avg := 16384 } 4).1 (by decide)
      (by decide) (by decide),
    by decide, by decide,
    (mlfqs_update_recent_cpu_decays { mlfqs_demo with load_avg := 16384 } 2).2 (by decide)⟩

/-! ## C20: the bulk recomputation of the priorities -/

/-- The loop of `mlfqs_update_priority_all` over a list of threads: each thread of the list
that is not the idle thread gets the priority computed from its own `recent_cpu` and `nice`,
and nothing else changes. -/
theorem mlfqs_update_priority_fold (c : thread_h) (l : List Nat) :
    ∀ k : Kernel,
      l.foldl (fun acc t => mlfqs_update_priority c acc t) k =
          { k with threads := (l.foldl (fun acc t => mlfqs_update_priority c acc t) k).threads } ∧
        ∀ a, (l.foldl (fun acc t => mlfqs_update_priority c acc t) k).threads a =
          if a ∈ l ∧ a ≠ k.idle_thread then
            { k.threads a with
              priority := mlfqs_priority c (k.threads a).recent_cpu (k.threads a).nice }
          else k.threads a := by
  induction l with
  | nil =>
    intro k
    exact ⟨rfl, fun a => by simp⟩
  | cons x xs ih =>
    intro k
    obtain ⟨h1, h2⟩ := ih (mlfqs_update_priority c k x)
    have hidle : (mlfqs_update_priority c k x).idle_thread = k.idle_thread := by
      unfold mlfqs_update_priority
      split_ifs <;> rfl
    have hx : ∀ a, (mlfqs_update_priority c k x).threads a =
        if a = x ∧ a ≠ k.idle_thread then
          { k.threads a with
            priority := mlfqs_priority c (k.threads a).recent_cpu (k.threads a).nice }
        else k.threads a := by
      intro a
      unfold mlfqs_update_priority
      by_cases hxi : x = k.idle_thread
      · rw [if_pos hxi]
        by_cases hax : a = x
        · rw [if_neg (by rw [hax]; exact fun h => h.2 hxi)]
        · rw [if_neg (fun h => hax h.1)]
      · rw [if_neg hxi]
        by_cases hax : a = x
        · subst hax
          rw [if_pos ⟨rfl, hxi⟩]
          exact store_same _ _ _
        · rw [if_neg (fun h => hax h.1)]
          exact store_other _ _ _ _ hax
    simp only [List.foldl_cons]
    constructor
    · rw [h1]
      unfold mlfqs_update_priority
      split_ifs <;> rfl
    · intro a
      rw [h2 a, hidle, hx a]
      by_cases hai : a = k.idle_thread
      · simp [hai]
      · by_cases hax : a = x
        · subst hax
          by_cases haxs : a ∈ xs
          · simp [hai, haxs]
          · simp [hai, haxs]
        · by_cases haxs : a ∈ xs
          · simp [hai, hax, haxs]
          · simp [hai, hax, haxs]

/-- C20. After `mlfqs_update_priority_all`, every thread of the all-threads registry that
is not the idle thread has the priority that `mlfqs_update_priority` computes from its own
`recent_cpu` and `nice`; no other member of a TCB, and no TCB of an other thread, has
changed; the ready registry is a rearrangement of what it was, sorted descending by the new
priorities, with the threads of any one new priority in their previous relative order; the
rest of the state is as before. -/
theorem mlfqs_update_priority_all_sorted (c : thread_h) (k : Kernel) :
    (∀ a ∈ k.all_list, a ≠ k.idle_thread →
      ((mlfqs_update_priority_all c k).threads a).priority =
        mlfqs_priority c ((mlfqs_update_priority_all c k).threads a).recent_cpu
          ((mlfqs_update_priority_all c k).threads a).nice) ∧
    (∀ a, (mlfqs_update_priority_all c k).threads a =
      { k.threads a with priority := ((mlfqs_update_priority_all c k).threads a).priority }) ∧
    (∀ a, a ∉ k.all_list ∨ a = k.idle_thread →
      (mlfqs_update_priority_all c k).threads a = k.threads a) ∧
    (mlfqs_update_priority_all c k).ready_list.Perm k.ready_list ∧
    sorted_by_priority (mlfqs_update_priority_all c k) (mlfqs_update_priority_all c k).ready_list ∧
    (∀ p : Int,
      (mlfqs_update_priority_all c k).ready_list.filter
          (fun a => decide (((mlfqs_update_priority_all c k).threads a).priority = p)) =
        k.ready_list.filter
          (fun a => decide (((mlfqs_update_priority_all c k).threads a).priority = p))) ∧
    mlfqs_update_priority_all c k =
      { k with threads := (mlfqs_update_priority_all c k).threads, ready_list := (mlfqs_update_priority_all c k).ready_list } := by
  obtain ⟨h1, h2⟩ := mlfqs_update_priority_fold c k.all_list k
  generalize hk1 : k.all_list.foldl (fun acc t => mlfqs_update_priority c acc t) k = k1
    at h1 h2
  have hall : mlfqs_update_priority_all c k =
      { k1 with ready_list := list_sort k1.ready_list (thread_compare_priority k1) } := by
    simp only [mlfqs_update_priority_all, hk1]
  have hthreads : (mlfqs_update_priority_all c k).threads = k1.threads := by rw [hall]
  have hready1 : k1.ready_list = k.ready_list := by rw [h1]
  have hready : (mlfqs_update_priority_all c k).ready_list =
      list_sort k.ready_list (fun a b => decide ((k1.threads a).priority > (k1.threads b).priority)) := by
    rw [hall, ← hready1]
    rfl
  obtain ⟨s1, s2, s3, -⟩ := list_sort_desc (fun a => (k1.threads a).priority) k.ready_list
  refine ⟨?_, ?_, ?_, ?_, ?_, ?_, ?_⟩
  · intro a ha hai
    rw [hthreads, h2 a, if_pos ⟨ha, hai⟩]
  · intro a
    rw [hthreads, h2 a]
    split_ifs <;> rfl
  · intro a ha
    rw [hthreads, h2 a, if_neg]
    rintro ⟨h3, h4⟩
    rcases ha with ha | ha
    · exact ha h3
    · exact h4 ha
  · rw [hready]
    exact s2
  · unfold sorted_by_priority
    rw [hready, hthreads]
    exact s1
  · intro p
    rw [hready, hthreads]
    exact s3 p
  · rw [hall, h1]

/-- Witness of C20 on `mlfqs_demo` with the stock range 0 to 63: thread 3 gets the priority
55 and threads 4 and 5 both get 61, and the ready registry 3, 4, 5 becomes 4, 5, 3; the
running thread 1 gets 63 and the idle thread 2 keeps its priority. -/
theorem mlfqs_update_priority_all_sorted_witness :
    (mlfqs_update_priority_all demo_h mlfqs_demo).ready_list = [4, 5, 3] ∧
    ((mlfqs_update_priority_all demo_h mlfqs_demo).threads 1).priority = 63 ∧
    ((mlfqs_update_priority_all demo_h mlfqs_demo).threads 2).priority = 0 ∧
    ((mlfqs_update_priority_all demo_h mlfqs_demo).threads 3).priority = 55 ∧
    ((mlfqs_update_priority_all demo_h mlfqs_demo).threads 4).priority = 61 ∧
    ((mlfqs_update_priority_all demo_h mlfqs_demo).threads 5).priority = 61 ∧
    sorted_by_priority (mlfqs_update_priority_all demo_h mlfqs_demo)
      (mlfqs_update_priority_all demo_h mlfqs_demo).ready_list :=
  ⟨by decide, by decide, by decide, by decide, by decide, by decide,
    (mlfqs_update_priority_all_sorted demo_h mlfqs_demo).2.2.2.2.1⟩

/-! ## C19: setting the nice value -/

/-- When the front of a sorted ready list outranks the running thread, which is not the idle
thread, `thread_yield` dispatches that front; the running thread is enqueued in the rest,
which is sorted afterwards, and only `status` members are written. -/
theorem thread_yield_to_front_sorted (k : Kernel) (cur front : Nat) (rest : List Nat)
    (hc : thread_current k = some cur) (hctx : k.intr_context = false)
    (hidle : cur ≠ k.idle_thread)
    (hl : k.ready_list = front :: rest)
    (hfront : is_thread k front = true)
    (hlt : (k.threads cur).priority < (k.threads front).priority)
    (hs : sorted_by_priority k k.ready_list) :
    ∃ k', thread_yield k = some k' ∧ k'.running_thread = front ∧
      (k'.threads cur).status = THREAD_READY ∧
      (∀ a, k'.threads a = { k.threads a with status := (k'.threads a).status }) ∧
      sorted_by_priority k' k'.ready_list := by
  have hne : front ≠ cur := by
    intro h
    rw [h] at hlt
    exact lt_irrefl _ hlt
  have hne2 : cur ≠ front := fun h => hne h.symm
  have hins : list_insert_ordered k.ready_list cur (thread_compare_priority k) =
      front :: list_insert_ordered rest cur (thread_compare_priority k) := by
    have hless : thread_compare_priority k cur front = false := by
      simp only [thread_compare_priority, gt_iff_lt, decide_eq_false_iff_not, not_lt]
      omega
    rw [hl]
    simp only [list_insert_ordered, hless, Bool.false_eq_true, if_false]
  have hfr : ∀ a, (store (store k.threads cur { k.threads cur with status := THREAD_READY }) front
      { store k.threads cur { k.threads cur with status := THREAD_READY } front with
        status := THREAD_RUNNING }) a =
      { k.threads a with status :=
        ((store (store k.threads cur { k.threads cur with status := THREAD_READY }) front
          { store k.threads cur { k.threads cur with status := THREAD_READY } front with
            status := THREAD_RUNNING }) a).status } := by
    intro a
    by_cases h1 : a = front
    · subst h1
      simp only [store_same, store_other _ _ _ _ hne]
    · by_cases h2 : a = cur
      · subst h2
        simp only [store_same, store_other _ _ _ _ h1]
      · simp only [store_other _ _ _ _ h1, store_other _ _ _ _ h2]
  refine ⟨_, thread_yield_eq k cur front _ hc hctx hidle hins hfront, rfl, ?_, hfr, ?_⟩
  · simp only [store_other _ _ _ _ hne2, store_same]
  · obtain ⟨-, hsort⟩ := ready_insert_placed k cur hs
    rw [hins] at hsort
    refine sorted_by_priority_congr k _ _ ?_ (List.Pairwise.of_cons hsort)
    intro a
    show ((store (store k.threads cur { k.threads cur with status := THREAD_READY }) front
      { store k.threads cur { k.threads cur with status := THREAD_READY } front with
        status := THREAD_RUNNING }) a).priority = _
    rw [hfr a]

/-- The steps of `thread_set_nice` up to the validation: the nice value is stored, the
priority of a thread other than the idle thread is recomputed, and the ready list is
sorted. -/
theorem thread_set_nice_eq (c : thread_h) (k : Kernel) (cur : Nat) (nice : Int)
    (hc : thread_current k = some cur) :
    thread_set_nice c k nice =
      if cur ≠ k.idle_thread then
        match thread_validate_priority { k with
          level := INTR_OFF,
          threads := (store k.threads cur { k.threads cur with
            nice := nice,
            priority := mlfqs_priority c (k.threads cur).recent_cpu nice }),
          ready_list := list_sort k.ready_list (fun a b => decide
            ((store k.threads cur { k.threads cur with
              nice := nice,
              priority := mlfqs_priority c (k.threads cur).recent_cpu nice } a).priority >
             (store k.threads cur { k.threads cur with
              nice := nice,
              priority := mlfqs_priority c (k.threads cur).recent_cpu nice } b).priority)) } with
        | none => none
        | some k5 =>
          if k5.running_thread = cur then some { k5 with level := k.level } else some k5
      else
        some { k with
          threads := (store k.threads cur { k.threads cur with nice := nice }),
          ready_list := list_sort k.ready_list (fun a b => decide
            ((store k.threads cur { k.threads cur with nice := nice } a).priority >
             (store k.threads cur { k.threads cur with nice := nice } b).priority)) } := by
  have hc1 : thread_current { k with level := INTR_OFF } = some cur := hc
  by_cases hidle : cur = k.idle_thread
  · simp only [thread_set_nice, hc1, mlfqs_update_priority, hidle, if_true, ne_eq,
      not_true_eq_false, if_false, thread_compare_priority_eq]
  · simp only [thread_set_nice, hc1, mlfqs_update_priority, hidle, if_true, ne_eq,
      not_false_eq_true, if_false, thread_compare_priority_eq, store_same, store_store]

/-- C19, the claim as stated fails when the idle thread is the running thread. On
`idle_running_demo` the idle thread 2 has priority 0, nice 0 and `recent_cpu` 0, for which
the value of the formula is 63; `thread_set_nice` with the nice value 0 leaves its priority
at 0. -/
theorem thread_set_nice_idle_keeps_priority :
    idle_running_demo.running_thread = idle_running_demo.idle_thread ∧
    mlfqs_priority demo_h (idle_running_demo.threads 2).recent_cpu 0 = 63 ∧
    (thread_set_nice demo_h idle_running_demo 0).map
        (fun k' => ((k'.threads 2).nice, (k'.threads 2).priority)) = some (0, 0) ∧
    (thread_set_nice demo_h idle_running_demo 0).map (fun k' => (k'.threads 2).priority) ≠
      some (mlfqs_priority demo_h (idle_running_demo.threads 2).recent_cpu 0) := by
  decide

/-- C19, amended. For the running thread `cur`, outside an interrupt handler and with valid
ready threads, `thread_set_nice` returns; `nice` is then the nice value of `cur`; the
priority of `cur` is the value that `mlfqs_update_priority` computes from its `recent_cpu`
and `nice`, unless `cur` is the idle thread, whose priority is left as it is; of the other
threads only `status` members may have changed; the ready registry is sorted descending by
priority. With the ready registry sorted under the new priorities: if `cur` is not the idle
thread and the front of that registry has a strictly higher priority than `cur`, then `cur`
has yielded to this front; and otherwise, that is if `cur` is the idle thread or that
registry is empty or its front has at most the priority of `cur`, then `cur` is still
running, the ready registry is the sorted one, and the interrupt level is as before.
`thread_get_nice`, called by `cur` while it runs, returns `nice`. -/
theorem thread_set_nice_recomputes (c : thread_h) (k : Kernel) (cur : Nat) (nice : Int)
    (hc : thread_current k = some cur) (hctx : k.intr_context = false)
    (hvalid : ∀ a ∈ k.ready_list, is_thread k a = true) :
    ∃ k', thread_set_nice c k nice = some k' ∧
      (k'.threads cur).nice = nice ∧
      (cur ≠ k.idle_thread →
        (k'.threads cur).priority = mlfqs_priority c (k.threads cur).recent_cpu nice) ∧
      (cur = k.idle_thread → (k'.threads cur).priority = (k.threads cur).priority) ∧
      (∀ a, a ≠ cur → k'.threads a = { k.threads a with status := (k'.threads a).status }) ∧
      sorted_by_priority k' k'.ready_list ∧
      (cur ≠ k.idle_thread → ∀ front rest,
        list_sort k.ready_list (thread_compare_priority k') = front :: rest →
        (k'.threads cur).priority < (k'.threads front).priority →
        k'.running_thread = front ∧ front ≠ cur ∧ (k'.threads cur).status = THREAD_READY) ∧
      ((cur = k.idle_thread ∨ list_sort k.ready_list (thread_compare_priority k') = [] ∨
          ∃ front rest, list_sort k.ready_list (thread_compare_priority k') = front :: rest ∧
            (k'.threads front).priority ≤ (k'.threads cur).priority) →
        k'.running_thread = cur ∧
        k'.ready_list = list_sort k.ready_list (thread_compare_priority k') ∧
        (k'.threads cur).status = THREAD_RUNNING ∧ k'.level = k.level) ∧
      (k'.running_thread = cur → thread_get_nice k' = some nice) := by
  obtain ⟨hrun, hthr, hst⟩ := (thread_current_eq_some k cur).1 hc
  obtain ⟨hthr1, hthr2⟩ := (is_thread_iff k cur).1 hthr
  rw [thread_set_nice_eq c k cur nice hc]
  by_cases hidle : cur = k.idle_thread
  · rw [if_neg (by simpa using hidle)]
    obtain ⟨s1, -, -, -⟩ := list_sort_desc
      (fun a => (store k.threads cur { k.threads cur with nice := nice } a).priority) k.ready_list
    refine ⟨_, rfl, ?_, fun h => absurd hidle h, ?_, ?_, s1, fun h => absurd hidle h, ?_, ?_⟩
    · simp only [store_same]
    · intro _
      simp only [store_same]
    · intro a ha
      simp only [store_other _ _ _ _ ha]
    · intro _
      refine ⟨hrun, rfl, ?_, rfl⟩
      simp only [store_same]
      exact hst
    · intro _
      simp [thread_get_nice, thread_current, is_thread, hrun, store_same, hthr1, hthr2, hst]
  · rw [if_pos hidle]
    generalize hM : store k.threads cur { k.threads cur with
      nice := nice, priority := mlfqs_priority c (k.threads cur).recent_cpu nice } = M
    have hMcur : M cur = { k.threads cur with
        nice := nice, priority := mlfqs_priority c (k.threads cur).recent_cpu nice } := by
      rw [← hM, store_same]
    have hMoth : ∀ a, a ≠ cur → M a = k.threads a := by
      intro a ha
      rw [← hM, store_other _ _ _ _ ha]
    have hMmagic : ∀ a, (M a).magic = (k.threads a).magic := by
      intro a
      by_cases ha : a = cur
      · rw [ha, hMcur]
      · rw [hMoth a ha]
    obtain ⟨s1, s2, -, -⟩ := list_sort_desc (fun a => (M a).priority) k.ready_list
    generalize hS : list_sort k.ready_list
      (fun a b => decide ((M a).priority > (M b).priority)) = S at s1 s2
    generalize hk4 : ({ k with level := INTR_OFF, threads := M, ready_list := S } : Kernel) = k4
    have h4t : k4.threads = M := by rw [← hk4]
    have h4r : k4.ready_list = S := by rw [← hk4]
    have h4run : k4.running_thread = cur := by rw [← hk4]; exact hrun
    have h4ctx : k4.intr_context = false := by rw [← hk4]; exact hctx
    have h4c : thread_current k4 = some cur := by
      rw [thread_current_eq_some]
      refine ⟨h4run, ?_, by rw [h4t, hMcur]; exact hst⟩
      rw [is_thread_iff, h4t, hMmagic]
      exact ⟨hthr1, hthr2⟩
    have h4valid : ∀ a ∈ k4.ready_list, is_thread k4 a = true := by
      intro a ha
      rw [h4r] at ha
      have := (is_thread_iff k a).1 (hvalid a (s2.subset ha))
      rw [is_thread_iff, h4t, hMmagic]
      exact this
    have h4s : sorted_by_priority k4 k4.ready_list := by
      unfold sorted_by_priority
      rw [h4t, h4r]
      exact s1
    have hcmp : ∀ k' : Kernel, (∀ a, (k'.threads a).priority = (M a).priority) →
        list_sort k.ready_list (thread_compare_priority k') = S := by
      intro k' hp
      rw [← hS]
      congr 1
      funext a b
      simp only [thread_compare_priority, hp]
    have hget : ∀ k' : Kernel, thread_current { k' with level := INTR_OFF } = some cur →
        (k'.threads cur).nice = nice → thread_get_nice k' = some nice := by
      intro k' h1 h2
      simp only [thread_get_nice, h1, h2]
    -- the state when the thread keeps running
    have hstay : thread_validate_priority k4 = some k4 →
        ∃ k', (match thread_validate_priority k4 with
            | none => none
            | some k5 =>
              if k5.running_thread = cur then some { k5 with level := k.level } else some k5) =
            some k' ∧ k' = { k4 with level := k.level } := by
      intro h
      refine ⟨_, ?_, rfl⟩
      rw [h]
      simp only [h4run, if_true]
    by_cases hy : ∃ front rest, S = front :: rest ∧ (M cur).priority < (M front).priority
    · obtain ⟨front, rest, hSf, hlt⟩ := hy
      have hl4 : k4.ready_list = front :: rest := by rw [h4r, hSf]
      have hlt4 : (k4.threads cur).priority < (k4.threads front).priority := by
        rw [h4t]
        exact hlt
      have hidle4 : cur ≠ k4.idle_thread := by rw [← hk4]; exact hidle
      obtain ⟨k5, y1, y2, y3, y4, y5⟩ := thread_yield_to_front_sorted k4 cur front rest h4c h4ctx
        hidle4 hl4 (h4valid front (by rw [hl4]; exact List.mem_cons_self _ _)) hlt4 h4s
      have hv : thread_validate_priority k4 = some k5 := by
        simp [thread_validate_priority, hl4, h4c, hlt4, y1]
      have hfc : front ≠ cur := by
        intro h
        rw [h] at hlt
        exact lt_irrefl _ hlt
      have hp5 : ∀ a, (k5.threads a).priority = (M a).priority := by
        intro a
        rw [y4 a, h4t]
      refine ⟨k5, ?_, ?_, ?_, fun h => absurd h hidle, ?_, y5, ?_, ?_, ?_⟩
      · rw [hv]
        simp only [y2, hfc, if_false]
      · rw [y4 cur, h4t, hMcur]
      · intro _
        rw [y4 cur, h4t, hMcur]
      · intro a ha
        rw [y4 a, h4t, hMoth a ha]
      · intro _ front' rest' hS' _
        rw [hcmp k5 hp5, hSf] at hS'
        obtain ⟨hf, -⟩ := List.cons.inj hS'
        rw [← hf]
        exact ⟨y2, hfc, y3⟩
      · rintro (h | h | ⟨front', rest', h, hle⟩)
        · exact absurd h hidle
        · rw [hcmp k5 hp5, hSf] at h
          exact absurd h (List.cons_ne_nil _ _)
        · rw [hcmp k5 hp5, hSf] at h
          obtain ⟨hf, -⟩ := List.cons.inj h
          rw [← hf, hp5, hp5] at hle
          omega
      · intro h
        rw [y2] at h
        exact absurd h hfc
    · have hv : thread_validate_priority k4 = some k4 := by
        cases hl4 : k4.ready_list with
        | nil => simp [thread_validate_priority, hl4]
        | cons front rest =>
          have hnlt : ¬ (k4.threads cur).priority < (k4.threads front).priority := by
            intro h
            apply hy
            refine ⟨front, rest, by rw [← h4r, hl4], ?_⟩
            rw [h4t] at h
            exact h
          simp [thread_validate_priority, hl4, h4c, hnlt]
      obtain ⟨k', e1, e2⟩ := hstay hv
      have hp' : ∀ a, (k'.threads a).priority = (M a).priority := by
        intro a
        rw [e2]
        show (k4.threads a).priority = _
        rw [h4t]
      have ht' : k'.threads = M := by rw [e2]; exact h4t
      have hr' : k'.ready_list = S := by rw [e2]; exact h4r
      have hrun' : k'.running_thread = cur := by rw [e2]; exact h4run
      refine ⟨k', e1, ?_, ?_, fun h => absurd h hidle, ?_, ?_, ?_, ?_, ?_⟩
      · rw [ht', hMcur]
      · intro _
        rw [ht', hMcur]
      · intro a ha
        rw [ht', hMoth a ha]
      · rw [e2]
        exact sorted_by_priority_congr k4 _ _ (fun _ => rfl) h4s
      · intro _ front rest hS' hlt
        exfalso
        apply hy
        rw [hcmp k' hp'] at hS'
        rw [hp', hp'] at hlt
        exact ⟨front, rest, hS', hlt⟩
      · intro _
        refine ⟨hrun', by rw [hr', hcmp k' hp'], ?_, by rw [e2]⟩
        rw [ht', hMcur]
        exact hst
      · intro _
        apply hget k'
        · rw [e2]
          have : ({ ({ k4 with level := k.level } : Kernel) with level := INTR_OFF } : Kernel) = k4 := by
            rw [← hk4]
          rw [this]
          exact h4c
        · rw [ht', hMcur]

/-- Witness of C19 on `mlfqs_demo`: thread 1 sets its nice value to 20; its priority becomes
`63 - 0 - 40 = 23`, which the front of the ready registry (priority 10) does not exceed, so
thread 1 keeps running; `thread_get_nice` then returns 20. -/
theorem thread_set_nice_recomputes_witness :
    thread_current mlfqs_demo = some 1 ∧ mlfqs_demo.intr_context = false ∧
    (∀ a ∈ mlfqs_demo.ready_list, is_thread mlfqs_demo a = true) ∧
    (∃ k', thread_set_nice demo_h mlfqs_demo 20 = some k' ∧
      (k'.threads 1).nice = 20 ∧
      (1 ≠ mlfqs_demo.idle_thread →
        (k'.threads 1).priority = mlfqs_priority demo_h (mlfqs_demo.threads 1).recent_cpu 20) ∧
      (1 = mlfqs_demo.idle_thread → (k'.threads 1).priority = (mlfqs_demo.threads 1).priority) ∧
      (∀ a, a ≠ 1 →
        k'.threads a = { mlfqs_demo.threads a with status := (k'.threads a).status }) ∧
      sorted_by_priority k' k'.ready_list ∧
      (1 ≠ mlfqs_demo.idle_thread → ∀ front rest,
        list_sort mlfqs_demo.ready_list (thread_compare_priority k') = front :: rest →
        (k'.threads 1).priority < (k'.threads front).priority →
        k'.running_thread = front ∧ front ≠ 1 ∧ (k'.threads 1).status = THREAD_READY) ∧
      ((1 = mlfqs_demo.idle_thread ∨
          list_sort mlfqs_demo.ready_list (thread_compare_priority k') = [] ∨
          ∃ front rest,
            list_sort mlfqs_demo.ready_list (thread_compare_priority k') = front :: rest ∧
            (k'.threads front).priority ≤ (k'.threads 1).priority) →
        k'.running_thread = 1 ∧
        k'.ready_list = list_sort mlfqs_demo.ready_list (thread_compare_priority k') ∧
        (k'.threads 1).status = THREAD_RUNNING ∧ k'.level = mlfqs_demo.level) ∧
      (k'.running_thread = 1 → thread_get_nice k' = some 20)) ∧
    (thread_set_nice demo_h mlfqs_demo 20).map
        (fun k' => (k'.running_thread, (k'.threads 1).status, k'.ready_list, k'.level)) =
      some (1, THREAD_RUNNING, [3, 4, 5], INTR_ON) ∧
    (thread_set_nice demo_h mlfqs_demo 20).map
        (fun k' => ((k'.threads 1).nice, (k'.threads 1).priority)) = some (20, 23) ∧
    (thread_set_nice demo_h mlfqs_demo 20).bind thread_get_nice = some 20 :=
  ⟨by decide, rfl, by decide,
    thread_set_nice_recomputes demo_h mlfqs_demo 1 20 (by decide) rfl (by decide), by decide,
    by decide, by decide⟩

/-! ## C21: the fixed-point round trip -/

/-- The integers of magnitude below `2 ^ 17` have exact fixed-point images. -/
theorem int_fp_eq (n : Int) (h1 : -2 ^ 17 < n) (h2 : n < 2 ^ 17) : int_fp n = n * 16384 := by
  unfold int_fp FP_SCALE
  norm_num at h1 h2 ⊢
  exact wrap32_of_range _ (by norm_num; omega) (by norm_num; omega)

/-- The two conversions to an integer, at an exact multiple of the scale factor. -/
theorem fp_int_of_multiple (n : Int) (h1 : -2 ^ 17 < n) (h2 : n < 2 ^ 17) :
    fp_int (n * 16384) = n ∧ fp_int_round (n * 16384) = n := by
  norm_num at h1 h2
  constructor
  · unfold fp_int FP_SCALE
    rw [tdiv_of_pos _ _ (by norm_num)]
    split_ifs <;> omega
  · rw [fp_int_round_eq _ (by norm_num; omega) (by norm_num; omega)]
    split_ifs <;> omega

/-- C21. For every integer `n` with `|n| < 2 ^ 17`, the fixed-point image `int_fp n` is
`n * 2 ^ 14` without overflow, and both the truncating conversion `fp_int` and the
round-to-nearest conversion `fp_int_round` take it back to `n`. As the scheduler uses them:
when the load average is `int_fp n` and `100 * n` is representable too,
`thread_get_load_avg` returns `100 * n`. -/
theorem int_fp_round_trip (n : Int) (h1 : -2 ^ 17 < n) (h2 : n < 2 ^ 17) :
    int_fp n = n * FP_SCALE ∧ fp_int (int_fp n) = n ∧ fp_int_round (int_fp n) = n ∧
    (∀ k : Kernel, k.load_avg = int_fp n → -2 ^ 17 < 100 * n → 100 * n < 2 ^ 17 →
      thread_get_load_avg k = 100 * n) := by
  have hF : FP_SCALE = 16384 := by decide
  rw [int_fp_eq n h1 h2, hF]
  refine ⟨rfl, (fp_int_of_multiple n h1 h2).1, (fp_int_of_multiple n h1 h2).2, ?_⟩
  intro k hk g1 g2
  have e100 : int_fp 100 = 1638400 := by decide
  have hq : (n * 16384 * 1638400).tdiv 16384 = 100 * n * 16384 := by
    rw [tdiv_of_pos _ _ (by norm_num)]
    split_ifs <;> omega
  unfold thread_get_load_avg
  rw [hk, e100]
  unfold fp_mul
  rw [hF, hq, wrap32_of_range _ (by norm_num at g1 ⊢; omega) (by norm_num at g2 ⊢; omega)]
  exact (fp_int_of_multiple (100 * n) g1 g2).2

/-- Witness of C21 at 1310, whose hundredfold is still in the range, with the load average
1310.0 that `thread_get_load_avg` reports as 131000, and at the largest and the smallest
integer of the range. -/
theorem int_fp_round_trip_witness :
    (-2 ^ 17 < (1310 : Int) ∧ (1310 : Int) < 2 ^ 17) ∧
    (int_fp 1310 = 1310 * FP_SCALE ∧ fp_int (int_fp 1310) = 1310 ∧
      fp_int_round (int_fp 1310) = 1310 ∧
      (∀ k : Kernel, k.load_avg = int_fp 1310 → -2 ^ 17 < 100 * (1310 : Int) →
        100 * (1310 : Int) < 2 ^ 17 → thread_get_load_avg k = 100 * 1310)) ∧
    thread_get_load_avg { mlfqs_demo with load_avg := int_fp 1310 } = 131000 ∧
    fp_int (int_fp 131071) = 131071 ∧ fp_int_round (int_fp 131071) = 131071 ∧
    fp_int (int_fp (-131071)) = -131071 ∧ fp_int_round (int_fp (-131071)) = -131071 :=
  ⟨by decide, int_fp_round_trip 1310 (by decide) (by decide), by decide, by decide, by decide,
    by decide, by decide⟩

/-! ## C22: associativity of the fixed-point product and quotient -/

/-- Bounds of a quotient by the scale factor. -/
theorem ediv_scale_bounds (x : Int) : 16384 * (x / 16384) ≤ x ∧ x ≤ 16384 * (x / 16384) + 16383 := by
  omega

/-- Both ways of bracketing a product of three non-negative fixed-point numbers, without the
reduction to 32 bits: the difference is below one unit plus the value of an outer factor. -/
theorem mul_assoc_nonneg (a b c : Int) (ha : 0 ≤ a) (hc : 0 ≤ c) :
    (a * b / 16384 * c / 16384 - a * (b * c / 16384) / 16384) * 16384 < 16384 + a ∧
    (a * (b * c / 16384) / 16384 - a * b / 16384 * c / 16384) * 16384 < 16384 + c := by
  obtain ⟨p1, p2⟩ := ediv_scale_bounds (a * b)
  obtain ⟨q1, q2⟩ := ediv_scale_bounds (b * c)
  generalize a * b / 16384 = p at p1 p2 ⊢
  generalize b * c / 16384 = q at q1 q2 ⊢
  obtain ⟨l1, l2⟩ := ediv_scale_bounds (p * c)
  obtain ⟨r1, r2⟩ := ediv_scale_bounds (a * q)
  generalize p * c / 16384 = L at l1 l2 ⊢
  generalize a * q / 16384 = R at r1 r2 ⊢
  have x1 : 16384 * (p * c) ≤ a * b * c := by nlinarith [mul_nonneg (sub_nonneg.2 p1) hc]
  have x2 : a * b * c ≤ 16384 * (p * c) + 16383 * c := by
    nlinarith [mul_nonneg (sub_nonneg.2 p2) hc]
  have y1 : 16384 * (a * q) ≤ a * b * c := by nlinarith [mul_nonneg ha (sub_nonneg.2 q1)]
  have y2 : a * b * c ≤ 16384 * (a * q) + 16383 * a := by
    nlinarith [mul_nonneg ha (sub_nonneg.2 q2)]
  constructor <;> omega


/-- Bounds of a quotient by a positive divisor. -/
theorem ediv_pos_bounds (x c : Int) (hc : 0 < c) : c * (x / c) ≤ x ∧ x ≤ c * (x / c) + (c - 1) := by
  have h1 := Int.ediv_add_emod x c
  have h2 := Int.emod_nonneg x (ne_of_gt hc)
  have h3 := Int.emod_lt_of_pos x hc
  constructor <;> omega

/-- A product divided by a fixed-point number against the product with the quotient, for
non-negative factors and a positive divisor, without the reduction to 32 bits. -/
theorem div_assoc_nonneg (a b c : Int) (ha : 0 ≤ a) (hc : 0 < c) :
    (a * (b * 16384 / c) / 16384 - a * b / 16384 * 16384 / c) * c < c + 16384 ∧
    (a * b / 16384 * 16384 / c - a * (b * 16384 / c) / 16384) * 16384 < 16384 + a := by
  obtain ⟨p1, p2⟩ := ediv_scale_bounds (a * b)
  obtain ⟨q1, q2⟩ := ediv_pos_bounds (b * 16384) c hc
  generalize a * b / 16384 = p at p1 p2 ⊢
  generalize b * 16384 / c = q at q1 q2 ⊢
  obtain ⟨d1, d2⟩ := ediv_pos_bounds (p * 16384) c hc
  obtain ⟨e1, e2⟩ := ediv_scale_bounds (a * q)
  generalize p * 16384 / c = D1 at d1 d2 ⊢
  generalize a * q / 16384 = D2 at e1 e2 ⊢
  have y1 : a * (c * q) ≤ a * (b * 16384) := mul_le_mul_of_nonneg_left q1 ha
  have y2 : a * (b * 16384) ≤ a * (c * q + (c - 1)) := mul_le_mul_of_nonneg_left q2 ha
  have z1 : c * (16384 * D2) ≤ c * (a * q) := mul_le_mul_of_nonneg_left e1 (le_of_lt hc)
  constructor
  · have : 16384 * (D2 * c) ≤ 16384 * (a * b) := by nlinarith
    have h : D2 * c ≤ a * b := by omega
    have : (D2 - D1) * c = D2 * c - c * D1 := by ring
    omega
  · have h : c * (D1 * 16384 - a * q) ≤ c * a := by nlinarith
    have h2 : D1 * 16384 - a * q ≤ a := le_of_mul_le_mul_left h hc
    have : (D1 - D2) * 16384 = D1 * 16384 - 16384 * D2 := by ring
    omega


/-- Both ways of bracketing a product of three fixed-point numbers of any sign, without the
reduction to 32 bits. -/
theorem tdiv_mul_assoc (a b c : Int) :
    |((a * b).tdiv 16384 * c).tdiv 16384 - (a * (b * c).tdiv 16384).tdiv 16384| * 16384 <
      max |a| |c| + 16384 := by
  wlog ha : 0 ≤ a generalizing a
  · have h := this (-a) (by omega)
    simp only [neg_mul, Int.neg_tdiv, abs_neg, neg_sub_neg] at h
    rwa [abs_sub_comm] at h
  wlog hb : 0 ≤ b generalizing b
  · have h := this (-b) (by omega)
    simp only [neg_mul, mul_neg, Int.neg_tdiv, abs_neg, neg_sub_neg] at h
    rwa [abs_sub_comm] at h
  wlog hc : 0 ≤ c generalizing c
  · have h := this (-c) (by omega)
    simp only [neg_mul, mul_neg, Int.neg_tdiv, abs_neg, neg_sub_neg] at h
    rwa [abs_sub_comm] at h
  have hab : 0 ≤ a * b := mul_nonneg ha hb
  have hbc : 0 ≤ b * c := mul_nonneg hb hc
  rw [Int.tdiv_eq_ediv hab (by norm_num), Int.tdiv_eq_ediv hbc (by norm_num)]
  have hp : 0 ≤ a * b / 16384 := Int.ediv_nonneg hab (by norm_num)
  have hq : 0 ≤ b * c / 16384 := Int.ediv_nonneg hbc (by norm_num)
  rw [Int.tdiv_eq_ediv (mul_nonneg hp hc) (by norm_num),
    Int.tdiv_eq_ediv (mul_nonneg ha hq) (by norm_num), abs_of_nonneg ha, abs_of_nonneg hc]
  obtain ⟨h1, h2⟩ := mul_assoc_nonneg a b c ha hc
  rcases abs_cases (a * b / 16384 * c / 16384 - a * (b * c / 16384) / 16384) with ⟨e, -⟩ | ⟨e, -⟩
  · rw [e]
    have := le_max_left a c
    omega
  · rw [e]
    have := le_max_right a c
    omega

/-- A product divided by a fixed-point number against the product with the quotient, for
fixed-point numbers of any sign, without the reduction to 32 bits. -/
theorem tdiv_div_assoc (a b c : Int) (hc : c ≠ 0) :
    |((a * b).tdiv 16384 * 16384).tdiv c - (a * (b * 16384).tdiv c).tdiv 16384| * |c| <
        |c| + 16384 ∨
    |((a * b).tdiv 16384 * 16384).tdiv c - (a * (b * 16384).tdiv c).tdiv 16384| * 16384 <
        16384 + |a| := by
  wlog ha : 0 ≤ a generalizing a
  · have h := this (-a) (by omega)
    simp only [neg_mul, Int.neg_tdiv, abs_neg, neg_sub_neg] at h
    rwa [abs_sub_comm] at h
  wlog hb : 0 ≤ b generalizing b
  · have h := this (-b) (by omega)
    simp only [neg_mul, mul_neg, Int.neg_tdiv, abs_neg, neg_sub_neg] at h
    rwa [abs_sub_comm] at h
  wlog hc0 : 0 < c generalizing c
  · have h := this (-c) (by omega) (by omega)
    simp only [Int.tdiv_neg, neg_mul, mul_neg, Int.neg_tdiv, abs_neg, neg_sub_neg] at h
    rwa [abs_sub_comm] at h
  have hab : 0 ≤ a * b := mul_nonneg ha hb
  have hbF : 0 ≤ b * 16384 := by omega
  rw [Int.tdiv_eq_ediv hab (by norm_num), Int.tdiv_eq_ediv hbF (le_of_lt hc0)]
  have hp : 0 ≤ a * b / 16384 := Int.ediv_nonneg hab (by norm_num)
  have hq : 0 ≤ b * 16384 / c := Int.ediv_nonneg hbF (le_of_lt hc0)
  rw [Int.tdiv_eq_ediv (by omega) (le_of_lt hc0),
    Int.tdiv_eq_ediv (mul_nonneg ha hq) (by norm_num), abs_of_nonneg ha, abs_of_pos hc0]
  obtain ⟨h1, h2⟩ := div_assoc_nonneg a b c ha hc0
  rcases abs_cases (a * b / 16384 * 16384 / c - a * (b * 16384 / c) / 16384) with ⟨e, -⟩ | ⟨e, -⟩
  · right
    rw [e]
    exact h2
  · left
    rw [e]
    have : -(a * b / 16384 * 16384 / c - a * (b * 16384 / c) / 16384) =
        a * (b * 16384 / c) / 16384 - a * b / 16384 * 16384 / c := by ring
    rw [this]
    exact h1


/-- A representable product is the value of `fp_mul`, a representable quotient the value of
`fp_div`. -/
theorem fp_mul_of_representable (x y : Int) :
    (representable (fp_mul_wide x y) → fp_mul x y = fp_mul_wide x y) ∧
    (representable (fp_div_wide x y) → fp_div x y = fp_div_wide x y) :=
  ⟨fun h => wrap32_of_range _ h.1 h.2, fun h => wrap32_of_range _ h.1 h.2⟩

/-- Counterexample to C22: all products and quotients are representable; with `a` one unit,
`b` a quarter and `c` the number 100, the two bracketings of the product are 0 and 25 units;
with `a` a quarter and `b`, `c` one unit each, `(a * b) / c` is 0 and `a * (b / c)` is a
quarter, 4096 units. -/
theorem fp_mul_not_associative_within_unit :
    representable (fp_mul_wide 1 4096) ∧
    representable (fp_mul_wide (fp_mul 1 4096) (int_fp 100)) ∧
    representable (fp_mul_wide 4096 (int_fp 100)) ∧
    representable (fp_mul_wide 1 (fp_mul 4096 (int_fp 100))) ∧
    fp_mul (fp_mul 1 4096) (int_fp 100) = 0 ∧
    fp_mul 1 (fp_mul 4096 (int_fp 100)) = 25 ∧
    ¬ |fp_mul (fp_mul 1 4096) (int_fp 100) - fp_mul 1 (fp_mul 4096 (int_fp 100))| ≤ 1 ∧
    representable (fp_div_wide (fp_mul 4096 1) 1) ∧
    representable (fp_div_wide 1 1) ∧
    representable (fp_mul_wide 4096 (fp_div 1 1)) ∧
    fp_div (fp_mul 4096 1) 1 = 0 ∧
    fp_mul 4096 (fp_div 1 1) = 4096 ∧
    ¬ |fp_div (fp_mul 4096 1) 1 - fp_mul 4096 (fp_div 1 1)| ≤ 1 := by
  decide

/-- C22, amended. For fixed-point numbers `a`, `b`, `c` whose products are representable,
`fp_mul (fp_mul a b) c` and `fp_mul a (fp_mul b c)` differ by less than one unit plus the
larger of the magnitudes of the values of `a` and `c`, so by at most one unit when neither
`a` nor `c` exceeds 1 in magnitude. For `c` not zero and representable products and
quotients, `fp_div (fp_mul a b) c` and `fp_mul a (fp_div b c)` differ by less than one unit
plus the reciprocal of the magnitude of `c`, or by less than one unit plus the magnitude of
`a`; so by at most one unit when `a` is at most 1 and `c` at least 1 in magnitude. -/
theorem fp_mul_div_associative_bound (a b c : Int) :
    (representable (fp_mul_wide a b) → representable (fp_mul_wide (fp_mul a b) c) →
      representable (fp_mul_wide b c) → representable (fp_mul_wide a (fp_mul b c)) →
      |fp_mul (fp_mul a b) c - fp_mul a (fp_mul b c)| * FP_SCALE < max |a| |c| + FP_SCALE ∧
      (|a| ≤ FP_SCALE → |c| ≤ FP_SCALE →
        |fp_mul (fp_mul a b) c - fp_mul a (fp_mul b c)| ≤ 1)) ∧
    (c ≠ 0 → representable (fp_mul_wide a b) → representable (fp_div_wide (fp_mul a b) c) →
      representable (fp_div_wide b c) → representable (fp_mul_wide a (fp_div b c)) →
      (|fp_div (fp_mul a b) c - fp_mul a (fp_div b c)| * |c| < |c| + FP_SCALE ∨
        |fp_div (fp_mul a b) c - fp_mul a (fp_div b c)| * FP_SCALE < FP_SCALE + |a|) ∧
      (|a| ≤ FP_SCALE → FP_SCALE ≤ |c| →
        |fp_div (fp_mul a b) c - fp_mul a (fp_div b c)| ≤ 1)) := by
  have hF : FP_SCALE = 16384 := by decide
  constructor
  · intro h1 h2 h3 h4
    rw [(fp_mul_of_representable _ _).1 h2, (fp_mul_of_representable _ _).1 h4,
      (fp_mul_of_representable _ _).1 h1, (fp_mul_of_representable _ _).1 h3]
    have h := tdiv_mul_assoc a b c
    simp only [fp_mul_wide, hF]
    refine ⟨h, fun ha hc => ?_⟩
    have := max_le ha hc
    omega
  · intro hc h1 h2 h3 h4
    rw [(fp_mul_of_representable _ _).2 h2, (fp_mul_of_representable _ _).1 h4,
      (fp_mul_of_representable _ _).1 h1, (fp_mul_of_representable _ _).2 h3]
    have h := tdiv_div_assoc a b c hc
    simp only [fp_mul_wide, fp_div_wide, hF]
    refine ⟨h, fun ha hc' => ?_⟩
    rcases h with h | h
    · have hpos : 0 < |c| := abs_pos.2 hc
      have h' : |((a * b).tdiv 16384 * 16384).tdiv c - (a * (b * 16384).tdiv c).tdiv 16384| * |c| <
          2 * |c| := by omega
      have := lt_of_mul_lt_mul_right h' (le_of_lt hpos)
      omega
    · omega

/-- Witness of C22: the two bracketings of `75 * 220 * 16383` units are 0 and 1, and those of
`1 * 20000 / 20000` units are 0 and 1. -/
theorem fp_mul_div_associative_bound_witness :
    |fp_mul (fp_mul 75 220) 16383 - fp_mul 75 (fp_mul 220 16383)| ≤ 1 ∧
    |fp_div (fp_mul 1 20000) 20000 - fp_mul 1 (fp_div 20000 20000)| ≤ 1 ∧
    fp_mul (fp_mul 75 220) 16383 = 0 ∧ fp_mul 75 (fp_mul 220 16383) = 1 ∧
    fp_div (fp_mul 1 20000) 20000 = 0 ∧ fp_mul 1 (fp_div 20000 20000) = 1 :=
  ⟨((fp_mul_div_associative_bound 75 220 16383).1 (by decide) (by decide) (by decide)
      (by decide)).2 (by decide) (by decide),
    ((fp_mul_div_associative_bound 1 20000 20000).2 (by decide) (by decide) (by decide)
      (by decide) (by decide)).2 (by decide) (by decide),
    by decide, by decide, by decide, by decide⟩

/-! ## C26: the range of the load average -/

/-- For a valid running thread and fewer than `2 ^ 31 - 1` ready threads,
`mlfqs_update_load_avg` returns, with the load average given by the formula. -/
theorem mlfqs_update_load_avg_eq (k : Kernel) (cur : Nat)
    (hc : thread_current k = some cur)
    (hlen : (k.ready_list.length : Int) + 1 < 2 ^ 31) :
    mlfqs_update_load_avg k =
      some { k with load_avg := load_avg_formula k.load_avg (ready_count k) } := by
  obtain ⟨hrun, -, -⟩ := (thread_current_eq_some k cur).1 hc
  have hlen0 : (0 : Int) ≤ (k.ready_list.length : Int) := Int.natCast_nonneg _
  have w1 : wrap32 (k.ready_list.length : Int) = (k.ready_list.length : Int) :=
    wrap32_of_range _ (by norm_num; omega) (by norm_num at hlen ⊢; omega)
  have w2 : wrap32 ((k.ready_list.length : Int) + 1) = (k.ready_list.length : Int) + 1 :=
    wrap32_of_range _ (by norm_num; omega) (by norm_num at hlen ⊢; omega)
  have hcount : ready_count k =
      if cur ≠ k.idle_thread then (k.ready_list.length : Int) + 1
      else (k.ready_list.length : Int) := by
    unfold ready_count
    rw [hrun]
    split_ifs <;> simp_all
  simp only [mlfqs_update_load_avg, hc, w1, w2, hcount, load_avg_formula]

/-- Counterexample to C26: in `crowded_demo` the count of ready threads is `2 ^ 17`, whose
fixed-point image overflows; the load average 0 lies between 0 and `2 ^ 17`, and the update
makes it negative. -/
theorem mlfqs_update_load_avg_overflow :
    thread_current crowded_demo = some 1 ∧
    ready_count crowded_demo = 131072 ∧
    (0 ≤ crowded_demo.load_avg ∧ crowded_demo.load_avg ≤ 131072 * FP_SCALE) ∧
    (0 ≤ ready_count crowded_demo ∧ ready_count crowded_demo ≤ 131072) ∧
    (mlfqs_update_load_avg crowded_demo).map (fun k' => k'.load_avg) = some (-35782656) ∧
    ¬ ∃ k', mlfqs_update_load_avg crowded_demo = some k' ∧ 0 ≤ k'.load_avg := by
  have hc : thread_current crowded_demo = some 1 := by decide
  have hlen : crowded_demo.ready_list.length = 131071 := List.length_range' _ _ _
  have hcount : ready_count crowded_demo = 131072 := by
    unfold ready_count
    rw [hlen]
    decide
  have hres : mlfqs_update_load_avg crowded_demo =
      some { crowded_demo with load_avg := -35782656 } := by
    rw [mlfqs_update_load_avg_eq crowded_demo 1 hc (by rw [hlen]; decide), hcount]
    have : load_avg_formula crowded_demo.load_avg 131072 = -35782656 := by decide
    rw [this]
  refine ⟨hc, hcount, by decide, by rw [hcount]; decide, by rw [hres]; rfl, ?_⟩
  rintro ⟨k', h1, h2⟩
  rw [hres] at h1
  cases h1
  exact absurd h2 (by decide)

/-- C26, amended. For a valid running thread, a load average that is a 32-bit number and a
count of ready threads below `2 ^ 17` (the counts that have a fixed-point image), and for
every integer `n`: if the load average is between 0 and `n` as a fixed-point number and the
count of ready threads is at most `n`, then `mlfqs_update_load_avg` returns and the load
average is between 0 and `n` again; with a count of 0 it has not increased. -/
theorem mlfqs_update_load_avg_bounded (k : Kernel) (cur : Nat) (n : Int)
    (hc : thread_current k = some cur)
    (hcount : ready_count k < 2 ^ 17)
    (hl32 : k.load_avg < 2 ^ 31)
    (hl : 0 ≤ k.load_avg ∧ k.load_avg ≤ n * FP_SCALE)
    (hr : ready_count k ≤ n) :
    ∃ k', mlfqs_update_load_avg k = some k' ∧
      k' = { k with load_avg := k'.load_avg } ∧
      0 ≤ k'.load_avg ∧ k'.load_avg ≤ n * FP_SCALE ∧
      (ready_count k = 0 → k'.load_avg ≤ k.load_avg) := by
  have hF : FP_SCALE = 16384 := by decide
  rw [hF] at hl ⊢
  obtain ⟨l1, l2⟩ := hl
  have hlen0 : (0 : Int) ≤ (k.ready_list.length : Int) := Int.natCast_nonneg _
  have hcount0 : 0 ≤ ready_count k ∧ (k.ready_list.length : Int) ≤ ready_count k := by
    unfold ready_count
    split_ifs <;> omega
  have hlen : (k.ready_list.length : Int) + 1 < 2 ^ 31 := by
    norm_num at hcount ⊢
    omega
  have hval := load_avg_formula_eq k.load_avg (ready_count k)
    ⟨by norm_num; omega, hl32⟩ ⟨hcount0.1, hcount⟩
  rw [tdiv_of_pos _ _ (by norm_num), if_pos (by omega)] at hval
  refine ⟨_, mlfqs_update_load_avg_eq k cur hc hlen, rfl, ?_, ?_, ?_⟩
  · show 0 ≤ load_avg_formula k.load_avg (ready_count k)
    rw [hval]
    omega
  · show load_avg_formula k.load_avg (ready_count k) ≤ n * 16384
    rw [hval]
    omega
  · intro h0
    show load_avg_formula k.load_avg (ready_count k) ≤ k.load_avg
    rw [hval]
    omega

/-- Witness of C26 on `mlfqs_demo` with the load average 2.0 and `n = 4`: four threads are
counted and the new load average is `2 * 16110 + 4 * 273 = 33312` units, about 2.03. -/
theorem mlfqs_update_load_avg_bounded_witness :
    thread_current { mlfqs_demo with load_avg := 32768 } = some 1 ∧
    ready_count { mlfqs_demo with load_avg := 32768 } = 4 ∧
    (∃ k', mlfqs_update_load_avg { mlfqs_demo with load_avg := 32768 } = some k' ∧
      k' = { ({ mlfqs_demo with load_avg := 32768 } : Kernel) with load_avg := k'.load_avg } ∧
      0 ≤ k'.load_avg ∧ k'.load_avg ≤ 4 * FP_SCALE ∧
      (ready_count { mlfqs_demo with load_avg := 32768 } = 0 → k'.load_avg ≤ 32768)) ∧
    (mlfqs_update_load_avg { mlfqs_demo with load_avg := 32768 }).map
      (fun k' => k'.load_avg) = some 33312 :=
  ⟨by decide, by decide,
    mlfqs_update_load_avg_bounded { mlfqs_demo with load_avg := 32768 } 1 4 (by decide)
      (by decide) (by decide) (by decide) (by decide),
    by decide⟩

/-! ## C23: one running thread after a dispatch -/

/-- The result of `schedule`, entered with interrupts off by a running thread whose status
is no longer running, when the thread selected is a valid TCB: the selected thread runs,
marked running, in a new time slice. -/
theorem schedule_eq (k : Kernel) (hoff : k.level = INTR_OFF)
    (hst : (k.threads k.running_thread).status ≠ THREAD_RUNNING)
    (hnext : is_thread k (next_thread_to_run k).1 = true) :
    schedule k = some { (next_thread_to_run k).2 with
      running_thread := (next_thread_to_run k).1,
      thread_ticks := 0,
      threads := (store k.threads (next_thread_to_run k).1
        { k.threads (next_thread_to_run k).1 with status := THREAD_RUNNING }) } := by
  have e1 : (next_thread_to_run k).2.level = k.level := by
    unfold next_thread_to_run
    cases k.ready_list <;> rfl
  have e2 : (next_thread_to_run k).2.threads = k.threads := by
    unfold next_thread_to_run
    cases k.ready_list <;> rfl
  have e3 : (next_thread_to_run k).2.running_thread = k.running_thread := by
    unfold next_thread_to_run
    cases k.ready_list <;> rfl
  have e4 : is_thread (next_thread_to_run k).2 (next_thread_to_run k).1 = true := by
    rw [is_thread_iff, e2]
    exact (is_thread_iff _ _).1 hnext
  generalize hn : (next_thread_to_run k).1 = next at *
  generalize hk1 : (next_thread_to_run k).2 = k1 at *
  by_cases hcn : k.running_thread = next
  · subst hcn
    simp [schedule, hn, hk1, e1, e2, e3, hoff, hst, e4, thread_schedule_tail]
  · have hcn1 : ¬ next = k.running_thread := fun h => hcn h.symm
    simp [schedule, hn, hk1, e1, e2, e3, hoff, hst, e4, hcn, hcn1, thread_schedule_tail]

/-- The selection of `next_thread_to_run`, by the shape of the ready list. -/
theorem next_thread_to_run_eq (k : Kernel) :
    (k.ready_list = [] ∧ (next_thread_to_run k).1 = k.idle_thread ∧
      (next_thread_to_run k).2 = k) ∨
    (∃ e es, k.ready_list = e :: es ∧ (next_thread_to_run k).1 = e ∧
      (next_thread_to_run k).2 = { k with ready_list := es }) := by
  unfold next_thread_to_run
  cases k.ready_list with
  | nil => exact Or.inl ⟨rfl, rfl, rfl⟩
  | cons e es => exact Or.inr ⟨e, es, rfl, rfl, rfl⟩

/-- The dispatch from a state `k2` at the call of `schedule`, which differs from `k` in that
the running thread `cur` has been given the status `given`: `schedule` returns, and its
result is the outcome of a dispatch from `k`. -/
theorem schedule_dispatched (k k2 : Kernel) (cur : Nat) (given : thread_status)
    (hg : given ≠ THREAD_RUNNING)
    (hthr : k2.threads = store k.threads cur { k.threads cur with status := given })
    (hrun : k2.running_thread = cur) (hoff : k2.level = INTR_OFF)
    (honly : ∀ a, is_thread k a = true → (k.threads a).status = THREAD_RUNNING → a = cur)
    (hidle : is_thread k k2.idle_thread = true)
    (hvalid : ∀ a ∈ k2.ready_list, is_thread k a = true) (hnodup : k2.ready_list.Nodup) :
    ∃ k4, schedule k2 = some k4 ∧ dispatched k k4 cur (next_thread_to_run k2).1 given ∧
      k4.ready_list = (next_thread_to_run k2).2.ready_list ∧ k4.all_list = k2.all_list ∧
      k4.level = INTR_OFF := by
  have hmagic : ∀ a, (k2.threads a).magic = (k.threads a).magic := by
    intro a
    rw [hthr]
    by_cases ha : a = cur
    · rw [ha, store_same]
    · rw [store_other _ _ _ _ ha]
  have hit : ∀ a, is_thread k2 a = is_thread k a := by
    intro a
    unfold is_thread
    rw [hmagic]
  have hnot : ∀ a, is_thread k a = true → (k2.threads a).status ≠ THREAD_RUNNING := by
    intro a ha
    rw [hthr]
    by_cases hac : a = cur
    · rw [hac, store_same]
      exact hg
    · rw [store_other _ _ _ _ hac]
      exact fun h => hac (honly a ha h)
  have hframe : ∀ a, k2.threads a = { k.threads a with status := (k2.threads a).status } := by
    intro a
    rw [hthr]
    by_cases hac : a = cur
    · rw [hac, store_same]
    · rw [store_other _ _ _ _ hac]
  have hnext : is_thread k2 (next_thread_to_run k2).1 = true := by
    rcases next_thread_to_run_eq k2 with ⟨-, e, -⟩ | ⟨e, es, hl, e1, -⟩
    · rw [e, hit]
      exact hidle
    · rw [e1, hit]
      exact hvalid e (by rw [hl]; exact List.mem_cons_self _ _)
  have hnotin : (next_thread_to_run k2).1 ∉ (next_thread_to_run k2).2.ready_list := by
    rcases next_thread_to_run_eq k2 with ⟨hl, -, e2⟩ | ⟨e, es, hl, e1, e2⟩
    · rw [e2, hl]
      exact List.not_mem_nil _
    · rw [e1, e2]
      rw [hl] at hnodup
      exact (List.nodup_cons.1 hnodup).1
  have hlist : (next_thread_to_run k2).2.all_list = k2.all_list ∧
      (next_thread_to_run k2).2.level = k2.level := by
    rcases next_thread_to_run_eq k2 with ⟨-, -, e2⟩ | ⟨e, es, -, -, e2⟩ <;> rw [e2] <;> exact ⟨rfl, rfl⟩
  have hst : (k2.threads k2.running_thread).status ≠ THREAD_RUNNING := by
    rw [hrun, hthr, store_same]
    exact hg
  generalize hn : (next_thread_to_run k2).1 = next at *
  refine ⟨_, schedule_eq k2 hoff hst (by rw [hn]; exact hnext), ?_, rfl, hlist.1, ?_⟩
  · rw [hn]
    refine ⟨rfl, ?_, hnotin, rfl, ?_, ?_⟩
    · intro a ha
      have ha2 : is_thread k a = true := by
        rw [← hit, is_thread_iff]
        rw [is_thread_iff] at ha
        refine ⟨ha.1, ?_⟩
        have := ha.2
        by_cases han : a = next
        · rw [han] at this ⊢
          simpa [store_same] using this
        · simpa [store_other _ _ _ _ han] using this
      by_cases han : a = next
      · rw [han]
        simp [store_same]
      · simp only [store_other _ _ _ _ han, han, iff_false]
        exact hnot a ha2
    · intro hcn
      show (store k2.threads next _ cur).status = given
      rw [store_other _ _ _ _ hcn, hthr, store_same]
    · intro a
      by_cases han : a = next
      · rw [han]
        simp only [store_same]
        rw [hframe next]
      · simp only [store_other _ _ _ _ han]
        exact hframe a
  · show (next_thread_to_run k2).2.level = INTR_OFF
    rw [hlist.2, hoff]

/-- An ordered insertion of a new element keeps a list free of repetitions. -/
theorem list_insert_ordered_nodup (less : Nat → Nat → Bool) (x : Nat) (l : List Nat)
    (hl : l.Nodup) (hx : x ∉ l) : (list_insert_ordered l x less).Nodup := by
  obtain ⟨pre, post, h1, h2, -, -⟩ := list_insert_ordered_split less x l
  rw [h2, List.nodup_middle, List.nodup_cons, ← h1]
  exact ⟨hx, hl⟩

/-- The selection of `next_thread_to_run` depends on the ready list and the idle thread
only. -/
theorem next_thread_to_run_congr (k k1 : Kernel) (h1 : k1.ready_list = k.ready_list)
    (h2 : k1.idle_thread = k.idle_thread) :
    (next_thread_to_run k1).1 = (next_thread_to_run k).1 ∧
    (next_thread_to_run k1).2.ready_list = (next_thread_to_run k).2.ready_list := by
  unfold next_thread_to_run
  rw [h1]
  cases k.ready_list with
  | nil => exact ⟨h2, h1⟩
  | cons e es => exact ⟨rfl, rfl⟩

/-- C23, amended. Let the running thread `cur` be the only TCB with status running, outside
an interrupt handler, let the idle thread exist and let the ready registry hold valid TCBs,
each once, and not `cur`. Then `thread_yield`, `thread_block` (called with interrupts off)
and `thread_exit` (entered from a state that `process_exit` turns into this one, when the
thread selected is not the exiting one) return from `schedule` and `thread_schedule_tail`
with exactly one TCB of status running, namely the thread that `next_thread_to_run` selected;
that thread is not in the ready registry, which is the rest that `next_thread_to_run` left;
the time-slice counter is 0; the previous thread has the status it was given (ready, blocked
or dying) unless it is itself the thread selected, which is running; only `status` members
were written, and `thread_exit` has taken the previous thread out of the all-threads
registry. -/
theorem dispatch_one_running (process_exit : Kernel → Option Kernel) (k : Kernel) (cur : Nat)
    (h : dispatch_ready k cur) :
    (∃ k', thread_yield k = some k' ∧
      dispatched k k' cur
        (next_thread_to_run { k with ready_list := ready_list_of_yield k cur }).1
        THREAD_READY ∧
      k'.ready_list =
        (next_thread_to_run { k with ready_list := ready_list_of_yield k cur }).2.ready_list) ∧
    (k.level = INTR_OFF →
      ∃ k', thread_block k = some k' ∧
        dispatched k k' cur (next_thread_to_run k).1 THREAD_BLOCKED ∧
        k'.ready_list = (next_thread_to_run k).2.ready_list) ∧
    (∀ k0, k0.intr_context = false → process_exit k0 = some k →
      (next_thread_to_run k).1 ≠ cur →
      ∃ k', thread_exit process_exit k0 = some k' ∧
        dispatched k k' cur (next_thread_to_run k).1 THREAD_DYING ∧
        k'.ready_list = (next_thread_to_run k).2.ready_list ∧
        k'.all_list = k.all_list.erase cur) := by
  obtain ⟨hc, hctx, honly, hidle, hvalid, hnodup, hcur⟩ := h
  obtain ⟨hrun, hthr, hst⟩ := (thread_current_eq_some k cur).1 hc
  refine ⟨?_, ?_, ?_⟩
  · generalize hK3 : ({ k with level := INTR_OFF, ready_list := ready_list_of_yield k cur, threads := (store k.threads cur { k.threads cur with status := THREAD_READY }) } : Kernel) = K3
    have hy : thread_yield k = match schedule K3 with
        | none => none
        | some k4 =>
          if k4.running_thread = cur then some { k4 with level := k.level } else some k4 := by
      rw [← hK3]
      unfold thread_yield ready_list_of_yield
      simp only [hc, hctx]
      by_cases hi : cur = k.idle_thread
      · simp [hi]
      · simp [hi, thread_compare_priority_eq]
    obtain ⟨n1, n2⟩ := next_thread_to_run_congr
      { k with ready_list := ready_list_of_yield k cur } K3 (by rw [← hK3]) (by rw [← hK3])
    have hval3 : ∀ a ∈ K3.ready_list, is_thread k a = true := by
      intro a ha
      rw [← hK3] at ha
      change a ∈ ready_list_of_yield k cur at ha
      unfold ready_list_of_yield at ha
      split_ifs at ha
      · rcases (mem_list_insert_ordered _ _ _ _).1 ha with rfl | ha
        · exact hthr
        · exact hvalid a ha
      · exact hvalid a ha
    have hnd3 : K3.ready_list.Nodup := by
      rw [← hK3]
      change (ready_list_of_yield k cur).Nodup
      unfold ready_list_of_yield
      split_ifs
      · exact list_insert_ordered_nodup _ _ _ hnodup hcur
      · exact hnodup
    obtain ⟨k4, s1, s2, s3, -, -⟩ := schedule_dispatched k K3 cur THREAD_READY (by decide)
      (by rw [← hK3]) (by rw [← hK3]; exact hrun) (by rw [← hK3]) honly
      (by rw [← hK3]; exact hidle) hval3 hnd3
    rw [n1] at s2
    rw [n2] at s3
    rw [hy, s1]
    by_cases hk : k4.running_thread = cur
    · exact ⟨{ k4 with level := k.level }, by simp only [hk, if_true], s2, s3⟩
    · exact ⟨k4, by simp only [hk, if_false], s2, s3⟩
  · intro hoff
    generalize hK2 : ({ k with threads := (store k.threads cur { k.threads cur with status := THREAD_BLOCKED }) } : Kernel) = K2
    have hb : thread_block k = schedule K2 := by
      rw [← hK2]
      unfold thread_block
      simp [hc, hctx, hoff]
    obtain ⟨n1, n2⟩ := next_thread_to_run_congr k K2 (by rw [← hK2]) (by rw [← hK2])
    obtain ⟨k4, s1, s2, s3, -, -⟩ := schedule_dispatched k K2 cur THREAD_BLOCKED (by decide)
      (by rw [← hK2]) (by rw [← hK2]; exact hrun) (by rw [← hK2]; exact hoff) honly
      (by rw [← hK2]; exact hidle) (by rw [← hK2]; exact hvalid) (by rw [← hK2]; exact hnodup)
    rw [n1] at s2
    rw [n2] at s3
    exact ⟨k4, by rw [hb, s1], s2, s3⟩
  · intro k0 hctx0 hpe hne
    generalize hK4 : ({ k with level := INTR_OFF, all_list := k.all_list.erase cur, threads := (store k.threads cur { k.threads cur with status := THREAD_DYING }) } : Kernel) = K4
    have hc2 : thread_current { k with level := INTR_OFF } = some cur := by
      rw [thread_current_eq_some]
      exact ⟨hrun, hthr, hst⟩
    have hc3 : thread_current { k with level := INTR_OFF, all_list := k.all_list.erase cur } =
        some cur := by
      rw [thread_current_eq_some]
      exact ⟨hrun, hthr, hst⟩
    have he : thread_exit process_exit k0 = match schedule K4 with
        | none => none
        | some k4 => if k4.running_thread = cur then none else some k4 := by
      rw [← hK4]
      unfold thread_exit
      simp only [hctx0, hpe, hc2, hc3]
      rfl
    obtain ⟨n1, n2⟩ := next_thread_to_run_congr k K4 (by rw [← hK4]) (by rw [← hK4])
    obtain ⟨k4, s1, s2, s3, s4, -⟩ := schedule_dispatched k K4 cur THREAD_DYING (by decide)
      (by rw [← hK4]) (by rw [← hK4]; exact hrun) (by rw [← hK4]) honly
      (by rw [← hK4]; exact hidle) (by rw [← hK4]; exact hvalid) (by rw [← hK4]; exact hnodup)
    rw [n1] at s2
    rw [n2] at s3
    have hk : k4.running_thread ≠ cur := by
      rw [s2.1]
      exact hne
    refine ⟨k4, ?_, s2, s3, ?_⟩
    · rw [he, s1]
      simp only [hk, if_false]
    · rw [s4, ← hK4]

/-- Counterexample to C23. In `idle_demo` the idle thread is the only running TCB and nothing
is ready: its `thread_block` selects the idle thread again, which is then running and not
blocked as it was given. In `ab_demo` thread 1 is the only running TCB and nothing is ready:
its `thread_yield` selects thread 1 again, which is then running and not ready. -/
theorem dispatch_back_to_previous_thread :
    dispatch_ready idle_demo 2 ∧ idle_demo.level = INTR_OFF ∧
    (thread_block idle_demo).map
        (fun k' => (k'.running_thread, (k'.threads 2).status, k'.thread_ticks)) =
      some (2, THREAD_RUNNING, 0) ∧
    (¬ ∃ k', thread_block idle_demo = some k' ∧ (k'.threads 2).status = THREAD_BLOCKED) ∧
    dispatch_ready ab_demo 1 ∧
    (thread_yield ab_demo).map (fun k' => (k'.running_thread, (k'.threads 1).status)) =
      some (1, THREAD_RUNNING) ∧
    (¬ ∃ k', thread_yield ab_demo = some k' ∧ (k'.threads 1).status = THREAD_READY) := by
  refine ⟨⟨by decide, rfl, ?_, by decide, by decide, by decide, by decide⟩, rfl, by decide, ?_,
    ⟨by decide, rfl, ?_, by decide, by decide, by decide, by decide⟩, by decide, ?_⟩
  · intro a _ h
    by_cases ha : a = 2
    · exact ha
    · simp [idle_demo, ha, tcb] at h
  · rintro ⟨k', h1, h2⟩
    have hm : (thread_block idle_demo).map (fun k' => (k'.threads 2).status) =
        some THREAD_RUNNING := by decide
    rw [h1, Option.map_some', h2] at hm
    exact absurd hm (by decide)
  · intro a _ h
    by_cases ha : a = 1
    · exact ha
    · by_cases ha3 : a = 3
      · simp [ab_demo, ha, ha3, tcb] at h
      · simp [ab_demo, ha, ha3, tcb] at h
  · rintro ⟨k', h1, h2⟩
    have hm : (thread_yield ab_demo).map (fun k' => (k'.threads 1).status) =
        some THREAD_RUNNING := by decide
    rw [h1, Option.map_some', h2] at hm
    exact absurd hm (by decide)

/-- Witness of C23 on `dispatch_demo`, where thread 1 (priority 31) runs and threads 3, 4, 5
(priorities 40, 31, 20) are ready, with a `process_exit` that leaves the state as it is:
each of the three calls dispatches thread 3; after `thread_yield` thread 1 is ready, behind
thread 4, after `thread_block` it is blocked, after `thread_exit` it is dying and out of the
all-threads registry. -/
theorem dispatch_one_running_witness :
    dispatch_ready dispatch_demo 1 ∧
    ((∃ k', thread_yield dispatch_demo = some k' ∧
      dispatched dispatch_demo k' 1
        (next_thread_to_run
          { dispatch_demo with ready_list := ready_list_of_yield dispatch_demo 1 }).1
        THREAD_READY ∧
      k'.ready_list =
        (next_thread_to_run
          { dispatch_demo with ready_list := ready_list_of_yield dispatch_demo 1 }).2.ready_list) ∧
    (dispatch_demo.level = INTR_OFF →
      ∃ k', thread_block dispatch_demo = some k' ∧
        dispatched dispatch_demo k' 1 (next_thread_to_run dispatch_demo).1 THREAD_BLOCKED ∧
        k'.ready_list = (next_thread_to_run dispatch_demo).2.ready_list) ∧
    (∀ k0, k0.intr_context = false → (fun k => some k) k0 = some dispatch_demo →
      (next_thread_to_run dispatch_demo).1 ≠ 1 →
      ∃ k', thread_exit (fun k => some k) k0 = some k' ∧
        dispatched dispatch_demo k' 1 (next_thread_to_run dispatch_demo).1 THREAD_DYING ∧
        k'.ready_list = (next_thread_to_run dispatch_demo).2.ready_list ∧
        k'.all_list = dispatch_demo.all_list.erase 1)) ∧
    (thread_yield dispatch_demo).map
        (fun k' => (k'.running_thread, (k'.threads 3).status, (k'.threads 1).status,
          k'.ready_list)) = some (3, THREAD_RUNNING, THREAD_READY, [4, 1, 5]) ∧
    (thread_block dispatch_demo).map
        (fun k' => (k'.running_thread, (k'.threads 3).status, (k'.threads 1).status,
          k'.ready_list)) = some (3, THREAD_RUNNING, THREAD_BLOCKED, [4, 5]) ∧
    (thread_exit (fun k => some k) dispatch_demo).map
        (fun k' => (k'.running_thread, (k'.threads 3).status, (k'.threads 1).status,
          k'.ready_list)) = some (3, THREAD_RUNNING, THREAD_DYING, [4, 5]) ∧
    (thread_exit (fun k => some k) dispatch_demo).map (fun k' => k'.all_list) =
      some [2, 3, 4, 5, 6] := by
  have hd : dispatch_ready dispatch_demo 1 := by
    refine ⟨by decide, rfl, ?_, by decide, by decide, by decide, by decide⟩
    intro a _ h
    by_contra ha
    have h' : (ready_demo_threads a).status = THREAD_RUNNING := h
    unfold ready_demo_threads at h'
    split_ifs at h' <;> simp_all [tcb]
  exact ⟨hd, dispatch_one_running (fun k => some k) dispatch_demo 1 hd, by decide, by decide,
    by decide, by decide⟩

/-! ## C24: a failed `thread_create` -/

/-- C24, at the failing input. On `ready_demo`, whose all-threads registry is 1 to 6, a
`thread_create` that gets the page 7 for the TCB but none for the PCB, or none for the
file-descriptor table, returns `TID_ERROR` and leaves the blocked thread 7 in the
all-threads registry, with the tid 7 used up; the ready registry and the creator's child
list are as before. When there is no page for the TCB the registry is as before. -/
theorem thread_create_failure_keeps_thread :
    ready_demo.all_list = [1, 2, 3, 4, 5, 6] ∧ ready_demo.next_tid = 7 ∧
    (thread_create demo_h ready_demo 20 1 7 0 9).map (fun r => (r.1, r.2.all_list)) =
      some (demo_h.TID_ERROR, [1, 2, 3, 4, 5, 6, 7]) ∧
    (thread_create demo_h ready_demo 20 1 7 8 0).map (fun r => (r.1, r.2.all_list)) =
      some (demo_h.TID_ERROR, [1, 2, 3, 4, 5, 6, 7]) ∧
    (thread_create demo_h ready_demo 20 1 7 0 9).map
        (fun r => ((r.2.threads 7).status, (r.2.threads 7).tid, r.2.next_tid)) =
      some (THREAD_BLOCKED, 7, 8) ∧
    (thread_create demo_h ready_demo 20 1 7 0 9).map
        (fun r => (r.2.ready_list, (r.2.threads 1).child_list)) =
      some (ready_demo.ready_list, (ready_demo.threads 1).child_list) ∧
    (thread_create demo_h ready_demo 20 1 0 8 9).map (fun r => (r.1, r.2.all_list)) =
      some (demo_h.TID_ERROR, [1, 2, 3, 4, 5, 6]) ∧
    (thread_create demo_h ready_demo 20 1 7 0 9).map (fun r => r.2.all_list) ≠
      some ready_demo.all_list := by
  decide

/-! ## C25: the ready registry after a donation -/

/-- C25, at the failing input `inversion_demo`. The ready registry 3, 4 is in descending
order of priority (20, 10). `donate_priority` gives the holder, thread 4, the priority 30 of
the running thread and leaves the registry as it is, so that it is no longer in descending
order, and `next_thread_to_run` selects thread 3, of priority 20, while thread 4 is ready
with priority 30. -/
theorem donate_priority_unsorts_ready_list :
    sorted_by_priority inversion_demo inversion_demo.ready_list ∧
    (donate_priority demo_h inversion_demo).map
        (fun k' => (k'.ready_list, (k'.threads 3).priority, (k'.threads 4).priority)) =
      some ([3, 4], 20, 30) ∧
    (¬ ∃ k', donate_priority demo_h inversion_demo = some k' ∧
      sorted_by_priority k' k'.ready_list) ∧
    (donate_priority demo_h inversion_demo).map
        (fun k' => ((next_thread_to_run k').1, (k'.threads (next_thread_to_run k').1).priority)) =
      some (3, 20) := by
  refine ⟨?_, by decide, ?_, by decide⟩
  · unfold sorted_by_priority
    decide
  · rintro ⟨k', h1, h2⟩
    have hm : (donate_priority demo_h inversion_demo).map
        (fun k' => (k'.ready_list, (k'.threads 3).priority, (k'.threads 4).priority)) =
        some ([3, 4], 20, 30) := by decide
    rw [h1, Option.map_some'] at hm
    simp only [Option.some.injEq, Prod.mk.injEq] at hm
    obtain ⟨e1, e2, e3⟩ := hm
    unfold sorted_by_priority at h2
    rw [e1] at h2
    have := List.rel_of_pairwise_cons h2 (List.mem_cons_self 4 [])
    rw [e2, e3] at this
    exact absurd this (by decide)

/-! ## C17: the update of the load average -/

/-- Counterexample to C17: in `crowded_demo` the load average is 0 and `2 ^ 17` threads are
counted, so that `(59/60) * 0 + (1/60) * 131072`, about 2184.5, is 35791394 units, a
representable number; the count itself has no fixed-point image, and the update stores
-35782656. -/
theorem mlfqs_update_load_avg_count_overflow :
    thread_current crowded_demo = some 1 ∧
    crowded_demo.load_avg = 0 ∧
    ready_count crowded_demo = 131072 ∧
    load_avg_exact 0 131072 = 35791394 ∧
    representable (load_avg_exact 0 131072) ∧
    (mlfqs_update_load_avg crowded_demo).map (fun k' => k'.load_avg) = some (-35782656) ∧
    (mlfqs_update_load_avg crowded_demo).map (fun k' => k'.load_avg) ≠
      some (273 * ready_count crowded_demo) := by
  have hc : thread_current crowded_demo = some 1 := by decide
  have hlen : crowded_demo.ready_list.length = 131071 := List.length_range' _ _ _
  have hcount : ready_count crowded_demo = 131072 := by
    unfold ready_count
    rw [hlen]
    decide
  have hres : mlfqs_update_load_avg crowded_demo =
      some { crowded_demo with load_avg := -35782656 } := by
    rw [mlfqs_update_load_avg_eq crowded_demo 1 hc (by rw [hlen]; decide), hcount]
    have : load_avg_formula crowded_demo.load_avg 131072 = -35782656 := by decide
    rw [this]
  refine ⟨hc, rfl, hcount, by decide, by decide, by rw [hres]; rfl, ?_⟩
  rw [hres, hcount]
  decide

/-- C17, amended. For a valid running thread, a load average that is a 32-bit number and a
count of ready threads below `2 ^ 17`, where the count is the number of threads in the ready
registry plus one if the running thread is not the idle thread: `mlfqs_update_load_avg`
returns and changes the load average only; the new load average is
`16110 * load_avg / 2 ^ 14 + 273 * count`, the division truncating, where 16110 and 273 are
59/60 and 1/60 in fixed point; for a load average that is not negative this is at most the
exact `(59/60) * load_avg + (1/60) * count` in units of `2 ^ -14`, and short of it by at most
two units plus a fifteenth of the count plus the integer part of the load average. -/
theorem mlfqs_update_load_avg_sixtieths (k : Kernel) (cur : Nat)
    (hc : thread_current k = some cur)
    (hl : representable k.load_avg)
    (hn : ready_count k < 2 ^ 17) :
    ∃ k', mlfqs_update_load_avg k = some k' ∧
      k' = { k with load_avg := k'.load_avg } ∧
      (cur ≠ k.idle_thread → ready_count k = (k.ready_list.length : Int) + 1) ∧
      (cur = k.idle_thread → ready_count k = (k.ready_list.length : Int)) ∧
      k'.load_avg = (16110 * k.load_avg).tdiv 16384 + 273 * ready_count k ∧
      fp_div (int_fp 59) (int_fp 60) = 16110 ∧ fp_div (int_fp 1) (int_fp 60) = 273 ∧
      (0 ≤ k.load_avg →
        k'.load_avg ≤ load_avg_exact k.load_avg (ready_count k) ∧
        load_avg_exact k.load_avg (ready_count k) ≤
          k'.load_avg + 2 + ready_count k / 15 + k.load_avg / FP_SCALE) := by
  have hF : FP_SCALE = 16384 := by decide
  obtain ⟨hrun, -, -⟩ := (thread_current_eq_some k cur).1 hc
  have hlen0 : (0 : Int) ≤ (k.ready_list.length : Int) := Int.natCast_nonneg _
  have hcount : ready_count k =
      if cur ≠ k.idle_thread then (k.ready_list.length : Int) + 1
      else (k.ready_list.length : Int) := by
    unfold ready_count
    rw [hrun]
    split_ifs <;> simp_all
  have hcount0 : 0 ≤ ready_count k ∧ (k.ready_list.length : Int) ≤ ready_count k := by
    rw [hcount]
    split_ifs <;> omega
  have hlen : (k.ready_list.length : Int) + 1 < 2 ^ 31 := by
    norm_num at hn ⊢
    omega
  have hval := load_avg_formula_eq k.load_avg (ready_count k) hl ⟨hcount0.1, hn⟩
  refine ⟨_, mlfqs_update_load_avg_eq k cur hc hlen, rfl, ?_, ?_, hval, fp_sixtieths.1,
    fp_sixtieths.2, ?_⟩
  · intro h
    rw [hcount, if_pos h]
  · intro h
    rw [hcount, if_neg (by simpa using h)]
  · intro h0
    show load_avg_formula k.load_avg (ready_count k) ≤ _ ∧
      _ ≤ load_avg_formula k.load_avg (ready_count k) + 2 + _ + _
    rw [hval, tdiv_of_pos _ _ (by norm_num), if_pos (by omega)]
    unfold load_avg_exact
    rw [hF]
    have := hcount0.1
    norm_num at hn
    constructor <;> omega

/-- Witness of C17: with a load average of 0, an empty ready registry and a running thread
that is not the idle thread, the new load average is 273, the fixed-point value of 1/60 and
the exact value rounded down; on `mlfqs_demo` with a load average of 1.0 and three ready
threads it is `16110 + 273 * 4`; with the idle thread running, three threads are counted. -/
theorem mlfqs_update_load_avg_sixtieths_witness :
    thread_current { mlfqs_demo with ready_list := [] } = some 1 ∧
    ready_count { mlfqs_demo with ready_list := [] } = 1 ∧
    (∃ k', mlfqs_update_load_avg { mlfqs_demo with ready_list := [] } = some k' ∧
      k' = { ({ mlfqs_demo with ready_list := [] } : Kernel) with load_avg := k'.load_avg } ∧
      ((1 : Nat) ≠ 2 → ready_count { mlfqs_demo with ready_list := [] } = ((0 : Nat) : Int) + 1) ∧
      ((1 : Nat) = 2 → ready_count { mlfqs_demo with ready_list := [] } = ((0 : Nat) : Int)) ∧
      k'.load_avg = (16110 * 0 : Int).tdiv 16384 +
        273 * ready_count { mlfqs_demo with ready_list := [] } ∧
      fp_div (int_fp 59) (int_fp 60) = 16110 ∧ fp_div (int_fp 1) (int_fp 60) = 273 ∧
      ((0 : Int) ≤ 0 →
        k'.load_avg ≤ load_avg_exact 0 (ready_count { mlfqs_demo with ready_list := [] }) ∧
        load_avg_exact 0 (ready_count { mlfqs_demo with ready_list := [] }) ≤
          k'.load_avg + 2 + ready_count { mlfqs_demo with ready_list := [] } / 15 +
            0 / FP_SCALE)) ∧
    (mlfqs_update_load_avg { mlfqs_demo with ready_list := [] }).map (fun k' => k'.load_avg) =
      some 273 ∧
    load_avg_exact 0 1 = 273 ∧
    (mlfqs_update_load_avg { mlfqs_demo with load_avg := 16384 }).map (fun k' => k'.load_avg) =
      some (16110 + 273 * 4) ∧
    load_avg_exact 16384 4 = 17203 ∧
    (mlfqs_update_load_avg { mlfqs_demo with running_thread := 2, threads := (fun a => if a = 2 then tcb THREAD_RUNNING 0 else mlfqs_demo.threads a) }).map
        (fun k' => k'.load_avg) = some (273 * 3) :=
  ⟨by decide, by decide,
    mlfqs_update_load_avg_sixtieths { mlfqs_demo with ready_list := [] } 1 (by decide)
      (by decide) (by decide),
    by decide, by decide, by decide, by decide, by decide⟩

end Pintos
